import Mathlib

/-!
# Manta dashboard service: reconciliation pipeline

A shallow embedding of the ingestion path of the dashboard service
(`internal/services/sync.go`, `internal/services/person.go`, the poll loop of
`internal/firebase/firebase.go`) and of its reports
(`internal/services/stats.go` over the cache of `internal/db/redis.go`),
together with the part of the relational schema they touch
(`internal/models`).

The relational store is a record of tables, each table a list of rows.  The
GORM calls of the source are rendered by what they do to those lists:

* every model embeds `Base`, whose `DeletedAt` column turns on GORM's soft
  deletion: every `First`, `Count` and `Updates` only sees rows whose
  `DeletedAt` is unset;
* `Create` is refused by the store when the primary key of the new row is
  already present in the table, or when a unique index of the table is
  violated (`persons.person_hash` carries `uniqueIndex`); tombstoned rows
  still occupy their keys;
* an id drawn by `uuid.New()` is taken to be fresh: it is a key of its own
  kind that no other row carries;
* the connection to the store is up: the only errors are the ones the
  contents of the store decide;
* a raw SQL query sees the table as it is: GORM adds no condition to it.

The cache is a list of keyed entries with two switches for an unreachable
Redis (reads fail, writes fail); an entry holds the value its JSON document
encodes, and entries do not expire while a query runs.  The event feed is an
input: what it answers to each fetch.

Left out of the rows: the wall-clock bookkeeping columns (`created_at`,
`updated_at`), which no query of the services reads; the relationship fields,
which serve preloading; column widths.  Timestamps are whole Unix seconds, as
`time.Unix(int64(timestamp), 0)` makes them, and `visit_count` is an unbounded
integer.
-/

namespace Manta

/-! ## Values arriving from the event source -/

/-- Unix time in seconds, the value of `time.Unix(sec, 0)`. -/
abbrev Time := Int

/-- A finite `float64`: the number `m * 2 ^ e`. -/
structure Float64 where
  m : Int
  e : Int
deriving DecidableEq, Repr

/-- Go's conversion `int64(f)`: the fractional part is discarded (rounding
towards zero).  For a value outside the range of `int64` the result is the
one of the amd64 conversion instruction, the smallest `int64`. -/
def Float64.toInt64 (f : Float64) : Int :=
  let truncated : Int :=
    if 0 ≤ f.e then f.m * 2 ^ f.e.toNat else Int.tdiv f.m (2 ^ (-f.e).toNat)
  if -2 ^ 63 ≤ truncated ∧ truncated < 2 ^ 63 then truncated else -2 ^ 63

/-- A decoded JSON value, the dynamic type behind `interface{}`. -/
inductive Value where
  | null
  | bool (b : Bool)
  | number (f : Float64)
  | string (s : String)
  | object
deriving DecidableEq, Repr

/-- The payload `map[string]interface{}` of one event. -/
abbrev RawData := List (String × Value)

/-- Map indexing `data[k]`; `none` when the key is absent. -/
def RawData.get (data : RawData) (k : String) : Option Value :=
  match data with
  | [] => none
  | (k', v) :: rest => if k' = k then some v else RawData.get rest k

/-- The type assertion `data[k].(string)`, with its `ok` flag as `Option`. -/
def RawData.getString (data : RawData) (k : String) : Option String :=
  match data.get k with
  | some (Value.string s) => some s
  | _ => none

/-- The type assertion `data[k].(float64)`, with its `ok` flag as `Option`. -/
def RawData.getFloat64 (data : RawData) (k : String) : Option Float64 :=
  match data.get k with
  | some (Value.number f) => some f
  | _ => none

/-! ## Models -/

/-- The primary key of a row whose id the service may draw itself.
`generated` stands for a value of `uuid.New()`: it is different from every
other key, so it never collides and nothing refers to it; `given` is an id
that came with the event. -/
inductive RowID where
  | given (s : String)
  | generated
deriving DecidableEq, Repr

/-- The columns of `models.Base` the services depend on, for a table whose
primary key is read as a `κ`. -/
structure Base (κ : Type) where
  ID : κ
  DeletedAt : Option Time := none
deriving DecidableEq, Repr

/-- The row `models.Organization`. -/
structure Organization extends Base String where
  Name : String := ""
deriving DecidableEq, Repr

/-- The row `models.Camera`. -/
structure Camera extends Base String where
  OrganizationID : String
deriving DecidableEq, Repr

/-- The row `models.PersonLog`. -/
structure PersonLog extends Base RowID where
  Timestamp : Time
  PersonHash : String
  CameraID : String
  IsNewPerson : Bool
  OrganizationID : String
deriving DecidableEq, Repr

/-- The row `models.Person`. -/
structure Person extends Base RowID where
  PersonHash : String
  FirstSeen : Time
  LastSeen : Time
  VisitCount : Int
  OrganizationID : String
deriving DecidableEq, Repr

/-- The row `models.FaceImage`. -/
structure FaceImage extends Base RowID where
  PersonHash : String
  ImageURL : String := ""
  OrganizationID : String
  CameraID : String
deriving DecidableEq, Repr

/-- The row `models.User`. -/
structure User extends Base String where
  Email : String := ""
  OrganizationID : String
deriving DecidableEq, Repr

/-- The row `models.APIKey`. -/
structure APIKey extends Base String where
  KeyValue : String := ""
  OrganizationID : String
deriving DecidableEq, Repr

/-- The relational store.  `organizations` is listed in primary-key order,
the order in which an unfiltered `First` scans it. -/
structure Store where
  organizations : List Organization := []
  cameras : List Camera := []
  personLogs : List PersonLog := []
  persons : List Person := []
  faceImages : List FaceImage := []
  users : List User := []
  apiKeys : List APIKey := []
deriving DecidableEq, Repr

/-- A row that soft deletion has not tombstoned. -/
def Base.live {κ : Type} (b : Base κ) : Bool := b.DeletedAt.isNone

/-- The store refuses a row whose primary key is already in the table. -/
def pkTaken (ids : List RowID) (id : RowID) : Bool :=
  match id with
  | RowID.given s => ids.contains (RowID.given s)
  | RowID.generated => false

/-! ## `sync.go` -/

/-- The errors `syncLogToPostgres` returns, one per `fmt.Errorf` site. -/
inductive SyncError where
  | timestamp
  | personHash
  | cameraID
  | defaultOrganization
  | create
deriving DecidableEq, Repr

/-- The local variables of `syncLogToPostgres` after lines 85--108. -/
structure Event where
  id : RowID
  timestampTime : Time
  personHash : String
  cameraID : String
deriving DecidableEq, Repr

/-- Lines 85--108 of `syncLogToPostgres`: the id, the three required
fields, and the conversion of the timestamp. -/
def decodeEvent (data : RawData) : Except SyncError Event :=
  let id := (data.getString "id").getD ""
  let id := if id = "" then RowID.generated else RowID.given id
  match data.getFloat64 "timestamp" with
  | none => Except.error SyncError.timestamp
  | some timestamp =>
    match data.getString "person_hash" with
    | none => Except.error SyncError.personHash
    | some personHash =>
      if personHash = "" then Except.error SyncError.personHash
      else
        match data.getString "camera_id" with
        | none => Except.error SyncError.cameraID
        | some cameraID =>
          if cameraID = "" then Except.error SyncError.cameraID
          else Except.ok
            { id := id, timestampTime := timestamp.toInt64,
              personHash := personHash, cameraID := cameraID }

/-- Lines 110--123: the organization of the camera, else of the first
organization of the store, else nothing. -/
def resolveOrganization (s : Store) (cameraID : String) : Option String :=
  match s.cameras.find? (fun c => c.live && decide (c.ID = cameraID)) with
  | some camera => some camera.OrganizationID
  | none =>
    match s.organizations.find? (fun o => o.live) with
    | some defaultOrg => some defaultOrg.ID
    | none => none

/-- The filter of lines 127--130: a live row with the dedup key. -/
def PersonLog.hasKey (personHash cameraID : String) (t : Time) (l : PersonLog) : Bool :=
  l.live && decide (l.PersonHash = personHash) && decide (l.CameraID = cameraID)
    && decide (l.Timestamp = t)

/-- The filter of lines 144--147: a live row of the hash, strictly earlier. -/
def PersonLog.isEarlier (personHash : String) (t : Time) (l : PersonLog) : Bool :=
  l.live && decide (l.PersonHash = personHash) && decide (l.Timestamp < t)

/-! ## `person.go` -/

/-- The errors `CreateOrUpdatePerson` returns. -/
inductive PersonError where
  | create
deriving DecidableEq, Repr

deriving instance DecidableEq for Except

/-- The filter of `CreateOrUpdatePerson`'s lookup. -/
def Person.keyedBy (personHash organizationID : String) (p : Person) : Bool :=
  p.live && decide (p.PersonHash = personHash) && decide (p.OrganizationID = organizationID)

/-- Rewrite the first row satisfying `q`: an `UPDATE` addressed to the one
row a preceding `First` returned. -/
def updateFirst {α : Type} (q : α → Bool) (f : α → α) : List α → List α
  | [] => []
  | x :: xs => if q x then f x :: xs else x :: updateFirst q f xs

/-- What a call of `CreateOrUpdatePerson` leaves behind: the store, the
caller's `personLog` (passed by pointer), and the returned pair. -/
structure PersonResult where
  store : Store
  personLog : PersonLog
  result : Except PersonError Person
deriving DecidableEq, Repr

/-- The method `PersonService.CreateOrUpdatePerson` (person.go, 97--143). -/
def CreateOrUpdatePerson (s : Store) (personLog : PersonLog) : PersonResult :=
  match s.persons.find? (Person.keyedBy personLog.PersonHash personLog.OrganizationID) with
  | none =>
    -- isNewPerson: the row is built and handed to Create
    let person : Person :=
      { ID := RowID.generated, PersonHash := personLog.PersonHash,
        FirstSeen := personLog.Timestamp, LastSeen := personLog.Timestamp,
        VisitCount := 1, OrganizationID := personLog.OrganizationID }
    if s.persons.any (fun p => decide (p.PersonHash = personLog.PersonHash)) then
      -- unique index on persons.person_hash
      { store := s, personLog := personLog, result := Except.error PersonError.create }
    else
      { store := { s with persons := s.persons ++ [person] },
        personLog := { personLog with IsNewPerson := true },
        result := Except.ok person }
  | some person =>
    -- Updates: last_seen, visit_count + 1 on the row just read
    let persons := updateFirst (Person.keyedBy personLog.PersonHash personLog.OrganizationID)
      (fun p => { p with LastSeen := personLog.Timestamp, VisitCount := p.VisitCount + 1 })
      s.persons
    { store := { s with persons := persons },
      personLog := { personLog with IsNewPerson := false },
      result := Except.ok { person with LastSeen := personLog.Timestamp } }

/-- The first statement of `CreateOrUpdatePerson` (person.go, 100--102): the
`First` on the hash and the organization of the log. -/
def firstPerson (s : Store) (personLog : PersonLog) : Option Person :=
  s.persons.find? (Person.keyedBy personLog.PersonHash personLog.OrganizationID)

/-- The second statement of `CreateOrUpdatePerson` when `First` found no row
(lines 107--122, 140--142): the `Create`, refused when the person hash is in
the unique index, and the return. -/
def createPerson (s : Store) (personLog : PersonLog) : PersonResult :=
  let person : Person :=
    { ID := RowID.generated, PersonHash := personLog.PersonHash,
      FirstSeen := personLog.Timestamp, LastSeen := personLog.Timestamp,
      VisitCount := 1, OrganizationID := personLog.OrganizationID }
  if s.persons.any (fun p => decide (p.PersonHash = personLog.PersonHash)) then
    { store := s, personLog := personLog, result := Except.error PersonError.create }
  else
    { store := { s with persons := s.persons ++ [person] },
      personLog := { personLog with IsNewPerson := true },
      result := Except.ok person }

/-- The second statement of `CreateOrUpdatePerson` when `First` returned a row
(lines 126--142): the `Updates` of that row, which sets `last_seen` and adds
one to `visit_count` in the database, and the return.  The row is the one of
the hash and the organization that is not deleted. -/
def updatePerson (s : Store) (person : Person) (personLog : PersonLog) : PersonResult :=
  let persons := updateFirst (Person.keyedBy personLog.PersonHash personLog.OrganizationID)
    (fun p => { p with LastSeen := personLog.Timestamp, VisitCount := p.VisitCount + 1 })
    s.persons
  { store := { s with persons := persons },
    personLog := { personLog with IsNewPerson := false },
    result := Except.ok { person with LastSeen := personLog.Timestamp } }

/-- A call of `CreateOrUpdatePerson` in progress: before its `First`, after a
`First` that found no row, after a `First` that returned a row, and after it
has returned, with the log it was handed and the returned pair. -/
inductive Caller where
  | called (personLog : PersonLog)
  | missing (personLog : PersonLog)
  | found (personLog : PersonLog) (person : Person)
  | returned (personLog : PersonLog) (result : Except PersonError Person)
deriving DecidableEq, Repr

/-- The next statement of a call, run on the store: each of the two
statements of `CreateOrUpdatePerson` is a transaction of its own. -/
def Caller.step (s : Store) : Caller → Store × Caller
  | Caller.called personLog =>
    match firstPerson s personLog with
    | none => (s, Caller.missing personLog)
    | some person => (s, Caller.found personLog person)
  | Caller.missing personLog =>
    ((createPerson s personLog).store,
      Caller.returned (createPerson s personLog).personLog (createPerson s personLog).result)
  | Caller.found personLog person =>
    ((updatePerson s person personLog).store,
      Caller.returned (updatePerson s person personLog).personLog
        (updatePerson s person personLog).result)
  | Caller.returned personLog result => (s, Caller.returned personLog result)

/-- The statements of several calls in the order the database runs them: the
schedule names, step by step, the call whose next statement runs. -/
def runSchedule (s : Store) (callers : List Caller) : List Nat → Store × List Caller
  | [] => (s, callers)
  | i :: rest =>
    match callers[i]? with
    | none => runSchedule s callers rest
    | some c => runSchedule (c.step s).1 (callers.set i (c.step s).2) rest


/-! ## `syncLogToPostgres` -/

/-- What a call of `syncLogToPostgres` leaves behind: the store and the
returned `error` (`none` for `nil`). -/
structure SyncResult where
  store : Store
  err : Option SyncError
deriving DecidableEq, Repr

/-- Lines 142--166 of `syncLogToPostgres`: the count of earlier rows of the
hash, and the row built from it. -/
def newLogOf (s : Store) (ev : Event) (organizationID : String) : PersonLog :=
  let count := s.personLogs.countP (PersonLog.isEarlier ev.personHash ev.timestampTime)
  let isNewPerson := decide (count = 0)
  { ID := ev.id, Timestamp := ev.timestampTime, PersonHash := ev.personHash,
    CameraID := ev.cameraID, IsNewPerson := isNewPerson,
    OrganizationID := organizationID }

/-- Lines 125--180 of `syncLogToPostgres`, after the organization is known. -/
def reconcile (s : Store) (ev : Event) (organizationID : String) : SyncResult :=
  if s.personLogs.any (PersonLog.hasKey ev.personHash ev.cameraID ev.timestampTime) then
    -- the row is there already
    { store := s, err := none }
  else
    let newLog := newLogOf s ev organizationID
    if pkTaken (s.personLogs.map (fun l => l.ID)) newLog.ID then
      { store := s, err := some SyncError.create }
    else
      let s1 : Store := { s with personLogs := s.personLogs ++ [newLog] }
      -- the error of CreateOrUpdatePerson is logged and dropped
      { store := (CreateOrUpdatePerson s1 newLog).store, err := none }

/-- The method `SyncService.syncLogToPostgres` (sync.go, 84--181). -/
def syncLogToPostgres (s : Store) (data : RawData) : SyncResult :=
  match decodeEvent data with
  | Except.error e => { store := s, err := some e }
  | Except.ok ev =>
    match resolveOrganization s ev.cameraID with
    | none => { store := s, err := some SyncError.defaultOrganization }
    | some organizationID => reconcile s ev organizationID

/-- The receiving loop of `StartSync` (lines 42--59) on the payloads the
channel delivers before it closes: each one is handed to `syncLogToPostgres`,
whatever the earlier calls returned. -/
def syncEach (s : Store) : List RawData → Store
  | [] => s
  | data :: rest => syncEach (syncLogToPostgres s data).store rest

/-- A call that writes to the Person ledger: `CreateOrUpdatePerson` on a log,
or `syncLogToPostgres` on a payload. -/
inductive Call where
  | ledger (personLog : PersonLog)
  | sync (data : RawData)
deriving DecidableEq, Repr

/-- The store a call leaves. -/
def Call.run (s : Store) : Call → Store
  | Call.ledger personLog => (CreateOrUpdatePerson s personLog).store
  | Call.sync data => (syncLogToPostgres s data).store

/-- The stores reachable by a sequence of calls. -/
def runCalls (s : Store) : List Call → Store
  | [] => s
  | c :: rest => runCalls (c.run s) rest

/-! ## `DeletePerson` -/

/-- The errors `DeletePerson` returns. -/
inductive DeleteError where
  | notFound
deriving DecidableEq, Repr

/-- What a call that may fail leaves behind: the store and the returned
`error` (`none` for `nil`). -/
structure DeleteResult where
  store : Store
  err : Option DeleteError
deriving DecidableEq, Repr

/-- GORM's `Transaction`: the writes of the callback are kept when it returns
`nil` and rolled back when it returns an error. -/
def transaction (s : Store) (body : Store → DeleteResult) : DeleteResult :=
  match (body s).err with
  | none => body s
  | some e => { store := s, err := some e }

/-- GORM's `Delete` on a model with `DeletedAt`: the live rows the filter
selects are stamped, not removed. -/
def softDelete {α : Type} (live : α → Bool) (stamp : α → α) (filter : α → Bool)
    (rows : List α) : List α :=
  rows.map fun r => if live r && filter r then stamp r else r

/-- The method `PersonService.DeletePerson` (person.go, 185--214); `now` is
the time the tombstones are stamped with. -/
def DeletePerson (s : Store) (now : Time) (personHash organizationID : String) :
    DeleteResult :=
  transaction s fun tx =>
    let faceImages := softDelete (fun f => f.live) (fun f => { f with DeletedAt := some now })
      (fun f => decide (f.PersonHash = personHash)
        && decide (f.OrganizationID = organizationID)) tx.faceImages
    let personLogs := softDelete (fun l => l.live) (fun l => { l with DeletedAt := some now })
      (fun l => decide (l.PersonHash = personHash)
        && decide (l.OrganizationID = organizationID)) tx.personLogs
    let rowsAffected := tx.persons.countP (Person.keyedBy personHash organizationID)
    let persons := softDelete (fun p => p.live) (fun p => { p with DeletedAt := some now })
      (fun p => decide (p.PersonHash = personHash)
        && decide (p.OrganizationID = organizationID)) tx.persons
    let tx' : Store :=
      { tx with faceImages := faceImages, personLogs := personLogs, persons := persons }
    if rowsAffected = 0 then { store := tx', err := some DeleteError.notFound }
    else { store := tx', err := none }

/-- A write a single sequential caller issues against the PersonLog table. -/
inductive LogOp where
  | sync (data : RawData)
  | deletePerson (now : Time) (personHash organizationID : String)
deriving DecidableEq, Repr

/-- The store a write leaves. -/
def LogOp.run (s : Store) : LogOp → Store
  | LogOp.sync data => (syncLogToPostgres s data).store
  | LogOp.deletePerson now personHash organizationID =>
    (DeletePerson s now personHash organizationID).store

/-- The store a sequence of writes leaves. -/
def runLogOps (s : Store) : List LogOp → Store
  | [] => s
  | op :: rest => runLogOps (op.run s) rest

/-! ## `BackfillLogs` and `StartSync` -/

/-- Map assignment `data[k] = v`. -/
def RawData.set (data : RawData) (k : String) (v : Value) : RawData :=
  (k, v) :: data.filter fun kv => !(kv.1 == k)

/-- The method `FirebaseClient.GetRecentLogs` (firebase.go, 101--118) on the
answer of the feed: `none` when the fetch fails, else the records by key, in
the order the map is ranged over.  Each record gets its key as `id`. -/
def GetRecentLogs (fetched : Option (List (String × RawData))) : Option (List RawData) :=
  fetched.map fun records => records.map fun kv => kv.2.set "id" (Value.string kv.1)

/-- The errors `BackfillLogs` returns. -/
inductive BackfillError where
  | fetch
  | sync (e : SyncError)
deriving DecidableEq, Repr

/-- What a call of `BackfillLogs` leaves behind; `attempted` lists the
payloads handed to `syncLogToPostgres`, in order. -/
structure BackfillResult where
  store : Store
  attempted : List RawData
  err : Option BackfillError
deriving DecidableEq, Repr

/-- The loop of `BackfillLogs` (lines 74--78). -/
def backfillLoop (s : Store) (attempted : List RawData) : List RawData → BackfillResult
  | [] => { store := s, attempted := attempted, err := none }
  | log :: rest =>
    match (syncLogToPostgres s log).err with
    | some e =>
      { store := (syncLogToPostgres s log).store, attempted := attempted ++ [log],
        err := some (BackfillError.sync e) }
    | none => backfillLoop (syncLogToPostgres s log).store (attempted ++ [log]) rest

/-- The method `SyncService.BackfillLogs` (sync.go, 66--81) on the answer of
the feed. -/
def BackfillLogs (s : Store) (fetched : Option (List (String × RawData))) : BackfillResult :=
  match GetRecentLogs fetched with
  | none => { store := s, attempted := [], err := some BackfillError.fetch }
  | some logs => backfillLoop s [] logs

/-- What the goroutine of `StartSync` selects at one turn of its loop. -/
inductive Signal where
  | log (data : RawData)
  | closed
  | done
deriving DecidableEq, Repr

/-- What the goroutine of `StartSync` leaves behind; `attempted` lists the
payloads handed to `syncLogToPostgres`, with what each call returned. -/
structure LoopResult where
  store : Store
  attempted : List (RawData × Option SyncError)
deriving DecidableEq, Repr

/-- The goroutine of `StartSync` (lines 41--60) on the signals its `select`
receives, in order: a payload is synced and its error only logged; a closed
channel or a cancelled context ends the loop. -/
def startSyncLoop (s : Store) (attempted : List (RawData × Option SyncError)) :
    List Signal → LoopResult
  | [] => { store := s, attempted := attempted }
  | Signal.log data :: rest =>
    startSyncLoop (syncLogToPostgres s data).store
      (attempted ++ [(data, (syncLogToPostgres s data).err)]) rest
  | Signal.closed :: _ => { store := s, attempted := attempted }
  | Signal.done :: _ => { store := s, attempted := attempted }

/-! ## `ListenForNewLogs` -/

/-- The state of the polling goroutine: the watermark `lastTimestamp` and the
payloads sent on `logsChan` so far. -/
structure Listener where
  lastTimestamp : Int := 0
  sent : List RawData := []
deriving DecidableEq, Repr

/-- The body of the `for _, value := range data` loop (lines 88--95). -/
def Listener.emit (l : Listener) (value : RawData) : Listener :=
  let lastTimestamp :=
    match value.getFloat64 "timestamp" with
    | some ts => if ts.toInt64 > l.lastTimestamp then ts.toInt64 else l.lastTimestamp
    | none => l.lastTimestamp
  { lastTimestamp := lastTimestamp, sent := l.sent ++ [value] }

/-- One tick of the poll loop (lines 79--96).  The feed is asked for the
records from `lastTimestamp + 1` on and answers `none` when the fetch fails,
else the values in the order the map is ranged over. -/
def Listener.tick (l : Listener) (feed : Int → Option (List RawData)) : Listener :=
  match feed (l.lastTimestamp + 1) with
  | none => l
  | some data => data.foldl Listener.emit l

/-- The poll loop of `ListenForNewLogs` over the ticks before the context is
cancelled, one feed answer per tick. -/
def ListenForNewLogs (l : Listener) : List (Int → Option (List RawData)) → Listener
  | [] => l
  | feed :: rest => ListenForNewLogs (l.tick feed) rest

/-! ## `stats.go` -/

/-- The value of a decimal digit. -/
def digit (c : Char) : Option Nat :=
  if 48 ≤ c.toNat ∧ c.toNat ≤ 57 then some (c.toNat - 48) else none

/-- A leap year of the Gregorian calendar. -/
def isLeap (year : Nat) : Bool :=
  year % 4 == 0 && (year % 100 != 0 || year % 400 == 0)

/-- The number of days of a month. -/
def daysIn (month year : Nat) : Nat :=
  if month = 2 then (if isLeap year then 29 else 28)
  else if month = 4 ∨ month = 6 ∨ month = 9 ∨ month = 11 then 30
  else 31

/-- The days from 1970-01-01 to a date of the Gregorian calendar. -/
def daysFromCivil (year month day : Nat) : Int :=
  let y : Int := if month ≤ 2 then (year : Int) - 1 else year
  let era : Int := y / 400
  let yoe : Int := y - era * 400
  let mp : Int := if month ≤ 2 then (month : Int) + 9 else (month : Int) - 3
  let doy : Int := (153 * mp + 2) / 5 + day - 1
  let doe : Int := yoe * 365 + yoe / 4 - yoe / 100 + doy
  era * 146097 + doe - 719468

/-- Go's `time.Parse("2006-01-02", date)` followed by `time.Date` at midnight:
the Unix time of the start of the day in UTC, `none` when the text is not a
date of that layout. -/
def parseDate (date : String) : Option Time :=
  match date.toList with
  | [y1, y2, y3, y4, '-', m1, m2, '-', d1, d2] =>
    match digit y1, digit y2, digit y3, digit y4, digit m1, digit m2, digit d1, digit d2 with
    | some a, some b, some c, some d, some e, some f, some g, some h =>
      let year := 1000 * a + 100 * b + 10 * c + d
      let month := 10 * e + f
      let day := 10 * g + h
      if 1 ≤ month ∧ month ≤ 12 ∧ 1 ≤ day ∧ day ≤ daysIn month year then
        some (daysFromCivil year month day * 86400)
      else none
    | _, _, _, _, _, _, _, _ => none
  | _ => none

/-- The value `models.DailySummary`. -/
structure DailySummary where
  Date : String
  Total : Int
  New : Int
  Repeat : Int
  OrganizationID : String := ""
deriving DecidableEq, Repr

/-- The value `models.HeatmapData`. -/
structure HeatmapData where
  Hour : String
  Count : Int
  OrganizationID : String := ""
deriving DecidableEq, Repr

/-- The value `models.PersonStats`. -/
structure PersonStats where
  New : Int
  Repeat : Int
  OrganizationID : String := ""
deriving DecidableEq, Repr

/-- The JSON documents the statistics service stores in the cache, each kept
as the value it encodes. -/
inductive Cached where
  | dailySummary (v : DailySummary)
  | heatmap (v : List HeatmapData)
  | personStats (v : PersonStats)
deriving DecidableEq, Repr

/-- One key of the cache, with the expiration it was set with, in seconds. -/
structure CacheEntry where
  key : String
  value : Cached
  expiration : Nat
deriving DecidableEq, Repr

/-- The cache behind `db.RedisClient`: its entries, and whether its reads and
its writes fail. -/
structure RedisClient where
  entries : List CacheEntry := []
  getFails : Bool := false
  setFails : Bool := false
deriving DecidableEq, Repr

/-- The errors the statistics service returns. -/
inductive StatsError where
  | redisGet
  | date
  | redisSet
deriving DecidableEq, Repr

/-- `json.Unmarshal` into a `models.DailySummary`: fields the document lacks
stay zero, an array is refused. -/
def Cached.toDailySummary : Cached → Option DailySummary
  | Cached.dailySummary v => some v
  | Cached.personStats v =>
    some { Date := "", Total := 0, New := v.New, Repeat := v.Repeat,
           OrganizationID := v.OrganizationID }
  | Cached.heatmap _ => none

/-- `json.Unmarshal` into a `[]models.HeatmapData`: an object is refused. -/
def Cached.toHeatmap : Cached → Option (List HeatmapData)
  | Cached.heatmap v => some v
  | _ => none

/-- `json.Unmarshal` into a `models.PersonStats`. -/
def Cached.toPersonStats : Cached → Option PersonStats
  | Cached.personStats v => some v
  | Cached.dailySummary v =>
    some { New := v.New, Repeat := v.Repeat, OrganizationID := v.OrganizationID }
  | Cached.heatmap _ => none

/-- The method `RedisClient.Get` (redis.go, 63--80): an error, or `none` for
"not found", or the decoded value. -/
def RedisClient.Get {α : Type} (r : RedisClient) (key : String) (decode : Cached → Option α) :
    Except StatsError (Option α) :=
  if r.getFails then Except.error StatsError.redisGet
  else
    match r.entries.find? (fun e => decide (e.key = key)) with
    | none => Except.ok none
    | some e =>
      match decode e.value with
      | some v => Except.ok (some v)
      | none => Except.error StatsError.redisGet

/-- The method `RedisClient.Set` (redis.go, 51--60). -/
def RedisClient.Set (r : RedisClient) (key : String) (value : Cached) (expiration : Nat) :
    Except StatsError RedisClient :=
  if r.setFails then Except.error StatsError.redisSet
  else
    Except.ok
      { r with entries :=
          { key := key, value := value, expiration := expiration }
            :: r.entries.filter (fun e => !decide (e.key = key)) }

/-- What a query of the statistics service leaves behind: the cache and the
returned pair. -/
structure StatsResult (α : Type) where
  redis : RedisClient
  result : Except StatsError α
deriving DecidableEq, Repr

/-- `1*time.Hour`, in seconds. -/
def oneHour : Nat := 3600

/-- A GORM `Count` on `PersonLog` with the filter
`timestamp >= ? AND timestamp < ? AND organization_id = ?` and a further
condition: soft-deleted rows are left out by the model's scope. -/
def countLogs (s : Store) (startOfDay endOfDay : Time) (organizationID : String)
    (cond : PersonLog → Bool) : Int :=
  s.personLogs.countP fun l =>
    l.live && decide (startOfDay ≤ l.Timestamp) && decide (l.Timestamp < endOfDay)
      && decide (l.OrganizationID = organizationID) && cond l

/-- The method `StatsService.GetDailySummary` (stats.go, 27--93). -/
def StatsService.GetDailySummary (s : Store) (r : RedisClient) (date organizationID : String) :
    StatsResult DailySummary :=
  let cacheKey := "daily_summary:" ++ organizationID ++ ":" ++ date
  match r.Get cacheKey Cached.toDailySummary with
  | Except.error e => { redis := r, result := Except.error e }
  | Except.ok (some summary) => { redis := r, result := Except.ok summary }
  | Except.ok none =>
    match parseDate date with
    | none => { redis := r, result := Except.error StatsError.date }
    | some startOfDay =>
      let endOfDay := startOfDay + 86400
      let total := countLogs s startOfDay endOfDay organizationID (fun _ => true)
      let newCount := countLogs s startOfDay endOfDay organizationID (fun l => l.IsNewPerson)
      let repeatCount :=
        countLogs s startOfDay endOfDay organizationID (fun l => !l.IsNewPerson)
      let summary : DailySummary :=
        { Date := date, Total := total, New := newCount, Repeat := repeatCount }
      match r.Set cacheKey (Cached.dailySummary summary) oneHour with
      | Except.error e => { redis := r, result := Except.error e }
      | Except.ok r' => { redis := r', result := Except.ok summary }

/-- The texts `TO_CHAR(timestamp, 'HH24:00')` produces, by hour of the day. -/
def hourLabels : List String :=
  ["00:00", "01:00", "02:00", "03:00", "04:00", "05:00", "06:00", "07:00", "08:00",
   "09:00", "10:00", "11:00", "12:00", "13:00", "14:00", "15:00", "16:00", "17:00",
   "18:00", "19:00", "20:00", "21:00", "22:00", "23:00"]

/-- The hour of the day of a timestamp, `0` to `23`. -/
def hourOf (t : Time) : Nat := ((t % 86400) / 3600).toNat

/-- The raw query of `GetHeatmapData` (lines 130--138): the rows of
`person_logs` in the period and the organization, counted by hour, hours in
ascending order.  The text of the query has no condition on `deleted_at`. -/
def heatmapQuery (s : Store) (startOfDay endOfDay : Time) (organizationID : String) :
    List HeatmapData :=
  (List.range 24).filterMap fun h =>
    let count := s.personLogs.countP fun l =>
      decide (startOfDay ≤ l.Timestamp) && decide (l.Timestamp < endOfDay)
        && decide (l.OrganizationID = organizationID) && decide (hourOf l.Timestamp = h)
    if count = 0 then none else some { Hour := hourLabels.getD h "", Count := count }

/-- The method `StatsService.GetHeatmapData` (stats.go, 96--157). -/
def StatsService.GetHeatmapData (s : Store) (r : RedisClient) (date organizationID : String) :
    StatsResult (List HeatmapData) :=
  let cacheKey := "heatmap:" ++ organizationID ++ ":" ++ date
  match r.Get cacheKey Cached.toHeatmap with
  | Except.error e => { redis := r, result := Except.error e }
  | Except.ok (some heatmap) => { redis := r, result := Except.ok heatmap }
  | Except.ok none =>
    match parseDate date with
    | none => { redis := r, result := Except.error StatsError.date }
    | some startOfDay =>
      let endOfDay := startOfDay + 86400
      let heatmap := heatmapQuery s startOfDay endOfDay organizationID
      match r.Set cacheKey (Cached.heatmap heatmap) oneHour with
      | Except.error e => { redis := r, result := Except.error e }
      | Except.ok r' => { redis := r', result := Except.ok heatmap }

/-- The method `StatsService.GetPersonStats` (stats.go, 160--218). -/
def StatsService.GetPersonStats (s : Store) (r : RedisClient) (date organizationID : String) :
    StatsResult PersonStats :=
  let cacheKey := "person_stats:" ++ organizationID ++ ":" ++ date
  match r.Get cacheKey Cached.toPersonStats with
  | Except.error e => { redis := r, result := Except.error e }
  | Except.ok (some stats) => { redis := r, result := Except.ok stats }
  | Except.ok none =>
    match parseDate date with
    | none => { redis := r, result := Except.error StatsError.date }
    | some startOfDay =>
      let endOfDay := startOfDay + 86400
      let newCount := countLogs s startOfDay endOfDay organizationID (fun l => l.IsNewPerson)
      let repeatCount :=
        countLogs s startOfDay endOfDay organizationID (fun l => !l.IsNewPerson)
      let stats : PersonStats := { New := newCount, Repeat := repeatCount }
      match r.Set cacheKey (Cached.personStats stats) oneHour with
      | Except.error e => { redis := r, result := Except.error e }
      | Except.ok r' => { redis := r', result := Except.ok stats }

/-! ## `organization.go` -/

/-- The errors `DeleteOrganization` returns. -/
inductive OrganizationError where
  | hasLogs
  | hasFaceImages
  | hasCameras
  | notFound
deriving DecidableEq, Repr

/-- What `DeleteOrganization` leaves behind: the store and the returned
`error` (`none` for `nil`). -/
structure OrganizationResult where
  store : Store
  err : Option OrganizationError
deriving DecidableEq, Repr

/-- The method `OrganizationService.DeleteOrganization` (organization.go,
77--132); `now` is the time the tombstones are stamped with.  The three
counts run under the soft-delete scope; the statements are not wrapped in a
transaction, so what was written before a refusal stays written. -/
def DeleteOrganization (s : Store) (now : Time) (id : String) : OrganizationResult :=
  let logsCount := s.personLogs.countP fun l => l.live && decide (l.OrganizationID = id)
  if logsCount > 0 then { store := s, err := some OrganizationError.hasLogs }
  else
    let imagesCount := s.faceImages.countP fun f => f.live && decide (f.OrganizationID = id)
    if imagesCount > 0 then { store := s, err := some OrganizationError.hasFaceImages }
    else
      let camerasCount := s.cameras.countP fun c => c.live && decide (c.OrganizationID = id)
      if camerasCount > 0 then { store := s, err := some OrganizationError.hasCameras }
      else
        let apiKeys := softDelete (fun k => k.live) (fun k => { k with DeletedAt := some now })
          (fun k => decide (k.OrganizationID = id)) s.apiKeys
        let users := softDelete (fun u => u.live) (fun u => { u with DeletedAt := some now })
          (fun u => decide (u.OrganizationID = id)) s.users
        let rowsAffected := s.organizations.countP fun o => o.live && decide (o.ID = id)
        let organizations :=
          softDelete (fun o => o.live) (fun o => { o with DeletedAt := some now })
            (fun o => decide (o.ID = id)) s.organizations
        let s' : Store :=
          { s with apiKeys := apiKeys, users := users, organizations := organizations }
        if rowsAffected = 0 then { store := s', err := some OrganizationError.notFound }
        else { store := s', err := none }

/-! ## `person.go`: the read methods -/

/-- The errors the read methods of `PersonService` return. -/
inductive LookupError where
  | notFound
deriving DecidableEq, Repr

/-- The text of `err.Error()` for the lookups of `GetPerson` and
`PersonService.GetPersonStats`. -/
def LookupError.Error : LookupError → String
  | LookupError.notFound => "ไม่พบข้อมูลบุคคล"

/-- The text of `err.Error()` for `DeletePerson`. -/
def DeleteError.Error : DeleteError → String
  | DeleteError.notFound => "ไม่พบข้อมูลบุคคลที่ต้องการลบ"

/-- The method `PersonService.GetPerson` (person.go, 26--45); the preloaded
face images are left out of the returned row. -/
def PersonService.GetPerson (s : Store) (personHash organizationID : String) :
    Except LookupError Person :=
  match s.persons.find? (Person.keyedBy personHash organizationID) with
  | some person => Except.ok person
  | none => Except.error LookupError.notFound

/-- The method `PersonService.GetPersonStats` (person.go, 146--182). -/
def PersonService.GetPersonStats (s : Store) (personHash organizationID : String) :
    Except LookupError PersonStats :=
  match s.persons.find? (Person.keyedBy personHash organizationID) with
  | none => Except.error LookupError.notFound
  | some _ =>
    let visitCount : Int := s.personLogs.countP fun l =>
      l.live && decide (l.PersonHash = personHash) && decide (l.OrganizationID = organizationID)
    let _faceCount : Int := s.faceImages.countP fun f =>
      f.live && decide (f.PersonHash = personHash) && decide (f.OrganizationID = organizationID)
    Except.ok { New := 1, Repeat := visitCount - 1, OrganizationID := organizationID }

/-- The value `models.Pagination`. -/
structure Pagination where
  Total : Int
  Page : Int
  PageSize : Int
  TotalPage : Int
deriving DecidableEq, Repr

/-- Arithmetic on Go's `int`, 64 bits wide on the platforms the service is
built for: a result outside `[-2^63, 2^63)` wraps around. -/
def wrapInt (x : Int) : Int := (x + 2 ^ 63) % 2 ^ 64 - 2 ^ 63

/-- One step of `ORDER BY last_seen DESC`: the row goes in before the first
row that was not seen later than it. -/
def insertByLastSeen (p : Person) : List Person → List Person
  | [] => [p]
  | q :: rest =>
    if p.LastSeen < q.LastSeen then q :: insertByLastSeen p rest else p :: q :: rest

/-- The clause `ORDER BY last_seen DESC`; rows seen last at the same time
keep the order of the table. -/
def orderByLastSeenDesc (rows : List Person) : List Person :=
  rows.foldr insertByLastSeen []

/-- The clauses `Limit(limit).Offset(offset)` for a limit of at least one,
the only limits `ListPersons` passes: GORM writes `OFFSET` only for an offset
above zero. -/
def limitOffset {α : Type} (limit offset : Int) (rows : List α) : List α :=
  let skipped := if offset > 0 then rows.drop offset.toNat else rows
  skipped.take limit.toNat

/-- What `ListPersons` returns: the rows of the page and the pagination. -/
structure ListResult where
  rows : List Person
  pagination : Pagination
deriving DecidableEq, Repr

/-- The method `PersonService.ListPersons` (person.go, 47--94); the preloaded
face images are left out of the returned rows. -/
def PersonService.ListPersons (s : Store) (organizationID : String) (page pageSize : Int) :
    ListResult :=
  let page := if page ≤ 0 then 1 else page
  let pageSize := if pageSize ≤ 0 then 10 else pageSize
  let offset := wrapInt ((page - 1) * pageSize)
  let total : Int := s.persons.countP fun p =>
    p.live && decide (p.OrganizationID = organizationID)
  let persons := limitOffset pageSize offset
    (orderByLastSeenDesc
      (s.persons.filter fun p => p.live && decide (p.OrganizationID = organizationID)))
  let totalPage := Int.tdiv total pageSize
  let totalPage := if Int.tmod total pageSize > 0 then totalPage + 1 else totalPage
  { rows := persons,
    pagination := { Total := total, Page := page, PageSize := pageSize, TotalPage := totalPage } }

/-! ## The handlers -/

/-- The value of a text of decimal digits read after `acc`; `none` when a
character is not a digit. -/
def digitsValue : List Char → Int → Option Int
  | [], acc => some acc
  | c :: rest, acc =>
    match digit c with
    | none => none
    | some d => digitsValue rest (acc * 10 + d)

/-- The function `strconv.Atoi`: an optional sign and at least one decimal
digit, the value within the range of `int`; `none` for an error. -/
def Atoi (s : String) : Option Int :=
  let signed : Bool × List Char :=
    match s.toList with
    | '-' :: rest => (true, rest)
    | '+' :: rest => (false, rest)
    | rest => (false, rest)
  if signed.2.isEmpty then none
  else
    match digitsValue signed.2 0 with
    | none => none
    | some n =>
      let v : Int := if signed.1 then -n else n
      if -2 ^ 63 ≤ v ∧ v ≤ 2 ^ 63 - 1 then some v else none

/-- Fiber's `c.Query(key, defaultValue)` on the decoded arguments of the
query string: the first value of the key, the default when the key is absent
or its value is empty. -/
def Query (args : List (String × String)) (key defaultValue : String) : String :=
  match args.find? (fun a => decide (a.1 = key)) with
  | some a => if a.2 = "" then defaultValue else a.2
  | none => defaultValue

/-- The zero `time.Time`, `0001-01-01 00:00:00 UTC`, in Unix seconds. -/
def zeroTime : Time := -62135596800

/-- The value `models.LogFilter`. -/
structure LogFilter where
  From : Time := zeroTime
  To : Time := zeroTime
  CameraID : String := ""
  PersonID : String := ""
  OrganizationID : String := ""
  Page : Int := 0
  PageSize : Int := 0
deriving DecidableEq, Repr

/-- The function `parseLogsFilter` (logs.go, 92--151), over the arguments of
the query string; `parseTime` stands for `time.Parse(time.RFC3339, _)`.  The
error is the text of the returned `error`, which `GetLogs` answers with
status 400 without calling the service. -/
def parseLogsFilter (parseTime : String → Option Time) (args : List (String × String)) :
    Except String LogFilter :=
  let filter : LogFilter := {}
  let fromStr := Query args "from" ""
  let fromResult : Except String LogFilter :=
    if fromStr ≠ "" then
      match parseTime fromStr with
      | none =>
        Except.error "รูปแบบของพารามิเตอร์ from ไม่ถูกต้อง โปรดใช้รูปแบบ YYYY-MM-DDTHH:MM:SS"
      | some t => Except.ok { filter with From := t }
    else Except.ok filter
  match fromResult with
  | Except.error e => Except.error e
  | Except.ok filter =>
    let toStr := Query args "to" ""
    let toResult : Except String LogFilter :=
      if toStr ≠ "" then
        match parseTime toStr with
        | none =>
          Except.error "รูปแบบของพารามิเตอร์ to ไม่ถูกต้อง โปรดใช้รูปแบบ YYYY-MM-DDTHH:MM:SS"
        | some t => Except.ok { filter with To := t }
      else Except.ok filter
    match toResult with
    | Except.error e => Except.error e
    | Except.ok filter =>
      let filter := { filter with CameraID := Query args "camera_id" "" }
      let filter := { filter with PersonID := Query args "person_id" "" }
      let pageStr := Query args "page" "1"
      let pageResult : Except String LogFilter :=
        if pageStr ≠ "" then
          match Atoi pageStr with
          | none => Except.error "รูปแบบของพารามิเตอร์ page ไม่ถูกต้อง"
          | some page => Except.ok { filter with Page := if page ≤ 0 then 1 else page }
        else Except.ok filter
      match pageResult with
      | Except.error e => Except.error e
      | Except.ok filter =>
        let pageSizeStr := Query args "page_size" "10"
        if pageSizeStr ≠ "" then
          match Atoi pageSizeStr with
          | none => Except.error "รูปแบบของพารามิเตอร์ page_size ไม่ถูกต้อง"
          | some pageSize =>
            let pageSize := if pageSize ≤ 0 then 10 else pageSize
            let pageSize := if pageSize > 100 then 100 else pageSize
            Except.ok { filter with PageSize := pageSize }
        else Except.ok filter

/-- The body of a response: a `fiber.Map` of texts, or a row, or a page of
rows. -/
inductive Body where
  | map (fields : List (String × String))
  | person (p : Person)
  | persons (data : List Person) (pagination : Pagination)
  | logs (data : List PersonLog) (pagination : Pagination)
deriving DecidableEq, Repr

/-- A response: the HTTP status and the JSON body. -/
structure Response where
  status : Nat := 200
  body : Body
deriving DecidableEq, Repr

/-- What `StatsService.GetLogs` returns: the rows of the page and the
pagination. -/
structure LogsResult where
  rows : List PersonLog
  pagination : Pagination
deriving DecidableEq, Repr

/-- The handler `LogsHandler.GetLogs` (handlers/logs.go, 48--83); `service`
is the method `h.StatsService.GetLogs`, its error given as the text of
`err.Error()`. -/
def LogsHandler.GetLogs (service : LogFilter → Except String LogsResult)
    (parseTime : String → Option Time) (organizationID : String)
    (args : List (String × String)) : Response :=
  match parseLogsFilter parseTime args with
  | Except.error err => { status := 400, body := Body.map [("error", err)] }
  | Except.ok filter =>
    if organizationID = "" then
      { status := 400, body := Body.map [("error", "ไม่พบข้อมูลองค์กร")] }
    else
      let filter := { filter with OrganizationID := organizationID }
      match service filter with
      | Except.error err => { status := 500, body := Body.map [("error", err)] }
      | Except.ok result => { body := Body.logs result.rows result.pagination }

/-- The handler `PersonHandler.GetPerson` (handlers/person.go, 36--62);
`service` is the method `h.PersonService.GetPerson`, its error given as the
text of `err.Error()`. -/
def PersonHandler.GetPerson (service : String → String → Except String Person)
    (personHash organizationID : String) : Response :=
  if personHash = "" then { status := 400, body := Body.map [("error", "ต้องระบุรหัสบุคคล")] }
  else if organizationID = "" then
    { status := 400, body := Body.map [("error", "ไม่พบข้อมูลองค์กร")] }
  else
    match service personHash organizationID with
    | Except.error err => { status := 500, body := Body.map [("error", err)] }
    | Except.ok person => { body := Body.person person }

/-- The handler `PersonHandler.ListPersons` (handlers/person.go, 78--137);
`service` is the method `h.PersonService.ListPersons`. -/
def PersonHandler.ListPersons (service : String → Int → Int → Except String ListResult)
    (organizationID : String) (args : List (String × String)) : Response :=
  if organizationID = "" then
    { status := 400, body := Body.map [("error", "ไม่พบข้อมูลองค์กร")] }
  else
    let pageStr := Query args "page" "1"
    let pageResult : Except Response Int :=
      if pageStr ≠ "" then
        match Atoi pageStr with
        | none =>
          Except.error
            { status := 400, body := Body.map [("error", "รูปแบบของพารามิเตอร์ page ไม่ถูกต้อง")] }
        | some page => Except.ok (if page ≤ 0 then 1 else page)
      else Except.ok 1
    match pageResult with
    | Except.error response => response
    | Except.ok page =>
      let pageSizeStr := Query args "page_size" "10"
      let pageSizeResult : Except Response Int :=
        if pageSizeStr ≠ "" then
          match Atoi pageSizeStr with
          | none =>
            Except.error
              { status := 400,
                body := Body.map [("error", "รูปแบบของพารามิเตอร์ page_size ไม่ถูกต้อง")] }
          | some pageSize =>
            let pageSize := if pageSize ≤ 0 then 10 else pageSize
            Except.ok (if pageSize > 100 then 100 else pageSize)
        else Except.ok 10
      match pageSizeResult with
      | Except.error response => response
      | Except.ok pageSize =>
        match service organizationID page pageSize with
        | Except.error err => { status := 500, body := Body.map [("error", err)] }
        | Except.ok result => { body := Body.persons result.rows result.pagination }

/-- The handler `PersonHandler.DeletePerson` (handlers/person.go, 195--222);
`service` is the method `h.PersonService.DeletePerson`, which returns the text
of its error or `none` for `nil`. -/
def PersonHandler.DeletePerson (service : String → String → Option String)
    (personHash organizationID : String) : Response :=
  if personHash = "" then { status := 400, body := Body.map [("error", "ต้องระบุรหัสบุคคล")] }
  else if organizationID = "" then
    { status := 400, body := Body.map [("error", "ไม่พบข้อมูลองค์กร")] }
  else
    match service personHash organizationID with
    | some err => { status := 500, body := Body.map [("error", err)] }
    | none => { body := Body.map [("message", "ลบข้อมูลบุคคลสำเร็จ")] }

/-! ## `rate_limit.go` -/

/-- The value `IPRateLimit`: the requests counted in the window and the time
the window ends. -/
structure IPRateLimit where
  count : Int
  resetAt : Time
deriving DecidableEq, Repr

/-- The value `RateLimiter`; the map `ips` is a list of bindings with one
binding per key. -/
structure RateLimiter where
  max : Int
  duration : Int
  ips : List (String × IPRateLimit) := []
deriving DecidableEq, Repr

/-- The function `NewRateLimiter` (rate_limit.go, 27--33). -/
def NewRateLimiter (max : Int) (duration : Int) : RateLimiter :=
  { max := max, duration := duration, ips := [] }

/-- The map read `rl.ips[ip]`. -/
def RateLimiter.lookup (rl : RateLimiter) (ip : String) : Option IPRateLimit :=
  (rl.ips.find? fun b => decide (b.1 = ip)).map fun b => b.2

/-- The map write `rl.ips[ip] = limit`. -/
def RateLimiter.store (rl : RateLimiter) (ip : String) (limit : IPRateLimit) : RateLimiter :=
  { rl with ips := (ip, limit) :: rl.ips.filter fun b => !decide (b.1 = ip) }

/-- What `allow` returns, with the limiter it leaves behind. -/
structure AllowResult where
  limiter : RateLimiter
  remaining : Int
  resetAt : Time
  allowed : Bool
deriving DecidableEq, Repr

/-- The method `RateLimiter.allow` (rate_limit.go, 69--93); `now` is the
reading of `time.Now()`.  The mutex makes the call one step. -/
def RateLimiter.allow (rl : RateLimiter) (now : Time) (ip : String) : AllowResult :=
  let fresh : AllowResult :=
    { limiter := rl.store ip { count := 1, resetAt := now + rl.duration },
      remaining := rl.max - 1, resetAt := now + rl.duration, allowed := true }
  match rl.lookup ip with
  | none => fresh
  | some limit =>
    if now > limit.resetAt then fresh
    else if limit.count ≥ rl.max then
      { limiter := rl, remaining := 0, resetAt := limit.resetAt, allowed := false }
    else
      let limit := { limit with count := limit.count + 1 }
      { limiter := rl.store ip limit, remaining := rl.max - limit.count,
        resetAt := limit.resetAt, allowed := true }

/-- The function `cleanup` (rate_limit.go, 106--117): the windows that have
ended are dropped. -/
def RateLimiter.cleanup (rl : RateLimiter) (now : Time) : RateLimiter :=
  { rl with ips := rl.ips.filter fun b => !decide (now > b.2.resetAt) }

/-! ## Vocabulary of the properties -/

/-- The log a call hands to `CreateOrUpdatePerson`, on the store the call runs
on: the log of a ledger call, and the row `syncLogToPostgres` has inserted; a
payload that is rejected, a duplicate and a refused insert hand it none. -/
def Call.ledgerLog? (s : Store) : Call → Option PersonLog
  | Call.ledger personLog => some personLog
  | Call.sync data =>
    match decodeEvent data with
    | Except.error _ => none
    | Except.ok ev =>
      match resolveOrganization s ev.cameraID with
      | none => none
      | some organizationID =>
        if s.personLogs.any (PersonLog.hasKey ev.personHash ev.cameraID ev.timestampTime)
            || pkTaken (s.personLogs.map (fun l => l.ID)) ev.id then none
        else some (newLogOf s ev organizationID)

/-- The call does not update a Person row with a timestamp older than the
row's `first_seen`. -/
def Call.keepsFirstSeen (s : Store) (c : Call) : Bool :=
  match c.ledgerLog? s with
  | none => true
  | some personLog =>
    match firstPerson s personLog with
    | none => true
    | some person => decide (person.FirstSeen ≤ personLog.Timestamp)

/-- No call of the sequence updates a Person row with a timestamp older than
the row's `first_seen`, each call taken on the store it runs on. -/
def notBeforeFirstSeen (s : Store) : List Call → Bool
  | [] => true
  | c :: rest => c.keepsFirstSeen s && notBeforeFirstSeen (c.run s) rest

/-- Every call of the loop returned `nil`: each payload has been reconciled. -/
def allReconciled (s : Store) : List RawData → Bool
  | [] => true
  | data :: rest =>
    (syncLogToPostgres s data).err.isNone
      && allReconciled (syncLogToPostgres s data).store rest

/-- The events of a batch, in the order of the batch. -/
def eventsOf (batch : List RawData) : List Event :=
  batch.filterMap fun data =>
    match decodeEvent data with
    | Except.ok ev => some ev
    | Except.error _ => none

/-- Two events with the same dedup key `(person_hash, camera_id, timestamp)`. -/
def Event.sameKey (a b : Event) : Bool :=
  decide (a.personHash = b.personHash) && decide (a.cameraID = b.cameraID)
    && decide (a.timestampTime = b.timestampTime)

/-- The key `data[k]` holds a number. -/
def hasNumber (data : RawData) (k : String) : Bool :=
  match data.get k with
  | some (Value.number _) => true
  | _ => false

/-- The key `data[k]` holds a string that is not empty. -/
def hasNonEmptyString (data : RawData) (k : String) : Bool :=
  match data.get k with
  | some (Value.string x) => !(x == "")
  | _ => false

/-- A valid event: a numeric timestamp, a non-empty person hash and a
non-empty camera id. -/
def wellFormed (data : RawData) : Bool :=
  hasNumber data "timestamp" && hasNonEmptyString data "person_hash"
    && hasNonEmptyString data "camera_id"

/-- The errors raised by the validation of lines 91--105. -/
def SyncError.isValidation : SyncError → Bool
  | SyncError.timestamp => true
  | SyncError.personHash => true
  | SyncError.cameraID => true
  | _ => false

/-- The number of live PersonLog rows carrying the dedup key of `ev`. -/
def keyCount (s : Store) (ev : Event) : Nat :=
  s.personLogs.countP (PersonLog.hasKey ev.personHash ev.cameraID ev.timestampTime)

/-- The visits the ledger has counted for a person of an organization: the
`visit_count` of the live row, `0` when there is none. -/
def visitsOf (s : Store) (personHash organizationID : String) : Int :=
  match s.persons.find? (Person.keyedBy personHash organizationID) with
  | some p => p.VisitCount
  | none => 0

/-- The ledger can take a visit of the hash for the organization: the row is
there, or the hash is free in `persons`. -/
def ledgerAccepts (s : Store) (personHash organizationID : String) : Bool :=
  s.persons.any (Person.keyedBy personHash organizationID)
    || !s.persons.any (fun p => decide (p.PersonHash = personHash))

/-- Two PersonLog rows with the same dedup key
`(person_hash, camera_id, timestamp)`. -/
def PersonLog.sameKey (a b : PersonLog) : Bool :=
  decide (a.PersonHash = b.PersonHash) && decide (a.CameraID = b.CameraID)
    && decide (a.Timestamp = b.Timestamp)

/-- No two rows of the PersonLog table, tombstoned or not, share a dedup key. -/
def keysDistinct (s : Store) : Prop :=
  s.personLogs.Pairwise fun a b => a.sameKey b = false

/-- No two rows of the PersonLog table that are not soft-deleted share a
dedup key. -/
def liveKeysDistinct (s : Store) : Prop :=
  s.personLogs.Pairwise fun a b => a.live = true → b.live = true → a.sameKey b = false

instance (s : Store) : Decidable (keysDistinct s) := by
  unfold keysDistinct
  infer_instance

instance (s : Store) : Decidable (liveKeysDistinct s) := by
  unfold liveKeysDistinct
  infer_instance

/-- A PersonLog row that counts for an organization on the day starting at
`startOfDay`: not soft-deleted, of the organization, stamped in
`[startOfDay, startOfDay + 24h)`. -/
def PersonLog.inDay (organizationID : String) (startOfDay : Time) (l : PersonLog) : Bool :=
  decide (l.DeletedAt = none) && decide (l.OrganizationID = organizationID)
    && decide (startOfDay ≤ l.Timestamp) && decide (l.Timestamp < startOfDay + 86400)

/-- The leap years of the Gregorian calendar: the years divisible by 4 that
are not divisible by 100, and the years divisible by 400. -/
def gregorianLeap (y : Nat) : Bool :=
  decide ((y % 4 = 0 ∧ y % 100 ≠ 0) ∨ y % 400 = 0)

/-- The number of days of a year. -/
def yearLength (y : Nat) : Nat := if gregorianLeap y then 366 else 365

/-- The number of days of each of the twelve months of a year. -/
def monthLength (y : Nat) : Nat → Nat
  | 1 => 31
  | 2 => if gregorianLeap y then 29 else 28
  | 3 => 31
  | 4 => 30
  | 5 => 31
  | 6 => 30
  | 7 => 31
  | 8 => 31
  | 9 => 30
  | 10 => 31
  | 11 => 30
  | 12 => 31
  | _ => 0

/-- The days from 1 January 1970 to 1 January of a year, counted year by
year; negative before 1970. -/
def daysToYear (y : Nat) : Int :=
  if 1970 ≤ y then (((List.range' 1970 (y - 1970)).map yearLength).sum : Nat)
  else -((((List.range' y (1970 - y)).map yearLength).sum : Nat) : Int)

/-- The days from 1 January of a year to the first day of a month of it,
counted month by month. -/
def daysToMonth (y m : Nat) : Nat := ((List.range' 1 (m - 1)).map (monthLength y)).sum

/-- The number of a day of the calendar, 1 January 1970 being day 0. -/
def dayNumber (y m d : Nat) : Int := daysToYear y + daysToMonth y m + d - 1

/-- The character of the last decimal digit of a number. -/
def digitChar (n : Nat) : Char := Char.ofNat (48 + n % 10)

/-- The text `YYYY-MM-DD` of a day of the calendar. -/
def isoDate (y m d : Nat) : String :=
  String.mk [digitChar (y / 1000), digitChar (y / 100), digitChar (y / 10), digitChar y, '-',
    digitChar (m / 10), digitChar m, '-', digitChar (d / 10), digitChar d]

/-- A day of the calendar of the years 0000 to 9999. -/
def validDate (y m d : Nat) : Prop :=
  y ≤ 9999 ∧ 1 ≤ m ∧ m ≤ 12 ∧ 1 ≤ d ∧ d ≤ monthLength y m


instance (y m d : Nat) : Decidable (validDate y m d) := by
  unfold validDate
  infer_instance

/-- The rows of a store that belong to an organization. -/
def rowsOf (s : Store) (organizationID : String) : Store :=
  { organizations := s.organizations.filter fun o => decide (o.ID = organizationID)
    cameras := s.cameras.filter fun c => decide (c.OrganizationID = organizationID)
    personLogs := s.personLogs.filter fun l => decide (l.OrganizationID = organizationID)
    persons := s.persons.filter fun p => decide (p.OrganizationID = organizationID)
    faceImages := s.faceImages.filter fun f => decide (f.OrganizationID = organizationID)
    users := s.users.filter fun u => decide (u.OrganizationID = organizationID)
    apiKeys := s.apiKeys.filter fun k => decide (k.OrganizationID = organizationID) }

/-- The page the service is to be handed for a requested page: a page of
zero or less becomes page 1. -/
def clampPage (page : Int) : Int := if page ≤ 0 then 1 else page

/-- The page size the service is to be handed for a requested page size: a
size above 100 becomes 100, a size of zero or less becomes 10. -/
def clampPageSize (pageSize : Int) : Int :=
  if pageSize > 100 then 100 else if pageSize ≤ 0 then 10 else pageSize

/-- The response of a handler to what `GetLogs` returned. -/
def Response.ofLogs (r : Except String LogsResult) : Response :=
  match r with
  | Except.error err => { status := 500, body := Body.map [("error", err)] }
  | Except.ok result => { status := 200, body := Body.logs result.rows result.pagination }

/-- The response of a handler to what `ListPersons` returned. -/
def Response.ofList (r : Except String ListResult) : Response :=
  match r with
  | Except.error err => { status := 500, body := Body.map [("error", err)] }
  | Except.ok result => { status := 200, body := Body.persons result.rows result.pagination }

/-- The three queries of the statistics service. -/
inductive StatsQuery where
  | dailySummary
  | heatmap
  | personStats
deriving DecidableEq, Repr

/-- The cache key of a query for an organization and a date, as the three
methods format it. -/
def StatsQuery.cacheKey (q : StatsQuery) (organizationID date : String) : String :=
  match q with
  | StatsQuery.dailySummary => "daily_summary:" ++ organizationID ++ ":" ++ date
  | StatsQuery.heatmap => "heatmap:" ++ organizationID ++ ":" ++ date
  | StatsQuery.personStats => "person_stats:" ++ organizationID ++ ":" ++ date

/-- What a query answers, as the document it stands for. -/
def StatsQuery.ask (q : StatsQuery) (s : Store) (r : RedisClient) (date organizationID : String) :
    Except StatsError Cached :=
  match q with
  | StatsQuery.dailySummary =>
    (StatsService.GetDailySummary s r date organizationID).result.map Cached.dailySummary
  | StatsQuery.heatmap =>
    (StatsService.GetHeatmapData s r date organizationID).result.map Cached.heatmap
  | StatsQuery.personStats =>
    (StatsService.GetPersonStats s r date organizationID).result.map Cached.personStats

/-- The cache a query leaves behind. -/
def StatsQuery.cache (q : StatsQuery) (s : Store) (r : RedisClient)
    (date organizationID : String) : RedisClient :=
  match q with
  | StatsQuery.dailySummary => (StatsService.GetDailySummary s r date organizationID).redis
  | StatsQuery.heatmap => (StatsService.GetHeatmapData s r date organizationID).redis
  | StatsQuery.personStats => (StatsService.GetPersonStats s r date organizationID).redis

/-- The calls `allow(ip)` made at the given times, one after the other, with
what each of them returned. -/
def allowEach (rl : RateLimiter) (ip : String) : List Time → List AllowResult
  | [] => []
  | now :: rest => rl.allow now ip :: allowEach (rl.allow now ip).limiter ip rest

/-- The log a call was handed. -/
def Caller.personLog : Caller → PersonLog
  | Caller.called personLog => personLog
  | Caller.missing personLog => personLog
  | Caller.found personLog _ => personLog
  | Caller.returned personLog _ => personLog

/-- A call that has not written yet and has not found a row. -/
def Caller.waiting : Caller → Bool
  | Caller.called _ => true
  | Caller.missing _ => true
  | _ => false

/-- A call that has returned. -/
def Caller.isReturned : Caller → Bool
  | Caller.returned _ _ => true
  | _ => false

/-- A call that observes that it created the row: it has returned a Person
and has set `IsNewPerson` of its log. -/
def Caller.created : Caller → Bool
  | Caller.returned personLog (Except.ok _) => personLog.IsNewPerson
  | _ => false

/-- A call that has neither found nor created a row. -/
def Caller.blocked : Caller → Bool
  | Caller.called _ => true
  | Caller.missing _ => true
  | Caller.returned _ (Except.error _) => true
  | _ => false


/-- The state of a race of calls for one hash and organization: either no row
holds the hash and no call has got past its `First` with a row, or one row
holds it, that row is the live row of the organization, and one call has
created it. -/
def raceInvariant (h o : String) (s : Store) (callers : List Caller) : Prop :=
  (∀ c ∈ callers, c.personLog.PersonHash = h ∧ c.personLog.OrganizationID = o)
  ∧ ((s.persons.countP (fun p => decide (p.PersonHash = h)) = 0
        ∧ callers.all Caller.waiting = true)
    ∨ (s.persons.countP (fun p => decide (p.PersonHash = h)) = 1
        ∧ (∀ p ∈ s.persons, p.PersonHash = h → Person.keyedBy h o p = true)
        ∧ callers.countP Caller.created = 1))


/-- Every Person row that is not deleted has a PersonLog row of its hash and
organization that is not deleted. -/
def personsHaveLogs (s : Store) : Prop :=
  ∀ p ∈ s.persons, p.DeletedAt = none →
    ∃ l ∈ s.personLogs, l.DeletedAt = none ∧ l.PersonHash = p.PersonHash
      ∧ l.OrganizationID = p.OrganizationID

/-- The stores the services produce: from a store without Person rows, by
`syncLogToPostgres`, `DeletePerson`, `DeleteOrganization`, and by the writes
of the other services, which leave `persons` and `person_logs` as they are. -/
inductive Produced : Store → Prop where
  | start (s : Store) (h : s.persons = []) : Produced s
  | sync (s : Store) (data : RawData) (h : Produced s) :
      Produced (syncLogToPostgres s data).store
  | deletePerson (s : Store) (now : Time) (personHash organizationID : String)
      (h : Produced s) : Produced (DeletePerson s now personHash organizationID).store
  | deleteOrganization (s : Store) (now : Time) (id : String) (h : Produced s) :
      Produced (DeleteOrganization s now id).store
  | other (s s' : Store) (h : Produced s) (hp : s'.persons = s.persons)
      (hl : s'.personLogs = s.personLogs) : Produced s'


/-! ## The scenario of the specification -/

/-- A payload as the event source delivers it, with a whole-second timestamp. -/
def rawEvent (id : String) (ts : Int) (personHash cameraID : String) : RawData :=
  [("id", Value.string id), ("timestamp", Value.number { m := ts, e := 0 }),
   ("person_hash", Value.string personHash), ("camera_id", Value.string cameraID)]

/-- One organization with one camera, nothing detected yet. -/
def scenarioStore : Store :=
  { organizations := [{ ID := "org1" }],
    cameras := [{ ID := "c1", OrganizationID := "org1" }] }

/-- The event `{ts=100, hash="h1", camera="c1"}`. -/
def event100 : RawData := rawEvent "e100" 100 "h1" "c1"

/-- The event `{ts=200, hash="h1", camera="c1"}`. -/
def event200 : RawData := rawEvent "e200" 200 "h1" "c1"

/-- The detection the ledger is handed for `h1` in `org1` at time `ts`. -/
def ledgerLog (ts : Time) : PersonLog :=
  { ID := RowID.generated, Timestamp := ts, PersonHash := "h1", CameraID := "c1",
    IsNewPerson := false, OrganizationID := "org1" }

/-- A ledger that has seen `h1` in `org1` once, at `ts=200`. -/
def seenAt200 : Store :=
  { organizations := [{ ID := "org1" }],
    cameras := [{ ID := "c1", OrganizationID := "org1" }],
    persons := [{ ID := RowID.generated, PersonHash := "h1", FirstSeen := 200,
                  LastSeen := 200, VisitCount := 1, OrganizationID := "org1" }] }

/-- The ledger after `DeletePerson("h1", "org1")`: the row is tombstoned at
`ts=300`, its person hash still in the unique index. -/
def deletedAt300 : Store :=
  { organizations := [{ ID := "org1" }],
    cameras := [{ ID := "c1", OrganizationID := "org1" }],
    persons := [{ ID := RowID.generated, DeletedAt := some 300, PersonHash := "h1",
                  FirstSeen := 200, LastSeen := 200, VisitCount := 1,
                  OrganizationID := "org1" }] }

/-- The event `{ts=400, hash="h1", camera="c1"}`, after the deletion. -/
def event400 : RawData := rawEvent "e400" 400 "h1" "c1"

/-- Two organizations, each with a camera of its own. -/
def twoTenants : Store :=
  { organizations := [{ ID := "org1" }, { ID := "org2" }],
    cameras := [{ ID := "c1", OrganizationID := "org1" },
                { ID := "c2", OrganizationID := "org2" }] }

/-- The event `{ts=200, hash="h1", camera="c2"}`, seen by the other tenant's
camera. -/
def event200c2 : RawData := rawEvent "e200" 200 "h1" "c2"

/-- A record of the feed that lacks its person hash. -/
def recordWithoutHash : RawData :=
  [("timestamp", Value.number { m := 150, e := 0 }), ("camera_id", Value.string "c1")]

/-- The record of the feed behind `event100`, before its key is made its id. -/
def record100 : RawData :=
  [("timestamp", Value.number { m := 100, e := 0 }), ("person_hash", Value.string "h1"),
   ("camera_id", Value.string "c1")]

/-- A feed whose fetch fails. -/
def feedDown : Int → Option (List RawData) := fun _ => none

/-- A feed that answers with the records stamped at or after the start of the
query, out of `event200` and `event100`. -/
def feedUp : Int → Option (List RawData) := fun startAt =>
  some ((if startAt ≤ 200 then [event200] else []) ++ (if startAt ≤ 100 then [event100] else []))

/-- The payload of the `ts=100` event as the live feed delivers it, without
an id of its own. -/
def liveEvent100 : RawData := record100

/-- The store of the scenario after its two events: `h1` seen at `ts=100` and
`ts=200` by camera `c1` of `org1`. -/
def scenarioDay : Store := syncEach scenarioStore [event100, event200]

/-- The store of the scenario after `DeletePerson("h1", "org1")` at `ts=300`. -/
def scenarioDeleted : Store := (DeletePerson scenarioDay 300 "h1" "org1").store

/-- A cache that cannot be reached: every read and every write fails. -/
def redisDown : RedisClient := { getFails := true, setFails := true }

/-- The event `{ts=50, hash="h1", camera="c2"}` of the other tenant. -/
def event50c2 : RawData := rawEvent "e50" 50 "h1" "c2"

/-- The two tenants after the other tenant's camera has seen `h1` at `ts=50`. -/
def twoTenantsSeen : Store := (syncLogToPostgres twoTenants event50c2).store

/-- Rows of `h1` left without a Person row that is not deleted: the ledger
row is tombstoned, the detection of `ts=400` and a face image are not. -/
def strandedRows : Store :=
  { deletedAt300 with
    personLogs := [{ ID := RowID.given "e400", Timestamp := 400, PersonHash := "h1",
                     CameraID := "c1", IsNewPerson := true, OrganizationID := "org1" }],
    faceImages := [{ ID := RowID.generated, PersonHash := "h1", OrganizationID := "org1",
                     CameraID := "c1" }] }

/-- A store in which `h1` is a person of `org1` with ten detections. -/
def tenVisits : Store :=
  { organizations := [{ ID := "org1" }],
    cameras := [{ ID := "c1", OrganizationID := "org1" }],
    personLogs := (List.range 10).map fun i =>
      { ID := RowID.generated, Timestamp := 100 + (i : Int), PersonHash := "h1",
        CameraID := "c1", IsNewPerson := decide (i = 0), OrganizationID := "org1" },
    persons := [{ ID := RowID.generated, PersonHash := "h1", FirstSeen := 100,
                  LastSeen := 109, VisitCount := 10, OrganizationID := "org1" }] }

/-- An organization with a user and an API key, no camera and no detection,
before the ledger has been handed anything. -/
def emptyLedger : Store :=
  { organizations := [{ ID := "org1" }],
    users := [{ ID := "u1", OrganizationID := "org1" }],
    apiKeys := [{ ID := "k1", OrganizationID := "org1" }] }

/-- The same organization after the ledger has recorded `h1` at `ts=200`. -/
def ledgerOnly : Store := (CreateOrUpdatePerson emptyLedger (ledgerLog 200)).store

/-- A ledger of fifteen persons of `org1`, `p01` seen last at `ts=1` up to
`p15` seen last at `ts=15`. -/
def fifteenPersons : Store :=
  { organizations := [{ ID := "org1" }],
    persons :=
      [("p01", 1), ("p02", 2), ("p03", 3), ("p04", 4), ("p05", 5), ("p06", 6), ("p07", 7),
       ("p08", 8), ("p09", 9), ("p10", 10), ("p11", 11), ("p12", 12), ("p13", 13),
       ("p14", 14), ("p15", 15)].map fun (x : String × Int) =>
        { ID := RowID.generated, PersonHash := x.1, FirstSeen := x.2, LastSeen := x.2,
          VisitCount := 1, OrganizationID := "org1" } }

/-- A cache that holds the daily summary of `org2` for `1970-01-01` and the
daily summary of `org1` for `1970-01-02`, both empty days. -/
def otherEntries : RedisClient :=
  { entries :=
      [{ key := "daily_summary:org2:1970-01-01",
         value := Cached.dailySummary { Date := "1970-01-01", Total := 0, New := 0, Repeat := 0 },
         expiration := 3600 },
       { key := "daily_summary:org1:1970-01-02",
         value := Cached.dailySummary { Date := "1970-01-02", Total := 0, New := 0, Repeat := 0 },
         expiration := 3600 }] }

/-- Detections of `h1` by `c1` of `org1` around 29 February 2024: the last
second of the day before, the first and the last second of the day, and the
first second of 1 March. -/
def leapDay : Store :=
  { organizations := [{ ID := "org1" }],
    cameras := [{ ID := "c1", OrganizationID := "org1" }],
    personLogs :=
      [(1709164799, true), (1709164800, false), (1709251199, true), (1709251200, false)].map
        fun (x : Int × Bool) =>
          { ID := RowID.generated, Timestamp := x.1, PersonHash := "h1", CameraID := "c1",
            IsNewPerson := x.2, OrganizationID := "org1" } }

/-- The store of the scenario after `DeletePerson("h1", "org1")`, with the
camera of `org1` deleted at `ts=350`, and a user and an API key of `org1`. -/
def scenarioRetired : Store :=
  { scenarioDeleted with
    cameras := scenarioDeleted.cameras.map fun c => { c with DeletedAt := some 350 }
    users := [{ ID := "u1", OrganizationID := "org1" }]
    apiKeys := [{ ID := "k1", OrganizationID := "org1" }] }


/-! ## Basic facts -/

theorem RawData.getString_eq_some {data : RawData} {k x : String}
    (h : data.getString k = some x) : data.get k = some (Value.string x) := by
  unfold RawData.getString at h
  split at h
  · next y hy => simp at h; rw [hy, h]
  · simp at h

theorem RawData.getFloat64_eq_some {data : RawData} {k : String} {f : Float64}
    (h : data.getFloat64 k = some f) : data.get k = some (Value.number f) := by
  unfold RawData.getFloat64 at h
  split at h
  · next y hy => simp at h; rw [hy, h]
  · simp at h

theorem hasNumber_iff (data : RawData) (k : String) :
    hasNumber data k = true ↔ ∃ f, data.getFloat64 k = some f := by
  unfold hasNumber RawData.getFloat64
  split <;> simp_all

theorem hasNonEmptyString_iff (data : RawData) (k : String) :
    hasNonEmptyString data k = true ↔ ∃ x, data.getString k = some x ∧ x ≠ "" := by
  unfold hasNonEmptyString RawData.getString
  split <;> simp_all

/-- Validation accepts exactly the well-formed payloads. -/
theorem decodeEvent_ok_iff (data : RawData) :
    wellFormed data = true ↔ ∃ ev, decodeEvent data = Except.ok ev := by
  unfold wellFormed
  rw [Bool.and_eq_true, Bool.and_eq_true, hasNumber_iff, hasNonEmptyString_iff,
    hasNonEmptyString_iff]
  unfold decodeEvent
  constructor
  · rintro ⟨⟨⟨f, hf⟩, h, hh, hne⟩, c, hc, hcne⟩
    simp [hf, hh, hc, hne, hcne]
  · intro ⟨ev, hev⟩
    cases hf : data.getFloat64 "timestamp" with
    | none => simp [hf] at hev
    | some f =>
      cases hh : data.getString "person_hash" with
      | none => simp [hf, hh] at hev
      | some h =>
        cases hc : data.getString "camera_id" with
        | none => simp [hf, hh, hc] at hev; split at hev <;> simp at hev
        | some c =>
          simp only [hf, hh, hc] at hev
          by_cases hne : h = ""
          · simp [hne] at hev
          · by_cases hcne : c = ""
            · simp [hne, hcne] at hev
            · exact ⟨⟨⟨f, rfl⟩, h, rfl, hne⟩, c, rfl, hcne⟩

/-- A payload that validation rejects gets one of the three validation errors. -/
theorem decodeEvent_error_isValidation {data : RawData} {e : SyncError}
    (h : decodeEvent data = Except.error e) : e.isValidation = true := by
  unfold decodeEvent at h
  simp only at h
  repeat' split at h
  all_goals first
    | (cases h; rfl)
    | (simp at h)

/-- The ledger writes to `persons` only. -/
theorem CreateOrUpdatePerson_frame (s : Store) (personLog : PersonLog) :
    (CreateOrUpdatePerson s personLog).store.personLogs = s.personLogs
    ∧ (CreateOrUpdatePerson s personLog).store.cameras = s.cameras
    ∧ (CreateOrUpdatePerson s personLog).store.organizations = s.organizations := by
  unfold CreateOrUpdatePerson
  split
  · split <;> simp
  · simp

/-- The event is already stored: nothing is written. -/
theorem reconcile_duplicate {s : Store} {ev : Event} (organizationID : String)
    (h : s.personLogs.any (PersonLog.hasKey ev.personHash ev.cameraID ev.timestampTime) = true) :
    reconcile s ev organizationID = { store := s, err := none } := by
  unfold reconcile
  rw [if_pos h]

/-- The event is not stored, but its id is: the insert fails, nothing is written. -/
theorem reconcile_pkTaken {s : Store} {ev : Event} (organizationID : String)
    (h : s.personLogs.any (PersonLog.hasKey ev.personHash ev.cameraID ev.timestampTime) = false)
    (hpk : pkTaken (s.personLogs.map (fun l => l.ID)) ev.id = true) :
    reconcile s ev organizationID = { store := s, err := some SyncError.create } := by
  unfold reconcile
  simp [h, newLogOf, hpk]

/-- The event is not stored and its id is free: the row is appended and the
ledger is called on the store that holds it. -/
theorem reconcile_insert {s : Store} {ev : Event} (organizationID : String)
    (h : s.personLogs.any (PersonLog.hasKey ev.personHash ev.cameraID ev.timestampTime) = false)
    (hpk : pkTaken (s.personLogs.map (fun l => l.ID)) ev.id = false) :
    reconcile s ev organizationID =
      { store := (CreateOrUpdatePerson
            { s with personLogs := s.personLogs ++ [newLogOf s ev organizationID] }
            (newLogOf s ev organizationID)).store,
        err := none } := by
  unfold reconcile
  simp [h, newLogOf, hpk]

/-- The row built for an event carries the event's dedup key. -/
theorem newLogOf_hasKey (s : Store) (ev : Event) (organizationID : String) :
    PersonLog.hasKey ev.personHash ev.cameraID ev.timestampTime
      (newLogOf s ev organizationID) = true := by
  simp [PersonLog.hasKey, newLogOf, Base.live]

/-- Reconciliation leaves cameras and organizations alone. -/
theorem reconcile_frame (s : Store) (ev : Event) (organizationID : String) :
    (reconcile s ev organizationID).store.cameras = s.cameras
    ∧ (reconcile s ev organizationID).store.organizations = s.organizations := by
  cases h : s.personLogs.any (PersonLog.hasKey ev.personHash ev.cameraID ev.timestampTime)
  · cases hpk : pkTaken (s.personLogs.map (fun l => l.ID)) ev.id
    · rw [reconcile_insert organizationID h hpk]
      exact ⟨(CreateOrUpdatePerson_frame _ _).2.1, (CreateOrUpdatePerson_frame _ _).2.2⟩
    · rw [reconcile_pkTaken organizationID h hpk]
      exact ⟨rfl, rfl⟩
  · rw [reconcile_duplicate organizationID h]
    exact ⟨rfl, rfl⟩

/-- The organization an event resolves to is decided by cameras and
organizations alone. -/
theorem resolveOrganization_congr {s t : Store} (hc : t.cameras = s.cameras)
    (ho : t.organizations = s.organizations) (cameraID : String) :
    resolveOrganization t cameraID = resolveOrganization s cameraID := by
  unfold resolveOrganization
  rw [hc, ho]

/-- A successful reconciliation leaves a live row with the event's key. -/
theorem reconcile_ok_stored {s : Store} {ev : Event} {organizationID : String}
    (hok : (reconcile s ev organizationID).err = none) :
    (reconcile s ev organizationID).store.personLogs.any
      (PersonLog.hasKey ev.personHash ev.cameraID ev.timestampTime) = true := by
  cases h : s.personLogs.any (PersonLog.hasKey ev.personHash ev.cameraID ev.timestampTime)
  · cases hpk : pkTaken (s.personLogs.map (fun l => l.ID)) ev.id
    · rw [reconcile_insert organizationID h hpk]
      simp only [(CreateOrUpdatePerson_frame _ _).1]
      rw [List.any_append]
      simp [newLogOf_hasKey]
    · rw [reconcile_pkTaken organizationID h hpk] at hok
      simp at hok
  · rw [reconcile_duplicate organizationID h]
    exact h

/-- Reconciling again what a call has just reconciled changes nothing. -/
theorem reconcile_twice (s : Store) (ev : Event) (organizationID : String) :
    (reconcile (reconcile s ev organizationID).store ev organizationID).store
      = (reconcile s ev organizationID).store := by
  cases hok : (reconcile s ev organizationID).err with
  | none => rw [reconcile_duplicate organizationID (reconcile_ok_stored hok)]
  | some e =>
    cases h : s.personLogs.any (PersonLog.hasKey ev.personHash ev.cameraID ev.timestampTime)
    · cases hpk : pkTaken (s.personLogs.map (fun l => l.ID)) ev.id
      · rw [reconcile_insert organizationID h hpk] at hok
        simp at hok
      · rw [reconcile_pkTaken organizationID h hpk]
        simp only
        rw [reconcile_pkTaken organizationID h hpk]
    · rw [reconcile_duplicate organizationID h] at hok
      simp at hok

/-! ## The ledger -/

/-- The row rewritten by `updateFirst` is the row `find?` returns. -/
theorem find?_updateFirst {α : Type} (q : α → Bool) (f : α → α)
    (hq : ∀ x, q (f x) = q x) (l : List α) :
    (updateFirst q f l).find? q = (l.find? q).map f := by
  induction l with
  | nil => rfl
  | cons x xs ih =>
    unfold updateFirst
    by_cases hx : q x = true
    · simp [hx, hq]
    · simp [hx, ih]

/-- Nothing is rewritten when no row satisfies the filter. -/
theorem updateFirst_of_find?_none {α : Type} (q : α → Bool) (f : α → α) (l : List α)
    (h : l.find? q = none) : updateFirst q f l = l := by
  induction l with
  | nil => rfl
  | cons x xs ih =>
    unfold updateFirst
    by_cases hx : q x = true
    · simp [hx] at h
    · simp only [hx, Bool.false_eq_true, if_false]
      rw [ih]
      simpa [List.find?, hx] using h

/-- The update of `CreateOrUpdatePerson` keeps the row under its key. -/
theorem keyedBy_update (personHash organizationID : String) (t : Time) (p : Person) :
    Person.keyedBy personHash organizationID
        { p with LastSeen := t, VisitCount := p.VisitCount + 1 }
      = Person.keyedBy personHash organizationID p := rfl

/-- The ledger on a person it holds: one more visit, `last_seen` overwritten. -/
theorem CreateOrUpdatePerson_existing {s : Store} {personLog : PersonLog} {p : Person}
    (h : s.persons.find? (Person.keyedBy personLog.PersonHash personLog.OrganizationID)
      = some p) :
    (CreateOrUpdatePerson s personLog).store.persons.find?
        (Person.keyedBy personLog.PersonHash personLog.OrganizationID)
      = some { p with LastSeen := personLog.Timestamp, VisitCount := p.VisitCount + 1 }
    ∧ (CreateOrUpdatePerson s personLog).personLog = { personLog with IsNewPerson := false }
    ∧ (CreateOrUpdatePerson s personLog).result
      = Except.ok { p with LastSeen := personLog.Timestamp } := by
  unfold CreateOrUpdatePerson
  rw [h]
  refine ⟨?_, rfl, rfl⟩
  simp only
  rw [find?_updateFirst _ _ (keyedBy_update _ _ _), h]
  rfl

/-- The ledger on a hash the table does not hold: the row is created. -/
theorem CreateOrUpdatePerson_absent {s : Store} {personLog : PersonLog}
    (h : s.persons.any (fun p => decide (p.PersonHash = personLog.PersonHash)) = false) :
    CreateOrUpdatePerson s personLog =
      { store := { s with persons := s.persons ++
          [{ ID := RowID.generated, PersonHash := personLog.PersonHash,
             FirstSeen := personLog.Timestamp, LastSeen := personLog.Timestamp,
             VisitCount := 1, OrganizationID := personLog.OrganizationID }] },
        personLog := { personLog with IsNewPerson := true },
        result := Except.ok
          { ID := RowID.generated, PersonHash := personLog.PersonHash,
            FirstSeen := personLog.Timestamp, LastSeen := personLog.Timestamp,
            VisitCount := 1, OrganizationID := personLog.OrganizationID } } := by
  have hnone : s.persons.find?
      (Person.keyedBy personLog.PersonHash personLog.OrganizationID) = none := by
    rw [List.find?_eq_none]
    intro x hx
    have := (List.any_eq_false.mp h) x hx
    simp only [decide_eq_true_eq] at this
    simp [Person.keyedBy, this]
  unfold CreateOrUpdatePerson
  rw [hnone]
  simp [h]

/-- The ledger counts exactly one visit whenever it accepts the update. -/
theorem visitsOf_CreateOrUpdatePerson {s : Store} {personLog : PersonLog}
    (h : ledgerAccepts s personLog.PersonHash personLog.OrganizationID = true) :
    visitsOf (CreateOrUpdatePerson s personLog).store
        personLog.PersonHash personLog.OrganizationID
      = visitsOf s personLog.PersonHash personLog.OrganizationID + 1 := by
  unfold visitsOf
  cases hf : s.persons.find? (Person.keyedBy personLog.PersonHash personLog.OrganizationID) with
  | some p =>
    rw [(CreateOrUpdatePerson_existing hf).1]
  | none =>
    have hnot : s.persons.any (Person.keyedBy personLog.PersonHash personLog.OrganizationID)
        = false := by
      rw [List.any_eq_false]
      intro x hx
      have := List.find?_eq_none.mp hf x hx
      simpa using this
    have hfree : s.persons.any (fun p => decide (p.PersonHash = personLog.PersonHash))
        = false := by
      unfold ledgerAccepts at h
      rw [hnot] at h
      simpa using h
    rw [CreateOrUpdatePerson_absent hfree]
    simp only
    rw [List.find?_append, hf]
    simp [Person.keyedBy, Base.live]

/-! ## C1: idempotence -/

/-- A call that returns an error has written nothing. -/
theorem syncLogToPostgres_error_store {s : Store} {data : RawData} {e : SyncError}
    (h : (syncLogToPostgres s data).err = some e) : (syncLogToPostgres s data).store = s := by
  unfold syncLogToPostgres at h ⊢
  cases hd : decodeEvent data with
  | error e0 => rfl
  | ok ev =>
    simp only [hd] at h ⊢
    cases ho : resolveOrganization s ev.cameraID with
    | none => rfl
    | some o =>
      simp only [ho] at h ⊢
      cases hk : s.personLogs.any (PersonLog.hasKey ev.personHash ev.cameraID ev.timestampTime)
      · cases hpk : pkTaken (s.personLogs.map (fun l => l.ID)) ev.id
        · rw [reconcile_insert o hk hpk] at h
          simp at h
        · rw [reconcile_pkTaken o hk hpk]
      · rw [reconcile_duplicate o hk]

/-- What a successful call on an event that was not stored has done. -/
theorem syncLogToPostgres_insert {s : Store} {data : RawData} {ev : Event}
    (hev : decodeEvent data = Except.ok ev) (hnew : keyCount s ev = 0)
    (hok : (syncLogToPostgres s data).err = none) :
    ∃ o, resolveOrganization s ev.cameraID = some o
      ∧ pkTaken (s.personLogs.map (fun l => l.ID)) ev.id = false
      ∧ (syncLogToPostgres s data).store =
          (CreateOrUpdatePerson { s with personLogs := s.personLogs ++ [newLogOf s ev o] }
            (newLogOf s ev o)).store := by
  have hk : s.personLogs.any (PersonLog.hasKey ev.personHash ev.cameraID ev.timestampTime)
      = false := by
    unfold keyCount at hnew
    rw [List.countP_eq_zero] at hnew
    rw [List.any_eq_false]
    intro x hx
    simpa using hnew x hx
  unfold syncLogToPostgres at hok ⊢
  simp only [hev] at hok ⊢
  cases ho : resolveOrganization s ev.cameraID with
  | none => simp [ho] at hok
  | some o =>
    simp only [ho] at hok ⊢
    cases hpk : pkTaken (s.personLogs.map (fun l => l.ID)) ev.id
    · exact ⟨o, rfl, rfl, by rw [reconcile_insert o hk hpk]⟩
    · rw [reconcile_pkTaken o hk hpk] at hok
      simp at hok

/-- C1, as stated, fails on two stores with a valid event.  After
`DeletePerson("h1", "org1")` the rows of the scenario are tombstoned and the
event of `ts=100` comes again under its id `e100`: no row that is not deleted
has its dedup key, the insert is refused because the id is taken, and both
calls return the error, so the second call does not succeed and no such row
holds the event.  And on the ledger whose row of `h1` is tombstoned, the event
of `ts=400` is stored by the first call and found by the second, both succeed,
and no visit is counted for it. -/
theorem syncLogToPostgres_idempotent_counterexample :
    wellFormed event100 = true
    ∧ (syncLogToPostgres scenarioDeleted event100).err = some SyncError.create
    ∧ (syncLogToPostgres (syncLogToPostgres scenarioDeleted event100).store event100).err
        = some SyncError.create
    ∧ keyCount (syncLogToPostgres (syncLogToPostgres scenarioDeleted event100).store
        event100).store
        { id := RowID.given "e100", timestampTime := 100, personHash := "h1",
          cameraID := "c1" } = 0
    ∧ wellFormed event400 = true
    ∧ (syncLogToPostgres deletedAt300 event400).err = none
    ∧ (syncLogToPostgres (syncLogToPostgres deletedAt300 event400).store event400).err = none
    ∧ keyCount (syncLogToPostgres (syncLogToPostgres deletedAt300 event400).store
        event400).store
        { id := RowID.given "e400", timestampTime := 400, personHash := "h1",
          cameraID := "c1" } = 1
    ∧ visitsOf deletedAt300 "h1" "org1" = 0
    ∧ visitsOf (syncLogToPostgres (syncLogToPostgres deletedAt300 event400).store
        event400).store "h1" "org1" = 0
    ∧ (syncLogToPostgres (syncLogToPostgres deletedAt300 event400).store
        event400).store.persons = deletedAt300.persons := by
  decide

/-- C1, amended.  For every store and every payload, running
`syncLogToPostgres` on it twice in succession leaves the store that one run
leaves.  When the payload is a valid event and the first run succeeds, the
second run succeeds too (it finds the row with the dedup key and writes
nothing); if the event was not stored before, the store then holds exactly one
live PersonLog row with its dedup key, and the ledger, where it accepts the
visit, has counted exactly one visit for it. -/
theorem syncLogToPostgres_idempotent (s : Store) (data : RawData) :
    (syncLogToPostgres (syncLogToPostgres s data).store data).store
        = (syncLogToPostgres s data).store
    ∧ ∀ ev, decodeEvent data = Except.ok ev → (syncLogToPostgres s data).err = none →
        (syncLogToPostgres (syncLogToPostgres s data).store data).err = none
        ∧ (keyCount s ev = 0 →
            keyCount (syncLogToPostgres (syncLogToPostgres s data).store data).store ev = 1
            ∧ ∀ o, resolveOrganization s ev.cameraID = some o →
                ledgerAccepts s ev.personHash o = true →
                visitsOf (syncLogToPostgres (syncLogToPostgres s data).store data).store
                    ev.personHash o
                  = visitsOf s ev.personHash o + 1) := by
  have htwice : (syncLogToPostgres (syncLogToPostgres s data).store data).store
      = (syncLogToPostgres s data).store := by
    cases hd : decodeEvent data with
    | error e0 => simp [syncLogToPostgres, hd]
    | ok ev =>
      cases ho : resolveOrganization s ev.cameraID with
      | none => simp [syncLogToPostgres, hd, ho]
      | some o =>
        have h1 : syncLogToPostgres s data = reconcile s ev o := by
          simp [syncLogToPostgres, hd, ho]
        have ho2 : resolveOrganization (reconcile s ev o).store ev.cameraID = some o := by
          rw [resolveOrganization_congr (reconcile_frame s ev o).1 (reconcile_frame s ev o).2]
          exact ho
        rw [h1]
        have h2 : syncLogToPostgres (reconcile s ev o).store data
            = reconcile (reconcile s ev o).store ev o := by
          simp [syncLogToPostgres, hd, ho2]
        rw [h2]
        exact reconcile_twice s ev o
  refine ⟨htwice, ?_⟩
  intro ev hev hok
  rw [htwice]
  refine ⟨?_, ?_⟩
  · cases ho : resolveOrganization s ev.cameraID with
    | none => simp [syncLogToPostgres, hev, ho] at hok
    | some o =>
      have h1 : syncLogToPostgres s data = reconcile s ev o := by
        simp [syncLogToPostgres, hev, ho]
      have ho2 : resolveOrganization (reconcile s ev o).store ev.cameraID = some o := by
        rw [resolveOrganization_congr (reconcile_frame s ev o).1 (reconcile_frame s ev o).2]
        exact ho
      rw [h1] at hok ⊢
      have h2 : syncLogToPostgres (reconcile s ev o).store data
          = reconcile (reconcile s ev o).store ev o := by
        simp [syncLogToPostgres, hev, ho2]
      rw [h2, reconcile_duplicate o (reconcile_ok_stored hok)]
  · intro hnew
    obtain ⟨o, ho, _, hst⟩ := syncLogToPostgres_insert hev hnew hok
    rw [hst]
    refine ⟨?_, ?_⟩
    · unfold keyCount at hnew ⊢
      rw [(CreateOrUpdatePerson_frame _ _).1]
      simp only
      rw [List.countP_append, hnew]
      simp [newLogOf_hasKey]
    · intro o2 ho2 hacc
      rw [ho] at ho2
      cases ho2
      exact @visitsOf_CreateOrUpdatePerson
        { s with personLogs := s.personLogs ++ [newLogOf s ev o] } (newLogOf s ev o) hacc

/-- The scenario of C1: the event at `ts=100`, reconciled twice. -/
theorem syncLogToPostgres_idempotent_witness :
    (syncLogToPostgres (syncLogToPostgres scenarioStore event100).store event100).err = none
    ∧ keyCount (syncLogToPostgres (syncLogToPostgres scenarioStore event100).store
        event100).store
        { id := RowID.given "e100", timestampTime := 100, personHash := "h1",
          cameraID := "c1" } = 1
    ∧ visitsOf (syncLogToPostgres (syncLogToPostgres scenarioStore event100).store
        event100).store "h1" "org1" = visitsOf scenarioStore "h1" "org1" + 1 :=
  have h := (syncLogToPostgres_idempotent scenarioStore event100).2
    { id := RowID.given "e100", timestampTime := 100, personHash := "h1", cameraID := "c1" }
    (by decide) (by decide)
  ⟨h.1, (h.2 (by decide)).1, (h.2 (by decide)).2 "org1" (by decide) (by decide)⟩

/-! ## C2: classification -/

/-- C2, as stated, fails on a store with tombstoned rows.  After
`DeletePerson("h1", "org1")` the two rows of `h1` (`ts=100` and `ts=200`) are
still in the table, soft-deleted; the event of `ts=400` is valid and not
stored, and the row inserted for it has `is_new_person = true` although the
store holds PersonLog rows of `h1` with a strictly earlier timestamp. -/
theorem syncLogToPostgres_classification_counterexample :
    wellFormed event400 = true
    ∧ (syncLogToPostgres scenarioDeleted event400).err = none
    ∧ (syncLogToPostgres scenarioDeleted event400).store.personLogs
        = scenarioDeleted.personLogs
          ++ [{ ID := RowID.given "e400", Timestamp := 400, PersonHash := "h1",
                CameraID := "c1", IsNewPerson := true, OrganizationID := "org1" }]
    ∧ (∃ l ∈ scenarioDeleted.personLogs, l.PersonHash = "h1" ∧ l.Timestamp < 400)
    ∧ scenarioDeleted.personLogs.map (fun l => (l.Timestamp, l.DeletedAt))
        = [(100, some 300), (200, some 300)] := by
  decide

/-- C2, amended (classification rule).  For every valid event that is not stored yet
and that `syncLogToPostgres` reconciles successfully, the call appends exactly
one PersonLog row, the row carries the event's dedup key, and its
`is_new_person` is true if and only if the store held no live PersonLog row of
the same person hash with a strictly earlier timestamp (a row with an equal
timestamp does not count). -/
theorem syncLogToPostgres_classification (s : Store) (data : RawData) (ev : Event)
    (hev : decodeEvent data = Except.ok ev) (hnew : keyCount s ev = 0)
    (hok : (syncLogToPostgres s data).err = none) :
    ∃ row, (syncLogToPostgres s data).store.personLogs = s.personLogs ++ [row]
      ∧ row.PersonHash = ev.personHash ∧ row.CameraID = ev.cameraID
      ∧ row.Timestamp = ev.timestampTime
      ∧ (row.IsNewPerson = true ↔
          ∀ l ∈ s.personLogs, l.live = true → l.PersonHash = ev.personHash →
            ¬ l.Timestamp < ev.timestampTime) := by
  obtain ⟨o, _, _, hst⟩ := syncLogToPostgres_insert hev hnew hok
  refine ⟨newLogOf s ev o, ?_, rfl, rfl, rfl, ?_⟩
  · rw [hst, (CreateOrUpdatePerson_frame _ _).1]
  · simp only [newLogOf, decide_eq_true_eq, List.countP_eq_zero, PersonLog.isEarlier,
      Bool.and_eq_true, not_and]
    constructor
    · intro h l hl hlive hhash
      exact h l hl ⟨hlive, hhash⟩
    · intro h l hl hlh
      exact h l hl hlh.1 hlh.2

/-- The scenario of C2: after the event at `ts=100`, the event at `ts=200` is a
repeat. -/
theorem syncLogToPostgres_classification_witness :
    ∃ row, (syncLogToPostgres (syncLogToPostgres scenarioStore event100).store
        event200).store.personLogs
        = (syncLogToPostgres scenarioStore event100).store.personLogs ++ [row]
      ∧ row.PersonHash = "h1" ∧ row.CameraID = "c1" ∧ row.Timestamp = 200
      ∧ (row.IsNewPerson = true ↔
          ∀ l ∈ (syncLogToPostgres scenarioStore event100).store.personLogs,
            l.live = true → l.PersonHash = "h1" → ¬ l.Timestamp < 200) :=
  syncLogToPostgres_classification (syncLogToPostgres scenarioStore event100).store event200
    { id := RowID.given "e200", timestampTime := 200, personHash := "h1", cameraID := "c1" }
    (by decide) (by decide) (by decide)

/-! ## C10: validation -/

/-- C10 (validation).  A payload whose timestamp is absent or not a number,
or whose person hash or camera id is absent, not a string or empty, makes
`syncLogToPostgres` return a validation error and leave the store as it was;
a payload with all three fields well-formed is never given a validation
error. -/
theorem syncLogToPostgres_validation (s : Store) (data : RawData) :
    (wellFormed data = false →
      (∃ e, (syncLogToPostgres s data).err = some e ∧ e.isValidation = true)
      ∧ (syncLogToPostgres s data).store = s)
    ∧ (wellFormed data = true →
      ∀ e, (syncLogToPostgres s data).err = some e → e.isValidation = false) := by
  constructor
  · intro hwf
    cases hd : decodeEvent data with
    | error e0 =>
      exact ⟨⟨e0, by simp [syncLogToPostgres, hd], decodeEvent_error_isValidation hd⟩,
        by simp [syncLogToPostgres, hd]⟩
    | ok ev =>
      have := (decodeEvent_ok_iff data).mpr ⟨ev, hd⟩
      rw [hwf] at this
      cases this
  · intro hwf e he
    obtain ⟨ev, hd⟩ := (decodeEvent_ok_iff data).mp hwf
    unfold syncLogToPostgres at he
    simp only [hd] at he
    cases ho : resolveOrganization s ev.cameraID with
    | none =>
      simp [ho] at he
      rw [← he]
      rfl
    | some o =>
      simp only [ho] at he
      cases hk : s.personLogs.any (PersonLog.hasKey ev.personHash ev.cameraID ev.timestampTime)
      · cases hpk : pkTaken (s.personLogs.map (fun l => l.ID)) ev.id
        · rw [reconcile_insert o hk hpk] at he
          simp at he
        · rw [reconcile_pkTaken o hk hpk] at he
          simp at he
          rw [← he]
          rfl
      · rw [reconcile_duplicate o hk] at he
        simp at he

/-- Two payloads of C10: a textual timestamp is rejected without a write, the
event at `ts=100` passes validation. -/
theorem syncLogToPostgres_validation_witness :
    ((∃ e, (syncLogToPostgres scenarioStore
          [("timestamp", Value.string "100"), ("person_hash", Value.string "h1"),
           ("camera_id", Value.string "c1")]).err = some e ∧ e.isValidation = true)
      ∧ (syncLogToPostgres scenarioStore
          [("timestamp", Value.string "100"), ("person_hash", Value.string "h1"),
           ("camera_id", Value.string "c1")]).store = scenarioStore)
    ∧ ∀ e, (syncLogToPostgres scenarioStore event100).err = some e →
        e.isValidation = false :=
  ⟨(syncLogToPostgres_validation scenarioStore
      [("timestamp", Value.string "100"), ("person_hash", Value.string "h1"),
       ("camera_id", Value.string "c1")]).1 (by decide),
   (syncLogToPostgres_validation scenarioStore event100).2 (by decide)⟩

/-! ## C6: a visit of a known person -/

/-- C6, as stated, fails: the person was last seen at `ts=200`; a log of
`ts=100` sets `last_seen` to `100`, which is not `max 200 100`. -/
theorem CreateOrUpdatePerson_lastSeen_counterexample :
    seenAt200.persons.find? (Person.keyedBy "h1" "org1")
        = some { ID := RowID.generated, PersonHash := "h1", FirstSeen := 200,
                 LastSeen := 200, VisitCount := 1, OrganizationID := "org1" }
    ∧ (CreateOrUpdatePerson seenAt200 (ledgerLog 100)).store.persons.find?
          (Person.keyedBy "h1" "org1")
        = some { ID := RowID.generated, PersonHash := "h1", FirstSeen := 200,
                 LastSeen := 100, VisitCount := 2, OrganizationID := "org1" }
    ∧ (100 : Time) ≠ max 200 100 := by
  decide

/-- C6, amended.  When a live Person row exists for the log's person hash and
organization, `CreateOrUpdatePerson` overwrites its `last_seen` with the log's
timestamp, increases its `visit_count` by exactly 1 and leaves the rest of the
row as it was; the new `last_seen` is the maximum of the previous one and the
log's timestamp exactly when the log is not older than the previous
`last_seen`. -/
theorem CreateOrUpdatePerson_recordVisit (s : Store) (personLog : PersonLog) (p : Person)
    (h : s.persons.find? (Person.keyedBy personLog.PersonHash personLog.OrganizationID)
      = some p) :
    ∃ p', (CreateOrUpdatePerson s personLog).store.persons.find?
          (Person.keyedBy personLog.PersonHash personLog.OrganizationID) = some p'
      ∧ p' = { p with LastSeen := personLog.Timestamp, VisitCount := p.VisitCount + 1 }
      ∧ p'.LastSeen = personLog.Timestamp
      ∧ p'.VisitCount = p.VisitCount + 1
      ∧ (p'.LastSeen = max p.LastSeen personLog.Timestamp ↔
          p.LastSeen ≤ personLog.Timestamp) := by
  refine ⟨_, (CreateOrUpdatePerson_existing h).1, rfl, rfl, rfl, ?_⟩
  simp only
  constructor
  · intro hmax
    rw [hmax]
    exact le_max_left _ _
  · intro hle
    exact (max_eq_right hle).symm

/-- The amended C6 on the ledger that saw `h1` at `ts=200`, with a log of
`ts=100`. -/
theorem CreateOrUpdatePerson_recordVisit_witness :
    ∃ p', (CreateOrUpdatePerson seenAt200 (ledgerLog 100)).store.persons.find?
          (Person.keyedBy "h1" "org1") = some p'
      ∧ p' = { ID := RowID.generated, PersonHash := "h1", FirstSeen := 200,
               LastSeen := 100, VisitCount := 1 + 1, OrganizationID := "org1" }
      ∧ p'.LastSeen = 100
      ∧ p'.VisitCount = 1 + 1
      ∧ (p'.LastSeen = max 200 100 ↔ (200 : Time) ≤ 100) :=
  CreateOrUpdatePerson_recordVisit seenAt200 (ledgerLog 100)
    { ID := RowID.generated, PersonHash := "h1", FirstSeen := 200,
      LastSeen := 200, VisitCount := 1, OrganizationID := "org1" }
    (by decide)

/-! ## C7: the first visit of a person -/

/-- C7 on a failing input: after `DeletePerson` has tombstoned `h1` of `org1`,
no live Person row exists for `("h1", "org1")`, yet `CreateOrUpdatePerson`
inserts nothing: the tombstoned row still holds the hash in the unique index
of `persons.person_hash`, the insert is refused, the call returns the error
and the log's flag is not set. -/
theorem CreateOrUpdatePerson_tombstone_blocks :
    deletedAt300.persons.find? (Person.keyedBy "h1" "org1") = none
    ∧ (CreateOrUpdatePerson deletedAt300 (ledgerLog 400)).result
        = Except.error PersonError.create
    ∧ (CreateOrUpdatePerson deletedAt300 (ledgerLog 400)).store = deletedAt300
    ∧ (CreateOrUpdatePerson deletedAt300 (ledgerLog 400)).personLog.IsNewPerson = false := by
  decide

/-! ## C5: the log row and the ledger -/

/-- C5, as stated, fails: the event at `ts=400` for the deleted person `h1`
is inserted, the ledger refuses the update, and `syncLogToPostgres` still
returns success and keeps the PersonLog row. -/
theorem syncLogToPostgres_atomicity_counterexample :
    (CreateOrUpdatePerson
        { deletedAt300 with personLogs :=
            [{ ID := RowID.given "e400", Timestamp := 400, PersonHash := "h1",
               CameraID := "c1", IsNewPerson := true, OrganizationID := "org1" }] }
        { ID := RowID.given "e400", Timestamp := 400, PersonHash := "h1",
          CameraID := "c1", IsNewPerson := true, OrganizationID := "org1" }).result
      = Except.error PersonError.create
    ∧ (syncLogToPostgres deletedAt300 event400).err = none
    ∧ (syncLogToPostgres deletedAt300 event400).store.personLogs
      = [{ ID := RowID.given "e400", Timestamp := 400, PersonHash := "h1",
           CameraID := "c1", IsNewPerson := true, OrganizationID := "org1" }]
    ∧ (syncLogToPostgres deletedAt300 event400).store.persons = deletedAt300.persons := by
  decide

/-- C5, amended.  For every valid event that is not stored yet, whose
organization resolves and whose id is free, if `CreateOrUpdatePerson` fails on
the PersonLog row just inserted, `syncLogToPostgres` drops that error: it
returns success, the PersonLog row stays in the store, and `persons` is as it
was before the call. -/
theorem syncLogToPostgres_keeps_log (s : Store) (data : RawData) (ev : Event)
    (organizationID : String) (e : PersonError)
    (hev : decodeEvent data = Except.ok ev) (hnew : keyCount s ev = 0)
    (horg : resolveOrganization s ev.cameraID = some organizationID)
    (hpk : pkTaken (s.personLogs.map (fun l => l.ID)) ev.id = false)
    (hfail : (CreateOrUpdatePerson
        { s with personLogs := s.personLogs ++ [newLogOf s ev organizationID] }
        (newLogOf s ev organizationID)).result = Except.error e) :
    (syncLogToPostgres s data).err = none
    ∧ (syncLogToPostgres s data).store.personLogs
        = s.personLogs ++ [newLogOf s ev organizationID]
    ∧ (syncLogToPostgres s data).store.persons = s.persons := by
  have hk : s.personLogs.any (PersonLog.hasKey ev.personHash ev.cameraID ev.timestampTime)
      = false := by
    unfold keyCount at hnew
    rw [List.countP_eq_zero] at hnew
    rw [List.any_eq_false]
    intro x hx
    simpa using hnew x hx
  have hs : syncLogToPostgres s data = reconcile s ev organizationID := by
    simp [syncLogToPostgres, hev, horg]
  rw [hs, reconcile_insert organizationID hk hpk]
  refine ⟨rfl, (CreateOrUpdatePerson_frame _ _).1, ?_⟩
  revert hfail
  unfold CreateOrUpdatePerson
  split
  · split
    · intro _; rfl
    · intro hfail; simp at hfail
  · intro hfail; simp at hfail

/-- The amended C5 on the event at `ts=400` for the deleted person `h1`. -/
theorem syncLogToPostgres_keeps_log_witness :
    (syncLogToPostgres deletedAt300 event400).err = none
    ∧ (syncLogToPostgres deletedAt300 event400).store.personLogs
        = deletedAt300.personLogs ++ [newLogOf deletedAt300
            { id := RowID.given "e400", timestampTime := 400, personHash := "h1",
              cameraID := "c1" } "org1"]
    ∧ (syncLogToPostgres deletedAt300 event400).store.persons = deletedAt300.persons :=
  syncLogToPostgres_keeps_log deletedAt300 event400
    { id := RowID.given "e400", timestampTime := 400, personHash := "h1", cameraID := "c1" }
    "org1" PersonError.create (by decide) (by decide) (by decide) (by decide) (by decide)

/-! ## Sequences of events -/

/-- The key count of an event, after one row is appended. -/
theorem keyCount_append (s : Store) (row : PersonLog) (ev : Event) (st : Store)
    (h : st.personLogs = s.personLogs ++ [row]) :
    keyCount st ev = keyCount s ev
      + if PersonLog.hasKey ev.personHash ev.cameraID ev.timestampTime row then 1 else 0 := by
  unfold keyCount
  rw [h, List.countP_append]
  simp [List.countP_cons]

/-- The row of an event does not carry the key of an event with another key. -/
theorem newLogOf_hasKey_other (s : Store) (a b : Event) (organizationID : String)
    (h : a.sameKey b = false) :
    PersonLog.hasKey b.personHash b.cameraID b.timestampTime (newLogOf s a organizationID)
      = false := by
  unfold Event.sameKey at h
  simp only [PersonLog.hasKey, newLogOf, Base.live, Option.isNone_none, Bool.true_and]
  exact h

/-- A valid payload heads the events of its batch. -/
theorem eventsOf_cons {data : RawData} {ev : Event} (h : decodeEvent data = Except.ok ev)
    (rest : List RawData) : eventsOf (data :: rest) = ev :: eventsOf rest := by
  unfold eventsOf
  rw [List.filterMap_cons]
  simp [h]

/-- The rows a batch of new events leaves, one per event and in the order of
the batch, with the flag each one was given. -/
theorem syncEach_rows : ∀ (batch : List RawData) (s : Store),
    (∀ d ∈ batch, wellFormed d = true) →
    (∀ ev ∈ eventsOf batch, keyCount s ev = 0) →
    (eventsOf batch).Pairwise (fun a b => a.sameKey b = false) →
    allReconciled s batch = true →
    ∃ rows, (syncEach s batch).personLogs = s.personLogs ++ rows
      ∧ rows.length = batch.length
      ∧ ∀ pre ev post, eventsOf batch = pre ++ ev :: post →
          ∃ row, rows[pre.length]? = some row
            ∧ row.PersonHash = ev.personHash ∧ row.CameraID = ev.cameraID
            ∧ row.Timestamp = ev.timestampTime
            ∧ (row.IsNewPerson = true ↔
                (∀ l ∈ s.personLogs, l.live = true → l.PersonHash = ev.personHash →
                  ¬ l.Timestamp < ev.timestampTime)
                ∧ ∀ e ∈ pre, e.personHash = ev.personHash →
                  ¬ e.timestampTime < ev.timestampTime) := by
  intro batch
  induction batch with
  | nil =>
    intro s _ _ _ _
    refine ⟨[], by simp [syncEach], rfl, ?_⟩
    intro pre ev post h
    simp [eventsOf] at h
  | cons d ds ih =>
    intro s hvalid hnew hkeys hok
    obtain ⟨e0, he0⟩ := (decodeEvent_ok_iff d).mp (hvalid d (List.mem_cons_self _ _))
    rw [eventsOf_cons he0] at hnew hkeys
    simp only [allReconciled, Bool.and_eq_true, Option.isNone_iff_eq_none] at hok
    obtain ⟨hok0, hokrest⟩ := hok
    have hnew0 : keyCount s e0 = 0 := hnew e0 (List.mem_cons_self _ _)
    obtain ⟨o, _, _, hst⟩ := syncLogToPostgres_insert he0 hnew0 hok0
    have hlogs : (syncLogToPostgres s d).store.personLogs
        = s.personLogs ++ [newLogOf s e0 o] := by
      rw [hst, (CreateOrUpdatePerson_frame _ _).1]
    rw [List.pairwise_cons] at hkeys
    obtain ⟨hkeys0, hkeysrest⟩ := hkeys
    have hnew1 : ∀ ev ∈ eventsOf ds, keyCount (syncLogToPostgres s d).store ev = 0 := by
      intro ev hev
      rw [keyCount_append s _ ev _ hlogs, hnew ev (List.mem_cons_of_mem _ hev),
        newLogOf_hasKey_other s e0 ev o (hkeys0 ev hev)]
      simp
    obtain ⟨rows, hrows, hlen, hflags⟩ :=
      ih (syncLogToPostgres s d).store
        (fun x hx => hvalid x (List.mem_cons_of_mem _ hx)) hnew1 hkeysrest hokrest
    refine ⟨newLogOf s e0 o :: rows, ?_, by simp [hlen], ?_⟩
    · simp only [syncEach]
      rw [hrows, hlogs]
      simp
    · intro pre ev post hsplit
      rw [eventsOf_cons he0] at hsplit
      cases pre with
      | nil =>
        simp only [List.nil_append, List.cons.injEq] at hsplit
        obtain ⟨hev, _⟩ := hsplit
        subst hev
        refine ⟨newLogOf s e0 o, by simp, rfl, rfl, rfl, ?_⟩
        simp only [newLogOf, decide_eq_true_eq, List.countP_eq_zero, PersonLog.isEarlier,
          Bool.and_eq_true, not_and, List.not_mem_nil, false_implies, implies_true,
          and_true]
        constructor
        · intro h l hl hlive hhash
          exact h l hl ⟨hlive, hhash⟩
        · intro h l hl hlh
          exact h l hl hlh.1 hlh.2
      | cons p0 pre' =>
        simp only [List.cons_append, List.cons.injEq] at hsplit
        obtain ⟨hp0, hsplit'⟩ := hsplit
        subst hp0
        obtain ⟨row, hrow, hh, hc, ht, hflag⟩ := hflags pre' ev post hsplit'
        refine ⟨row, by simpa using hrow, hh, hc, ht, ?_⟩
        rw [hflag, hlogs]
        constructor
        · rintro ⟨hstore, hpre⟩
          refine ⟨fun l hl => hstore l (List.mem_append_left _ hl), ?_⟩
          intro e he
          rcases List.mem_cons.mp he with rfl | he'
          · intro hhash
            exact hstore (newLogOf s e o) (by simp) rfl hhash
          · exact hpre e he'
        · rintro ⟨hstore, hpre⟩
          refine ⟨?_, fun e he => hpre e (List.mem_cons_of_mem _ he)⟩
          intro l hl
          rcases List.mem_append.mp hl with hl | hl
          · exact hstore l hl
          · simp only [List.mem_singleton] at hl
            subst hl
            intro _ hhash
            exact hpre e0 (List.mem_cons_self _ _) hhash

/-! ## C3: new-person classification along a sequence -/

/-- C3, as stated, fails: from a store without rows for `h1`, the events at
`ts=200` and then `ts=100` are both reconciled, and the row of the second one
is flagged as a new person too. -/
theorem syncEach_newPerson_counterexample :
    allReconciled scenarioStore [event200, event100] = true
    ∧ (syncEach scenarioStore [event200, event100]).personLogs.map
        (fun l => (l.PersonHash, l.Timestamp, l.IsNewPerson))
      = [("h1", 200, true), ("h1", 100, true)] := by
  decide

/-- C3, amended.  Starting from a store with no PersonLog row for hash `h`,
for every sequence of valid events for `h` with pairwise distinct dedup keys
that `syncLogToPostgres` reconciles one after the other, every event gets one
row, and the row of an event has `is_new_person = true` exactly when no event
reconciled before it has a strictly earlier timestamp.  So the first
reconciled event's row is flagged true, and a later one is flagged false
exactly when it arrives after an event that is older than it. -/
theorem syncEach_newPerson (s : Store) (batch : List RawData) (h : String)
    (hvalid : ∀ d ∈ batch, wellFormed d = true)
    (hhash : ∀ ev ∈ eventsOf batch, ev.personHash = h)
    (hfresh : ∀ l ∈ s.personLogs, l.PersonHash ≠ h)
    (hkeys : (eventsOf batch).Pairwise (fun a b => a.sameKey b = false))
    (hok : allReconciled s batch = true) :
    ∃ rows, (syncEach s batch).personLogs = s.personLogs ++ rows
      ∧ rows.length = batch.length
      ∧ ∀ pre ev post, eventsOf batch = pre ++ ev :: post →
          ∃ row, rows[pre.length]? = some row
            ∧ row.PersonHash = h ∧ row.CameraID = ev.cameraID
            ∧ row.Timestamp = ev.timestampTime
            ∧ (row.IsNewPerson = true ↔
                ∀ e ∈ pre, ¬ e.timestampTime < ev.timestampTime) := by
  have hnew : ∀ ev ∈ eventsOf batch, keyCount s ev = 0 := by
    intro ev hev
    unfold keyCount
    rw [List.countP_eq_zero]
    intro l hl
    have := hfresh l hl
    rw [← hhash ev hev] at this
    simp [PersonLog.hasKey, this]
  obtain ⟨rows, hrows, hlen, hflags⟩ := syncEach_rows batch s hvalid hnew hkeys hok
  refine ⟨rows, hrows, hlen, ?_⟩
  intro pre ev post hsplit
  obtain ⟨row, hrow, hh, hc, ht, hflag⟩ := hflags pre ev post hsplit
  have hevmem : ev ∈ eventsOf batch := by rw [hsplit]; simp
  refine ⟨row, hrow, by rw [hh, hhash ev hevmem], hc, ht, ?_⟩
  rw [hflag]
  constructor
  · rintro ⟨_, hpre⟩ e he
    have hemem : e ∈ eventsOf batch := by rw [hsplit]; simp [he]
    exact hpre e he (by rw [hhash e hemem, hhash ev hevmem])
  · intro hpre
    refine ⟨?_, fun e he _ => hpre e he⟩
    intro l hl _ hlh
    exact absurd (hlh.trans (hhash ev hevmem)) (hfresh l hl)

/-- The amended C3 on the scenario: `ts=100`, then `ts=200`. -/
theorem syncEach_newPerson_witness :
    ∃ rows, (syncEach scenarioStore [event100, event200]).personLogs
        = scenarioStore.personLogs ++ rows
      ∧ rows.length = [event100, event200].length
      ∧ ∀ pre ev post, eventsOf [event100, event200] = pre ++ ev :: post →
          ∃ row, rows[pre.length]? = some row
            ∧ row.PersonHash = "h1" ∧ row.CameraID = ev.cameraID
            ∧ row.Timestamp = ev.timestampTime
            ∧ (row.IsNewPerson = true ↔
                ∀ e ∈ pre, ¬ e.timestampTime < ev.timestampTime) :=
  syncEach_newPerson scenarioStore [event100, event200] "h1"
    (by decide) (by decide) (by decide) (by decide) (by decide)

/-! ## C4: visit counts along a sequence -/

/-- A call of `syncLogToPostgres` leaves cameras and organizations alone. -/
theorem syncLogToPostgres_frame (s : Store) (data : RawData) :
    (syncLogToPostgres s data).store.cameras = s.cameras
    ∧ (syncLogToPostgres s data).store.organizations = s.organizations := by
  unfold syncLogToPostgres
  split
  · exact ⟨rfl, rfl⟩
  · split
    · exact ⟨rfl, rfl⟩
    · exact reconcile_frame _ _ _

/-- Once the ledger has accepted a visit of a person, the person's row is there. -/
theorem CreateOrUpdatePerson_keyed {s : Store} {personLog : PersonLog}
    (h : ledgerAccepts s personLog.PersonHash personLog.OrganizationID = true) :
    (CreateOrUpdatePerson s personLog).store.persons.any
      (Person.keyedBy personLog.PersonHash personLog.OrganizationID) = true := by
  cases hf : s.persons.find? (Person.keyedBy personLog.PersonHash personLog.OrganizationID) with
  | some p =>
    have h1 := (CreateOrUpdatePerson_existing hf).1
    rw [List.any_eq_true]
    exact ⟨_, List.mem_of_find?_eq_some h1, List.find?_some h1⟩
  | none =>
    have hnot : s.persons.any (Person.keyedBy personLog.PersonHash personLog.OrganizationID)
        = false := by
      rw [List.any_eq_false]
      intro x hx
      have := List.find?_eq_none.mp hf x hx
      simpa using this
    have hfree : s.persons.any (fun p => decide (p.PersonHash = personLog.PersonHash))
        = false := by
      unfold ledgerAccepts at h
      rw [hnot] at h
      simpa using h
    rw [CreateOrUpdatePerson_absent hfree]
    simp [Person.keyedBy, Base.live]

/-- The visits a batch of new events of one person adds to the ledger. -/
theorem syncEach_visits (h o : String) : ∀ (batch : List RawData) (s : Store),
    (∀ d ∈ batch, wellFormed d = true) →
    (∀ ev ∈ eventsOf batch, ev.personHash = h) →
    (∀ ev ∈ eventsOf batch, resolveOrganization s ev.cameraID = some o) →
    (∀ ev ∈ eventsOf batch, keyCount s ev = 0) →
    (eventsOf batch).Pairwise (fun a b => a.sameKey b = false) →
    allReconciled s batch = true →
    ledgerAccepts s h o = true →
    visitsOf (syncEach s batch) h o = visitsOf s h o + batch.length := by
  intro batch
  induction batch with
  | nil =>
    intro s _ _ _ _ _ _ _
    simp [syncEach]
  | cons d ds ih =>
    intro s hvalid hhash horg hnew hkeys hok hacc
    obtain ⟨e0, he0⟩ := (decodeEvent_ok_iff d).mp (hvalid d (List.mem_cons_self _ _))
    rw [eventsOf_cons he0] at hhash horg hnew hkeys
    simp only [allReconciled, Bool.and_eq_true, Option.isNone_iff_eq_none] at hok
    obtain ⟨hok0, hokrest⟩ := hok
    have hnew0 : keyCount s e0 = 0 := hnew e0 (List.mem_cons_self _ _)
    have hh0 : e0.personHash = h := hhash e0 (List.mem_cons_self _ _)
    obtain ⟨o', ho', _, hst⟩ := syncLogToPostgres_insert he0 hnew0 hok0
    rw [horg e0 (List.mem_cons_self _ _)] at ho'
    cases ho'
    have hlogs : (syncLogToPostgres s d).store.personLogs
        = s.personLogs ++ [newLogOf s e0 o] := by
      rw [hst, (CreateOrUpdatePerson_frame _ _).1]
    rw [List.pairwise_cons] at hkeys
    obtain ⟨hkeys0, hkeysrest⟩ := hkeys
    have hnew1 : ∀ ev ∈ eventsOf ds, keyCount (syncLogToPostgres s d).store ev = 0 := by
      intro ev hev
      rw [keyCount_append s _ ev _ hlogs, hnew ev (List.mem_cons_of_mem _ hev),
        newLogOf_hasKey_other s e0 ev o (hkeys0 ev hev)]
      simp
    have horg1 : ∀ ev ∈ eventsOf ds,
        resolveOrganization (syncLogToPostgres s d).store ev.cameraID = some o := by
      intro ev hev
      rw [resolveOrganization_congr (syncLogToPostgres_frame s d).1
        (syncLogToPostgres_frame s d).2]
      exact horg ev (List.mem_cons_of_mem _ hev)
    subst hh0
    have hacc' : ledgerAccepts { s with personLogs := s.personLogs ++ [newLogOf s e0 o] }
        (newLogOf s e0 o).PersonHash (newLogOf s e0 o).OrganizationID = true := hacc
    have hvis : visitsOf (syncLogToPostgres s d).store e0.personHash o
        = visitsOf s e0.personHash o + 1 := by
      rw [hst]
      exact visitsOf_CreateOrUpdatePerson hacc'
    have hacc1 : ledgerAccepts (syncLogToPostgres s d).store e0.personHash o = true := by
      rw [hst]
      have hk := CreateOrUpdatePerson_keyed hacc'
      unfold ledgerAccepts
      rw [Bool.or_eq_true]
      exact Or.inl hk
    have := ih (syncLogToPostgres s d).store
      (fun x hx => hvalid x (List.mem_cons_of_mem _ hx))
      (fun ev hev => hhash ev (List.mem_cons_of_mem _ hev)) horg1 hnew1 hkeysrest hokrest
      hacc1
    simp only [syncEach]
    rw [this, hvis]
    simp only [List.length_cons]
    push_cast
    ring

/-- C4, as stated, fails: no Person and no PersonLog row for `h1` to start
with, two events for `h1` with distinct dedup keys are reconciled, each by a
camera of another organization, and every Person row for `h1` counts one
visit, not two. -/
theorem syncEach_visitCount_counterexample :
    twoTenants.persons = [] ∧ twoTenants.personLogs = []
    ∧ allReconciled twoTenants [event100, event200c2] = true
    ∧ (syncEach twoTenants [event100, event200c2]).personLogs.map
        (fun l => (l.PersonHash, l.CameraID, l.Timestamp, l.OrganizationID))
      = [("h1", "c1", 100, "org1"), ("h1", "c2", 200, "org2")]
    ∧ (syncEach twoTenants [event100, event200c2]).persons.any
        (fun p => decide (p.PersonHash = "h1")) = true
    ∧ ∀ p ∈ (syncEach twoTenants [event100, event200c2]).persons,
        p.PersonHash = "h1" → p.VisitCount = 1 := by
  decide

/-- C4, amended.  Starting from a store with no Person row and no PersonLog
row for hash `h`, after `syncLogToPostgres` has reconciled `K` valid events
for `h` with pairwise distinct dedup keys that all resolve to one
organization, the Person row of `h` in that organization has
`visit_count = K`. -/
theorem syncEach_visitCount (s : Store) (batch : List RawData) (h o : String)
    (hvalid : ∀ d ∈ batch, wellFormed d = true)
    (hhash : ∀ ev ∈ eventsOf batch, ev.personHash = h)
    (horg : ∀ ev ∈ eventsOf batch, resolveOrganization s ev.cameraID = some o)
    (hnoPerson : ∀ p ∈ s.persons, p.PersonHash ≠ h)
    (hnoLog : ∀ l ∈ s.personLogs, l.PersonHash ≠ h)
    (hkeys : (eventsOf batch).Pairwise (fun a b => a.sameKey b = false))
    (hok : allReconciled s batch = true)
    (hne : batch ≠ []) :
    ∃ p, (syncEach s batch).persons.find? (Person.keyedBy h o) = some p
      ∧ p.VisitCount = batch.length := by
  have hnew : ∀ ev ∈ eventsOf batch, keyCount s ev = 0 := by
    intro ev hev
    unfold keyCount
    rw [List.countP_eq_zero]
    intro l hl
    have := hnoLog l hl
    rw [← hhash ev hev] at this
    simp [PersonLog.hasKey, this]
  have hnone : s.persons.find? (Person.keyedBy h o) = none := by
    rw [List.find?_eq_none]
    intro p hp
    simp [Person.keyedBy, hnoPerson p hp]
  have hacc : ledgerAccepts s h o = true := by
    unfold ledgerAccepts
    have : s.persons.any (fun p => decide (p.PersonHash = h)) = false := by
      rw [List.any_eq_false]
      intro p hp
      simpa using hnoPerson p hp
    rw [this]
    simp
  have hvis := syncEach_visits h o batch s hvalid hhash horg hnew hkeys hok hacc
  have h0 : visitsOf s h o = 0 := by
    unfold visitsOf
    rw [hnone]
  rw [h0, zero_add] at hvis
  unfold visitsOf at hvis
  cases hf : (syncEach s batch).persons.find? (Person.keyedBy h o) with
  | some p =>
    rw [hf] at hvis
    exact ⟨p, rfl, hvis⟩
  | none =>
    rw [hf] at hvis
    simp only at hvis
    have hlen : batch.length ≠ 0 := by
      intro hz
      exact hne (List.length_eq_zero.mp hz)
    exact absurd (by exact_mod_cast hvis.symm) hlen

/-- The amended C4 on the scenario: the events at `ts=100` and `ts=200` for
`h1` at camera `c1` give `visit_count = 2`. -/
theorem syncEach_visitCount_witness :
    ∃ p, (syncEach scenarioStore [event100, event200]).persons.find?
          (Person.keyedBy "h1" "org1") = some p
      ∧ p.VisitCount = [event100, event200].length :=
  syncEach_visitCount scenarioStore [event100, event200] "h1" "org1"
    (by decide) (by decide) (by decide) (by decide) (by decide) (by decide) (by decide)
    (by decide)

/-! ## C8: first seen, last seen -/

/-- C8, as stated, fails: from the empty store, `CreateOrUpdatePerson` on a
log of `ts=200` and then on a log of `ts=100` for the same person leaves a
Person row with `first_seen = 200` and `last_seen = 100`; so does
`syncLogToPostgres` on the events at `ts=200` and `ts=100`, from a store that
holds an organization and a camera only. -/
theorem runCalls_firstSeen_counterexample :
    (runCalls {} [Call.ledger (ledgerLog 200), Call.ledger (ledgerLog 100)]).persons
      = [{ ID := RowID.generated, PersonHash := "h1", FirstSeen := 200, LastSeen := 100,
           VisitCount := 2, OrganizationID := "org1" }]
    ∧ (runCalls scenarioStore [Call.sync event200, Call.sync event100]).persons
      = [{ ID := RowID.generated, PersonHash := "h1", FirstSeen := 200, LastSeen := 100,
           VisitCount := 2, OrganizationID := "org1" }]
    ∧ ¬ ((200 : Time) ≤ 100) := by
  decide

/-- Every row of a rewritten table is an old row or the image of an old row
that the rewrite selects. -/
theorem mem_updateFirst_of {α : Type} (q : α → Bool) (f : α → α) (l : List α) (x : α)
    (h : x ∈ updateFirst q f l) : x ∈ l ∨ ∃ y ∈ l, q y = true ∧ x = f y := by
  induction l with
  | nil => simp [updateFirst] at h
  | cons a as ih =>
    unfold updateFirst at h
    by_cases ha : q a = true
    · simp only [ha, if_true, List.mem_cons] at h
      rcases h with rfl | h
      · exact Or.inr ⟨a, List.mem_cons_self _ _, ha, rfl⟩
      · exact Or.inl (List.mem_cons_of_mem _ h)
    · simp only [ha, Bool.false_eq_true, if_false, List.mem_cons] at h
      rcases h with rfl | h
      · exact Or.inl (List.mem_cons_self _ _)
      · rcases ih h with h' | ⟨y, hy, hq, hxy⟩
        · exact Or.inl (List.mem_cons_of_mem _ h')
        · exact Or.inr ⟨y, List.mem_cons_of_mem _ hy, hq, hxy⟩

/-- A rewrite addressed to the row `find?` returns puts the image of that row
in the table and leaves the other rows. -/
theorem mem_updateFirst_find {α : Type} (q : α → Bool) (f : α → α) (l : List α) (y : α)
    (h : l.find? q = some y) :
    f y ∈ updateFirst q f l ∧ ∀ x ∈ updateFirst q f l, x ∈ l ∨ x = f y := by
  induction l with
  | nil => simp at h
  | cons a as ih =>
    unfold updateFirst
    by_cases ha : q a = true
    · simp only [List.find?, ha, Option.some.injEq] at h
      subst h
      simp only [ha, if_true, List.mem_cons, true_or, true_and]
      intro x hx
      rcases hx with rfl | hx
      · exact Or.inr rfl
      · exact Or.inl (Or.inr hx)
    · have ha' : q a = false := by simpa using ha
      simp only [List.find?, ha'] at h
      simp only [ha', Bool.false_eq_true, if_false, List.mem_cons]
      obtain ⟨h1, h2⟩ := ih h
      refine ⟨Or.inr h1, ?_⟩
      intro x hx
      rcases hx with rfl | hx
      · exact Or.inl (Or.inl rfl)
      · rcases h2 x hx with h3 | h3
        · exact Or.inl (Or.inr h3)
        · exact Or.inr h3

/-- From a table whose rows satisfy the invariant, the ledger leaves one that
does exactly when the row it updates, if any, has a `first_seen` that is not
after the timestamp of the log. -/
theorem CreateOrUpdatePerson_firstSeen (s : Store) (personLog : PersonLog)
    (hinv : ∀ p ∈ s.persons, p.FirstSeen ≤ p.LastSeen) :
    (∀ p ∈ (CreateOrUpdatePerson s personLog).store.persons, p.FirstSeen ≤ p.LastSeen)
      ↔ ∀ person, firstPerson s personLog = some person →
          person.FirstSeen ≤ personLog.Timestamp := by
  unfold firstPerson
  cases hf : s.persons.find? (Person.keyedBy personLog.PersonHash personLog.OrganizationID) with
  | none =>
    simp only [false_imp_iff, implies_true, iff_true, reduceCtorEq]
    unfold CreateOrUpdatePerson
    rw [hf]
    simp only
    split
    · exact hinv
    · intro p hp
      simp only [List.mem_append, List.mem_singleton] at hp
      rcases hp with hp | rfl
      · exact hinv p hp
      · exact le_refl _
  | some y =>
    simp only [Option.some.injEq, forall_eq']
    unfold CreateOrUpdatePerson
    rw [hf]
    simp only
    obtain ⟨h1, h2⟩ := mem_updateFirst_find
      (Person.keyedBy personLog.PersonHash personLog.OrganizationID)
      (fun p => { p with LastSeen := personLog.Timestamp, VisitCount := p.VisitCount + 1 })
      s.persons y hf
    constructor
    · intro h
      exact h _ h1
    · intro h p hp
      rcases h2 p hp with hp | rfl
      · exact hinv p hp
      · exact h

/-- The rows the ledger leaves in `persons` depend on `persons` and the log
only. -/
theorem CreateOrUpdatePerson_persons_congr (s s' : Store) (personLog : PersonLog)
    (h : s'.persons = s.persons) :
    (CreateOrUpdatePerson s' personLog).store.persons
      = (CreateOrUpdatePerson s personLog).store.persons := by
  unfold CreateOrUpdatePerson
  rw [h]
  split
  · split <;> simp [h]
  · simp

/-- The rows a call leaves in `persons`: those the ledger leaves on the log
the call hands to it, the old rows when it hands it none. -/
theorem Call.run_persons (s : Store) (c : Call) :
    (c.run s).persons =
      match c.ledgerLog? s with
      | none => s.persons
      | some personLog => (CreateOrUpdatePerson s personLog).store.persons := by
  cases c with
  | ledger personLog => rfl
  | sync data =>
    simp only [Call.run, syncLogToPostgres, Call.ledgerLog?]
    cases hd : decodeEvent data with
    | error e => rfl
    | ok ev =>
      simp only
      cases ho : resolveOrganization s ev.cameraID with
      | none => rfl
      | some o =>
        simp only
        cases hk : s.personLogs.any
            (PersonLog.hasKey ev.personHash ev.cameraID ev.timestampTime)
        · cases hpk : pkTaken (s.personLogs.map (fun l => l.ID)) ev.id
          · rw [reconcile_insert o hk hpk]
            simp only [Bool.or_self, Bool.false_eq_true, if_false]
            exact CreateOrUpdatePerson_persons_congr s _ _ rfl
          · rw [reconcile_pkTaken o hk hpk]
            simp
        · rw [reconcile_duplicate o hk]
          simp

/-- One call keeps the invariant exactly when it does not update a row with
a timestamp older than its `first_seen`. -/
theorem Call.run_firstSeen (s : Store) (c : Call)
    (hinv : ∀ p ∈ s.persons, p.FirstSeen ≤ p.LastSeen) :
    (∀ p ∈ (c.run s).persons, p.FirstSeen ≤ p.LastSeen) ↔ c.keepsFirstSeen s = true := by
  rw [Call.run_persons]
  unfold Call.keepsFirstSeen
  cases hl : c.ledgerLog? s with
  | none => simpa using hinv
  | some personLog =>
    simp only
    rw [CreateOrUpdatePerson_firstSeen s personLog hinv]
    cases hf : firstPerson s personLog with
    | none => simp
    | some person => simp

/-- The invariant of C8 along a sequence of calls, from any store whose rows
satisfy it. -/
theorem runCalls_firstSeen_iff : ∀ (calls : List Call) (s : Store),
    (∀ p ∈ s.persons, p.FirstSeen ≤ p.LastSeen) →
    ((∀ n, ∀ p ∈ (runCalls s (calls.take n)).persons, p.FirstSeen ≤ p.LastSeen)
      ↔ notBeforeFirstSeen s calls = true) := by
  intro calls
  induction calls with
  | nil =>
    intro s hinv
    simp only [List.take_nil, runCalls, notBeforeFirstSeen, iff_true]
    intro _
    exact hinv
  | cons c rest ih =>
    intro s hinv
    simp only [notBeforeFirstSeen, Bool.and_eq_true]
    constructor
    · intro h
      have h1 : ∀ p ∈ (c.run s).persons, p.FirstSeen ≤ p.LastSeen := h 1
      refine ⟨(Call.run_firstSeen s c hinv).mp h1, (ih (c.run s) h1).mp ?_⟩
      intro n
      exact h (n + 1)
    · intro ⟨hc, hrest⟩ n
      have h1 := (Call.run_firstSeen s c hinv).mpr hc
      cases n with
      | zero => exact hinv
      | succ m => exact (ih (c.run s) h1).mpr hrest m

/-- C8, amended.  From a store without Person rows (the empty store among
them) and for every sequence of `CreateOrUpdatePerson` and
`syncLogToPostgres` calls: every Person row of every store reached along the
sequence satisfies `first_seen ≤ last_seen` if and only if no call of the
sequence updates a Person row with a timestamp older than the `first_seen` of
that row. -/
theorem runCalls_firstSeen_le_lastSeen (s : Store) (calls : List Call)
    (hempty : s.persons = []) :
    (∀ n, ∀ p ∈ (runCalls s (calls.take n)).persons, p.FirstSeen ≤ p.LastSeen)
      ↔ notBeforeFirstSeen s calls = true := by
  apply runCalls_firstSeen_iff
  intro p hp
  rw [hempty] at hp
  cases hp

/-- The amended C8 on four sequences.  From the empty store the ledger sees
`h1` at `ts=100`, `ts=300` and then `ts=200`: the last call is older than the
one before it, not older than `first_seen`, and the row has `first_seen = 100`
and `last_seen = 200`.  The ledger sees `h1` at `ts=200` and then `h2` at
`ts=100`: the rows are of two persons and both satisfy the invariant.  From
a store that holds the detection of `ts=100` and no Person row, the events of
`ts=200` and `ts=100` are reconciled: the second is a duplicate and updates
nothing.  The sequence `ts=200`, `ts=100` for `h1` from the empty store does
not meet the condition, and the store it reaches breaks the invariant. -/
theorem runCalls_firstSeen_le_lastSeen_witness :
    notBeforeFirstSeen {}
        [Call.ledger (ledgerLog 100), Call.ledger (ledgerLog 300), Call.ledger (ledgerLog 200)]
      = true
    ∧ (runCalls {}
        [Call.ledger (ledgerLog 100), Call.ledger (ledgerLog 300),
         Call.ledger (ledgerLog 200)]).persons
      = [{ ID := RowID.generated, PersonHash := "h1", FirstSeen := 100, LastSeen := 200,
           VisitCount := 3, OrganizationID := "org1" }]
    ∧ (∀ p ∈ (runCalls {}
        [Call.ledger (ledgerLog 100), Call.ledger (ledgerLog 300),
         Call.ledger (ledgerLog 200)]).persons, p.FirstSeen ≤ p.LastSeen)
    ∧ (runCalls {}
        [Call.ledger (ledgerLog 200),
         Call.ledger { ledgerLog 100 with PersonHash := "h2" }]).persons.map
          (fun p => (p.PersonHash, p.FirstSeen, p.LastSeen))
      = [("h1", 200, 200), ("h2", 100, 100)]
    ∧ (∀ p ∈ (runCalls {}
        [Call.ledger (ledgerLog 200),
         Call.ledger { ledgerLog 100 with PersonHash := "h2" }]).persons,
        p.FirstSeen ≤ p.LastSeen)
    ∧ ({ scenarioStore with
          personLogs := (syncLogToPostgres scenarioStore event100).store.personLogs }
        : Store).persons = []
    ∧ (runCalls { scenarioStore with
          personLogs := (syncLogToPostgres scenarioStore event100).store.personLogs }
        [Call.sync event200, Call.sync event100]).persons.map
          (fun p => (p.PersonHash, p.FirstSeen, p.LastSeen))
      = [("h1", 200, 200)]
    ∧ (∀ p ∈ (runCalls { scenarioStore with
          personLogs := (syncLogToPostgres scenarioStore event100).store.personLogs }
        [Call.sync event200, Call.sync event100]).persons, p.FirstSeen ≤ p.LastSeen)
    ∧ ¬ (∀ n, ∀ p ∈ (runCalls {}
        ([Call.ledger (ledgerLog 200), Call.ledger (ledgerLog 100)].take n)).persons,
        p.FirstSeen ≤ p.LastSeen) :=
  ⟨by decide, by decide,
   (runCalls_firstSeen_le_lastSeen {}
    [Call.ledger (ledgerLog 100), Call.ledger (ledgerLog 300), Call.ledger (ledgerLog 200)]
    rfl).mpr (by decide) 3,
   by decide,
   (runCalls_firstSeen_le_lastSeen {}
    [Call.ledger (ledgerLog 200), Call.ledger { ledgerLog 100 with PersonHash := "h2" }]
    rfl).mpr (by decide) 2,
   by decide, by decide,
   (runCalls_firstSeen_le_lastSeen
    { scenarioStore with
      personLogs := (syncLogToPostgres scenarioStore event100).store.personLogs }
    [Call.sync event200, Call.sync event100] (by decide)).mpr (by decide) 2,
   fun h => absurd
    ((runCalls_firstSeen_le_lastSeen {}
      [Call.ledger (ledgerLog 200), Call.ledger (ledgerLog 100)] rfl).mp h) (by decide)⟩

/-! ## C9: the order of two events -/

/-- C9, as stated, fails: on the scenario store the events at `ts=100` and
`ts=200` for `h1`, reconciled in the two orders, give the row of the `ts=200`
event a different `is_new_person` and leave a different Person row. -/
theorem syncEach_order_counterexample :
    (syncEach scenarioStore [event100, event200]).personLogs.map
        (fun l => (l.Timestamp, l.IsNewPerson)) = [(100, true), (200, false)]
    ∧ (syncEach scenarioStore [event200, event100]).personLogs.map
        (fun l => (l.Timestamp, l.IsNewPerson)) = [(200, true), (100, true)]
    ∧ (syncEach scenarioStore [event100, event200]).persons.map
        (fun p => (p.FirstSeen, p.LastSeen, p.VisitCount)) = [(100, 200, 2)]
    ∧ (syncEach scenarioStore [event200, event100]).persons.map
        (fun p => (p.FirstSeen, p.LastSeen, p.VisitCount)) = [(200, 100, 2)] := by
  decide

/-- The ledger refuses the visit: nothing is written. -/
theorem CreateOrUpdatePerson_rejected {s : Store} {personLog : PersonLog}
    (h : ledgerAccepts s personLog.PersonHash personLog.OrganizationID = false) :
    (CreateOrUpdatePerson s personLog).store = s := by
  unfold ledgerAccepts at h
  rw [Bool.or_eq_false_iff] at h
  obtain ⟨hnot, htaken⟩ := h
  have hnone : s.persons.find?
      (Person.keyedBy personLog.PersonHash personLog.OrganizationID) = none := by
    rw [List.find?_eq_none]
    intro x hx
    have := (List.any_eq_false.mp hnot) x hx
    simpa using this
  have htaken' : s.persons.any (fun p => decide (p.PersonHash = personLog.PersonHash))
      = true := by
    simpa using htaken
  unfold CreateOrUpdatePerson
  rw [hnone]
  simp only [htaken', if_true]

/-- The ledger accepts the visit: the person's row is stamped with the log's
time and counts one visit more. -/
theorem CreateOrUpdatePerson_accepted {s : Store} {personLog : PersonLog}
    (h : ledgerAccepts s personLog.PersonHash personLog.OrganizationID = true) :
    ∃ p, (CreateOrUpdatePerson s personLog).store.persons.find?
          (Person.keyedBy personLog.PersonHash personLog.OrganizationID) = some p
      ∧ p.LastSeen = personLog.Timestamp
      ∧ p.VisitCount = visitsOf s personLog.PersonHash personLog.OrganizationID + 1 := by
  unfold visitsOf
  cases hf : s.persons.find? (Person.keyedBy personLog.PersonHash personLog.OrganizationID) with
  | some p =>
    exact ⟨_, (CreateOrUpdatePerson_existing hf).1, rfl, rfl⟩
  | none =>
    have hnot : s.persons.any (Person.keyedBy personLog.PersonHash personLog.OrganizationID)
        = false := by
      rw [List.any_eq_false]
      intro x hx
      have := List.find?_eq_none.mp hf x hx
      simpa using this
    have hfree : s.persons.any (fun p => decide (p.PersonHash = personLog.PersonHash))
        = false := by
      unfold ledgerAccepts at h
      rw [hnot] at h
      simpa using h
    rw [CreateOrUpdatePerson_absent hfree]
    simp only
    rw [List.find?_append, hf]
    simp [Person.keyedBy, Base.live]

/-- One successful call on a new event of a person the ledger accepts. -/
theorem syncLogToPostgres_person {s : Store} {data : RawData} {ev : Event} {o : String}
    (hev : decodeEvent data = Except.ok ev) (hnew : keyCount s ev = 0)
    (hok : (syncLogToPostgres s data).err = none)
    (horg : resolveOrganization s ev.cameraID = some o)
    (hacc : ledgerAccepts s ev.personHash o = true) :
    ∃ p, (syncLogToPostgres s data).store.persons.find? (Person.keyedBy ev.personHash o)
          = some p
      ∧ p.LastSeen = ev.timestampTime
      ∧ p.VisitCount = visitsOf s ev.personHash o + 1 := by
  obtain ⟨o', ho', _, hst⟩ := syncLogToPostgres_insert hev hnew hok
  rw [horg] at ho'
  cases ho'
  rw [hst]
  exact @CreateOrUpdatePerson_accepted
    { s with personLogs := s.personLogs ++ [newLogOf s ev o] } (newLogOf s ev o) hacc

/-- One successful call on a new event of a person the ledger refuses. -/
theorem syncLogToPostgres_person_rejected {s : Store} {data : RawData} {ev : Event}
    {o : String}
    (hev : decodeEvent data = Except.ok ev) (hnew : keyCount s ev = 0)
    (hok : (syncLogToPostgres s data).err = none)
    (horg : resolveOrganization s ev.cameraID = some o)
    (hacc : ledgerAccepts s ev.personHash o = false) :
    (syncLogToPostgres s data).store.persons = s.persons := by
  obtain ⟨o', ho', _, hst⟩ := syncLogToPostgres_insert hev hnew hok
  rw [horg] at ho'
  cases ho'
  rw [hst, @CreateOrUpdatePerson_rejected
    { s with personLogs := s.personLogs ++ [newLogOf s ev o] } (newLogOf s ev o) hacc]

/-- The ledger's answer depends on `persons` alone. -/
theorem ledgerAccepts_congr {s t : Store} (h : t.persons = s.persons) (a b : String) :
    ledgerAccepts t a b = ledgerAccepts s a b := by
  unfold ledgerAccepts
  rw [h]

/-- The visit count depends on `persons` alone. -/
theorem visitsOf_congr {s t : Store} (h : t.persons = s.persons) (a b : String) :
    visitsOf t a b = visitsOf s a b := by
  unfold visitsOf
  rw [h]

/-- Two new events of one person, reconciled one after the other: the ledger
row, when the ledger accepts the person. -/
theorem syncEach_pair_person {s : Store} {d1 d2 : RawData} {e1 e2 : Event} {h o : String}
    (hd1 : decodeEvent d1 = Except.ok e1) (hd2 : decodeEvent d2 = Except.ok e2)
    (hkeys : e1.sameKey e2 = false)
    (hnew1 : keyCount s e1 = 0) (hnew2 : keyCount s e2 = 0)
    (hok : allReconciled s [d1, d2] = true)
    (hh1 : e1.personHash = h) (hh2 : e2.personHash = h)
    (ho1 : resolveOrganization s e1.cameraID = some o)
    (ho2 : resolveOrganization s e2.cameraID = some o)
    (hacc : ledgerAccepts s h o = true) :
    ∃ p, (syncEach s [d1, d2]).persons.find? (Person.keyedBy h o) = some p
      ∧ p.LastSeen = e2.timestampTime
      ∧ p.VisitCount = visitsOf s h o + 2 := by
  simp only [allReconciled, Bool.and_eq_true, Option.isNone_iff_eq_none, and_true] at hok
  obtain ⟨hok1, hok2⟩ := hok
  subst hh1
  obtain ⟨p1, hp1, _, hv1⟩ := syncLogToPostgres_person hd1 hnew1 hok1 ho1 hacc
  obtain ⟨o', _, _, hst⟩ := syncLogToPostgres_insert hd1 hnew1 hok1
  have hlogs : (syncLogToPostgres s d1).store.personLogs
      = s.personLogs ++ [newLogOf s e1 o'] := by
    rw [hst, (CreateOrUpdatePerson_frame _ _).1]
  have hnew2' : keyCount (syncLogToPostgres s d1).store e2 = 0 := by
    rw [keyCount_append s _ e2 _ hlogs, hnew2, newLogOf_hasKey_other s e1 e2 o' hkeys]
    simp
  have ho2' : resolveOrganization (syncLogToPostgres s d1).store e2.cameraID = some o := by
    rw [resolveOrganization_congr (syncLogToPostgres_frame s d1).1
      (syncLogToPostgres_frame s d1).2]
    exact ho2
  have hacc' : ledgerAccepts (syncLogToPostgres s d1).store e2.personHash o = true := by
    rw [hh2]
    unfold ledgerAccepts
    rw [Bool.or_eq_true]
    left
    rw [List.any_eq_true]
    exact ⟨p1, List.mem_of_find?_eq_some hp1, List.find?_some hp1⟩
  obtain ⟨p2, hp2, hl2, hv2⟩ := syncLogToPostgres_person hd2 hnew2' hok2 ho2' hacc'
  rw [hh2] at hp2 hv2
  refine ⟨p2, by simpa [syncEach] using hp2, hl2, ?_⟩
  rw [hv2]
  have : visitsOf (syncLogToPostgres s d1).store e1.personHash o = p1.VisitCount := by
    unfold visitsOf
    rw [hp1]
  rw [this, hv1]
  ring

/-- Two new events of one person, reconciled one after the other: `persons`
is untouched when the ledger refuses the person. -/
theorem syncEach_pair_rejected {s : Store} {d1 d2 : RawData} {e1 e2 : Event} {h o : String}
    (hd1 : decodeEvent d1 = Except.ok e1) (hd2 : decodeEvent d2 = Except.ok e2)
    (hkeys : e1.sameKey e2 = false)
    (hnew1 : keyCount s e1 = 0) (hnew2 : keyCount s e2 = 0)
    (hok : allReconciled s [d1, d2] = true)
    (hh1 : e1.personHash = h) (hh2 : e2.personHash = h)
    (ho1 : resolveOrganization s e1.cameraID = some o)
    (ho2 : resolveOrganization s e2.cameraID = some o)
    (hacc : ledgerAccepts s h o = false) :
    (syncEach s [d1, d2]).persons = s.persons := by
  simp only [allReconciled, Bool.and_eq_true, Option.isNone_iff_eq_none, and_true] at hok
  obtain ⟨hok1, hok2⟩ := hok
  subst hh1
  have hp1 := syncLogToPostgres_person_rejected hd1 hnew1 hok1 ho1 hacc
  obtain ⟨o', _, _, hst⟩ := syncLogToPostgres_insert hd1 hnew1 hok1
  have hlogs : (syncLogToPostgres s d1).store.personLogs
      = s.personLogs ++ [newLogOf s e1 o'] := by
    rw [hst, (CreateOrUpdatePerson_frame _ _).1]
  have hnew2' : keyCount (syncLogToPostgres s d1).store e2 = 0 := by
    rw [keyCount_append s _ e2 _ hlogs, hnew2, newLogOf_hasKey_other s e1 e2 o' hkeys]
    simp
  have ho2' : resolveOrganization (syncLogToPostgres s d1).store e2.cameraID = some o := by
    rw [resolveOrganization_congr (syncLogToPostgres_frame s d1).1
      (syncLogToPostgres_frame s d1).2]
    exact ho2
  have hacc' : ledgerAccepts (syncLogToPostgres s d1).store e2.personHash o = false := by
    rw [hh2, ledgerAccepts_congr hp1]
    exact hacc
  have hp2 := syncLogToPostgres_person_rejected hd2 hnew2' hok2 ho2' hacc'
  simp only [syncEach]
  rw [hp2, hp1]

/-- Having the same dedup key is symmetric. -/
theorem Event.sameKey_comm (a b : Event) : a.sameKey b = b.sameKey a := by
  unfold Event.sameKey
  simp only [eq_comm]

/-- Two new events reconciled one after the other: the two rows. -/
theorem syncEach_pair_rows {s : Store} {d1 d2 : RawData} {e1 e2 : Event}
    (hd1 : decodeEvent d1 = Except.ok e1) (hd2 : decodeEvent d2 = Except.ok e2)
    (hkeys : e1.sameKey e2 = false)
    (hnew1 : keyCount s e1 = 0) (hnew2 : keyCount s e2 = 0)
    (hok : allReconciled s [d1, d2] = true) :
    ∃ r1 r2, (syncEach s [d1, d2]).personLogs = s.personLogs ++ [r1, r2]
      ∧ (r1.PersonHash = e1.personHash ∧ r1.CameraID = e1.cameraID
          ∧ r1.Timestamp = e1.timestampTime)
      ∧ (r2.PersonHash = e2.personHash ∧ r2.CameraID = e2.cameraID
          ∧ r2.Timestamp = e2.timestampTime)
      ∧ (r1.IsNewPerson = true ↔
          ∀ l ∈ s.personLogs, l.live = true → l.PersonHash = e1.personHash →
            ¬ l.Timestamp < e1.timestampTime)
      ∧ (r2.IsNewPerson = true ↔
          (∀ l ∈ s.personLogs, l.live = true → l.PersonHash = e2.personHash →
            ¬ l.Timestamp < e2.timestampTime)
          ∧ ¬ (e1.personHash = e2.personHash ∧ e1.timestampTime < e2.timestampTime)) := by
  have hev : eventsOf [d1, d2] = [e1, e2] := by
    rw [eventsOf_cons hd1, eventsOf_cons hd2]
    rfl
  have hvalid : ∀ d ∈ [d1, d2], wellFormed d = true := by
    intro d hd
    simp only [List.mem_cons, List.mem_singleton, List.not_mem_nil, or_false] at hd
    rcases hd with rfl | rfl
    · exact (decodeEvent_ok_iff _).mpr ⟨e1, hd1⟩
    · exact (decodeEvent_ok_iff _).mpr ⟨e2, hd2⟩
  have hnew : ∀ ev ∈ eventsOf [d1, d2], keyCount s ev = 0 := by
    intro ev hmem
    rw [hev] at hmem
    simp only [List.mem_cons, List.mem_singleton, List.not_mem_nil, or_false] at hmem
    rcases hmem with rfl | rfl
    · exact hnew1
    · exact hnew2
  have hpair : (eventsOf [d1, d2]).Pairwise (fun a b => a.sameKey b = false) := by
    rw [hev]
    simp [hkeys]
  obtain ⟨rows, hrows, hlen, hflags⟩ := syncEach_rows [d1, d2] s hvalid hnew hpair hok
  obtain ⟨r1, hr1, hh1, hc1, ht1, hf1⟩ := hflags [] e1 [e2] (by rw [hev]; rfl)
  obtain ⟨r2, hr2, hh2, hc2, ht2, hf2⟩ := hflags [e1] e2 [] (by rw [hev]; rfl)
  match rows, hlen, hr1, hr2 with
  | [a, b], _, hr1, hr2 =>
    simp only [List.length_nil, List.getElem?_cons_zero, Option.some.injEq] at hr1
    simp only [List.length_singleton, List.getElem?_cons_succ, List.getElem?_cons_zero,
      Option.some.injEq] at hr2
    subst hr1
    subst hr2
    refine ⟨a, b, hrows, ⟨hh1, hc1, ht1⟩, ⟨hh2, hc2, ht2⟩, ?_, ?_⟩
    · rw [hf1]
      simp
    · rw [hf2]
      simp

/-- C9, amended.  For every store and any two valid events with distinct
dedup keys, neither stored yet and both reconciled in either order: each order
appends one PersonLog row per event, carrying the event's dedup key; the
`is_new_person` of an event's row is the same in both orders unless the other
event has the same person hash and a strictly earlier timestamp, in which
case it is false whenever the other event is reconciled first; and when the
two events belong to one person of one organization, `visit_count` is the
same in both orders, while `last_seen` is the timestamp of the event
reconciled last. -/
theorem syncEach_order (s : Store) (d1 d2 : RawData) (e1 e2 : Event)
    (hd1 : decodeEvent d1 = Except.ok e1) (hd2 : decodeEvent d2 = Except.ok e2)
    (hkeys : e1.sameKey e2 = false)
    (hnew1 : keyCount s e1 = 0) (hnew2 : keyCount s e2 = 0)
    (hok12 : allReconciled s [d1, d2] = true)
    (hok21 : allReconciled s [d2, d1] = true) :
    ∃ r1 r2 r2' r1',
      (syncEach s [d1, d2]).personLogs = s.personLogs ++ [r1, r2]
      ∧ (syncEach s [d2, d1]).personLogs = s.personLogs ++ [r2', r1']
      ∧ (r1.PersonHash = e1.personHash ∧ r1.CameraID = e1.cameraID
          ∧ r1.Timestamp = e1.timestampTime)
      ∧ (r1'.PersonHash = e1.personHash ∧ r1'.CameraID = e1.cameraID
          ∧ r1'.Timestamp = e1.timestampTime)
      ∧ (r2.PersonHash = e2.personHash ∧ r2.CameraID = e2.cameraID
          ∧ r2.Timestamp = e2.timestampTime)
      ∧ (r2'.PersonHash = e2.personHash ∧ r2'.CameraID = e2.cameraID
          ∧ r2'.Timestamp = e2.timestampTime)
      ∧ (r1'.IsNewPerson = true ↔ r1.IsNewPerson = true
          ∧ ¬ (e2.personHash = e1.personHash ∧ e2.timestampTime < e1.timestampTime))
      ∧ (r2.IsNewPerson = true ↔ r2'.IsNewPerson = true
          ∧ ¬ (e1.personHash = e2.personHash ∧ e1.timestampTime < e2.timestampTime))
      ∧ ∀ h o, e1.personHash = h → e2.personHash = h →
          resolveOrganization s e1.cameraID = some o →
          resolveOrganization s e2.cameraID = some o →
          visitsOf (syncEach s [d1, d2]) h o = visitsOf (syncEach s [d2, d1]) h o
          ∧ (ledgerAccepts s h o = true →
              ∃ p12 p21,
                (syncEach s [d1, d2]).persons.find? (Person.keyedBy h o) = some p12
                ∧ (syncEach s [d2, d1]).persons.find? (Person.keyedBy h o) = some p21
                ∧ p12.VisitCount = p21.VisitCount
                ∧ p12.LastSeen = e2.timestampTime
                ∧ p21.LastSeen = e1.timestampTime) := by
  have hkeys' : e2.sameKey e1 = false := by rw [Event.sameKey_comm]; exact hkeys
  obtain ⟨r1, r2, hA, hk1, hk2, hf1, hf2⟩ :=
    syncEach_pair_rows hd1 hd2 hkeys hnew1 hnew2 hok12
  obtain ⟨r2', r1', hB, hk2', hk1', hf2', hf1'⟩ :=
    syncEach_pair_rows hd2 hd1 hkeys' hnew2 hnew1 hok21
  refine ⟨r1, r2, r2', r1', hA, hB, hk1, hk1', hk2, hk2', ?_, ?_, ?_⟩
  · rw [hf1', hf1]
  · rw [hf2, hf2']
  · intro h o hh1 hh2 ho1 ho2
    cases hacc : ledgerAccepts s h o
    · refine ⟨?_, fun hc => by cases hc⟩
      rw [visitsOf_congr
          (syncEach_pair_rejected hd1 hd2 hkeys hnew1 hnew2 hok12 hh1 hh2 ho1 ho2 hacc),
        visitsOf_congr
          (syncEach_pair_rejected hd2 hd1 hkeys' hnew2 hnew1 hok21 hh2 hh1 ho2 ho1 hacc)]
    · obtain ⟨p12, hp12, hl12, hv12⟩ :=
        syncEach_pair_person hd1 hd2 hkeys hnew1 hnew2 hok12 hh1 hh2 ho1 ho2 hacc
      obtain ⟨p21, hp21, hl21, hv21⟩ :=
        syncEach_pair_person hd2 hd1 hkeys' hnew2 hnew1 hok21 hh2 hh1 ho2 ho1 hacc
      refine ⟨?_, fun _ => ⟨p12, p21, hp12, hp21, by rw [hv12, hv21], hl12, hl21⟩⟩
      unfold visitsOf
      rw [hp12, hp21]
      simp only
      rw [hv12, hv21]

/-- The amended C9 on the scenario: the events at `ts=100` and `ts=200`. -/
theorem syncEach_order_witness :
    ∃ r1 r2 r2' r1',
      (syncEach scenarioStore [event100, event200]).personLogs
        = scenarioStore.personLogs ++ [r1, r2]
      ∧ (syncEach scenarioStore [event200, event100]).personLogs
        = scenarioStore.personLogs ++ [r2', r1']
      ∧ (r1.PersonHash = "h1" ∧ r1.CameraID = "c1" ∧ r1.Timestamp = 100)
      ∧ (r1'.PersonHash = "h1" ∧ r1'.CameraID = "c1" ∧ r1'.Timestamp = 100)
      ∧ (r2.PersonHash = "h1" ∧ r2.CameraID = "c1" ∧ r2.Timestamp = 200)
      ∧ (r2'.PersonHash = "h1" ∧ r2'.CameraID = "c1" ∧ r2'.Timestamp = 200)
      ∧ (r1'.IsNewPerson = true ↔ r1.IsNewPerson = true
          ∧ ¬ ("h1" = "h1" ∧ (200 : Time) < 100))
      ∧ (r2.IsNewPerson = true ↔ r2'.IsNewPerson = true
          ∧ ¬ ("h1" = "h1" ∧ (100 : Time) < 200))
      ∧ ∀ h o, "h1" = h → "h1" = h →
          resolveOrganization scenarioStore "c1" = some o →
          resolveOrganization scenarioStore "c1" = some o →
          visitsOf (syncEach scenarioStore [event100, event200]) h o
            = visitsOf (syncEach scenarioStore [event200, event100]) h o
          ∧ (ledgerAccepts scenarioStore h o = true →
              ∃ p12 p21,
                (syncEach scenarioStore [event100, event200]).persons.find?
                    (Person.keyedBy h o) = some p12
                ∧ (syncEach scenarioStore [event200, event100]).persons.find?
                    (Person.keyedBy h o) = some p21
                ∧ p12.VisitCount = p21.VisitCount
                ∧ p12.LastSeen = 200
                ∧ p21.LastSeen = 100) :=
  syncEach_order scenarioStore event100 event200
    { id := RowID.given "e100", timestampTime := 100, personHash := "h1", cameraID := "c1" }
    { id := RowID.given "e200", timestampTime := 200, personHash := "h1", cameraID := "c1" }
    (by decide) (by decide) (by decide) (by decide) (by decide) (by decide) (by decide)

/-! ## C20: the watermark of the poll loop -/

/-- Sending a payload never lowers the watermark. -/
theorem Listener.emit_lastTimestamp (l : Listener) (value : RawData) :
    l.lastTimestamp ≤ (l.emit value).lastTimestamp := by
  unfold Listener.emit
  simp only
  split
  · split
    · next h => exact le_of_lt h
    · exact le_refl _
  · exact le_refl _

/-- Sending the payloads of one answer never lowers the watermark. -/
theorem Listener.foldl_emit_lastTimestamp (data : List RawData) :
    ∀ l : Listener, l.lastTimestamp ≤ (data.foldl Listener.emit l).lastTimestamp := by
  induction data with
  | nil => intro l; exact le_refl _
  | cons value rest ih =>
    intro l
    exact le_trans (l.emit_lastTimestamp value) (ih (l.emit value))

/-- One tick never lowers the watermark. -/
theorem Listener.tick_lastTimestamp (l : Listener) (feed : Int → Option (List RawData)) :
    l.lastTimestamp ≤ (l.tick feed).lastTimestamp := by
  unfold Listener.tick
  split
  · exact le_refl _
  · exact Listener.foldl_emit_lastTimestamp _ l

/-- C20 (watermark safety).  In the poll loop of `ListenForNewLogs`, a tick
whose fetch fails leaves the listener as it was: the watermark `lastTimestamp`
is unchanged and nothing is sent, so the next tick asks the feed from the same
start `lastTimestamp + 1`; and over any sequence of ticks, failed or not, the
watermark never decreases. -/
theorem ListenForNewLogs_watermark (l : Listener) (feed : Int → Option (List RawData))
    (ticks : List (Int → Option (List RawData))) :
    (feed (l.lastTimestamp + 1) = none →
      (l.tick feed).lastTimestamp = l.lastTimestamp
      ∧ (l.tick feed).sent = l.sent
      ∧ ∀ next : Int → Option (List RawData),
          (l.tick feed).tick next
            = match next (l.lastTimestamp + 1) with
              | none => l
              | some data => data.foldl Listener.emit l)
    ∧ l.lastTimestamp ≤ (ListenForNewLogs l ticks).lastTimestamp := by
  constructor
  · intro hfail
    have htick : l.tick feed = l := by
      unfold Listener.tick
      rw [hfail]
    rw [htick]
    exact ⟨rfl, rfl, fun next => rfl⟩
  · induction ticks generalizing l with
    | nil => exact le_refl _
    | cons t rest ih =>
      exact le_trans (l.tick_lastTimestamp t) (ih (l.tick t))

/-- C20 on a listener at watermark `100`: a failed fetch keeps the watermark
and sends nothing, and a failed tick followed by a successful one ends at
watermark `200`. -/
theorem ListenForNewLogs_watermark_witness :
    ((({ lastTimestamp := 100 } : Listener).tick feedDown).lastTimestamp = 100
      ∧ (({ lastTimestamp := 100 } : Listener).tick feedDown).sent = []
      ∧ ∀ next : Int → Option (List RawData),
          (({ lastTimestamp := 100 } : Listener).tick feedDown).tick next
            = match next (100 + 1) with
              | none => { lastTimestamp := 100 }
              | some data => data.foldl Listener.emit { lastTimestamp := 100 })
    ∧ (100 : Int) ≤ (ListenForNewLogs { lastTimestamp := 100 } [feedDown, feedUp]).lastTimestamp
    ∧ (ListenForNewLogs { lastTimestamp := 100 } [feedDown, feedUp])
        = { lastTimestamp := 200, sent := [event200] } :=
  ⟨(ListenForNewLogs_watermark { lastTimestamp := 100 } feedDown [feedDown, feedUp]).1
      (by decide),
   (ListenForNewLogs_watermark { lastTimestamp := 100 } feedDown [feedDown, feedUp]).2,
   by decide⟩

/-! ## C15: the live loop keeps going -/

/-- The live loop with what it has attempted so far. -/
theorem startSyncLoop_logs (batch : List RawData) (rest : List Signal)
    (hrest : rest = [] ∨ (∃ tail, rest = Signal.closed :: tail)
      ∨ ∃ tail, rest = Signal.done :: tail) :
    ∀ (s : Store) (attempted : List (RawData × Option SyncError)),
      (startSyncLoop s attempted (batch.map Signal.log ++ rest)).store = syncEach s batch
      ∧ ((startSyncLoop s attempted (batch.map Signal.log ++ rest)).attempted.map Prod.fst
          = attempted.map Prod.fst ++ batch) := by
  induction batch with
  | nil =>
    intro s attempted
    rcases hrest with rfl | ⟨tail, rfl⟩ | ⟨tail, rfl⟩ <;> simp [startSyncLoop, syncEach]
  | cons data more ih =>
    intro s attempted
    simp only [List.map_cons, List.cons_append, startSyncLoop, syncEach, List.append_eq]
    obtain ⟨h1, h2⟩ := ih (syncLogToPostgres s data).store
      (attempted ++ [(data, (syncLogToPostgres s data).err)])
    refine ⟨h1, ?_⟩
    rw [h2]
    simp

/-- Each call of the live loop is recorded with what `syncLogToPostgres`
returned on the store the calls before it left. -/
theorem startSyncLoop_results (batch : List RawData) :
    ∀ (s : Store) (attempted : List (RawData × Option SyncError)) (pre : List RawData)
      (data : RawData) (post : List RawData) (rest : List Signal),
      batch = pre ++ data :: post →
      (data, (syncLogToPostgres (syncEach s pre) data).err)
        ∈ (startSyncLoop s attempted (batch.map Signal.log ++ rest)).attempted := by
  have hkeep : ∀ (signals : List Signal) (s : Store)
      (attempted : List (RawData × Option SyncError)) (x : RawData × Option SyncError),
      x ∈ attempted → x ∈ (startSyncLoop s attempted signals).attempted := by
    intro signals
    induction signals with
    | nil => intro s attempted x hx; exact hx
    | cons sig more ih =>
      intro s attempted x hx
      cases sig with
      | log data =>
        simp only [startSyncLoop]
        exact ih _ _ x (List.mem_append_left _ hx)
      | closed => exact hx
      | done => exact hx
  induction batch with
  | nil =>
    intro s attempted pre data post rest h
    simp at h
  | cons d more ih =>
    intro s attempted pre data post rest h
    cases pre with
    | nil =>
      simp only [List.nil_append, List.cons.injEq] at h
      obtain ⟨rfl, _⟩ := h
      simp only [List.map_cons, List.cons_append, startSyncLoop, syncEach, List.append_eq]
      exact hkeep _ _ _ _ (by simp)
    | cons p pre' =>
      simp only [List.cons_append, List.cons.injEq] at h
      obtain ⟨rfl, h'⟩ := h
      simp only [List.map_cons, List.cons_append, startSyncLoop, syncEach, List.append_eq]
      exact ih _ _ pre' data post rest h'

/-- C15 (live sync keeps going).  In the loop of `StartSync`, for every finite
sequence of payloads the channel delivers before it closes, before the context
is cancelled or before the signals run out, the payloads handed to
`syncLogToPostgres` are exactly the delivered ones, in order, and each call
runs on the store the calls before it left, whatever errors those calls
returned. -/
theorem startSyncLoop_keeps_going (s : Store) (batch : List RawData)
    (tail : List Signal) :
    ((startSyncLoop s [] (batch.map Signal.log)).attempted.map Prod.fst = batch
      ∧ (startSyncLoop s [] (batch.map Signal.log)).store = syncEach s batch)
    ∧ ((startSyncLoop s [] (batch.map Signal.log ++ Signal.closed :: tail)).attempted.map
          Prod.fst = batch
      ∧ (startSyncLoop s [] (batch.map Signal.log ++ Signal.closed :: tail)).store
          = syncEach s batch)
    ∧ ((startSyncLoop s [] (batch.map Signal.log ++ Signal.done :: tail)).attempted.map
          Prod.fst = batch
      ∧ (startSyncLoop s [] (batch.map Signal.log ++ Signal.done :: tail)).store
          = syncEach s batch)
    ∧ ∀ pre data post, batch = pre ++ data :: post →
        (data, (syncLogToPostgres (syncEach s pre) data).err)
          ∈ (startSyncLoop s [] (batch.map Signal.log ++ Signal.closed :: tail)).attempted := by
  refine ⟨?_, ?_, ?_, ?_⟩
  · have h := startSyncLoop_logs batch [] (Or.inl rfl) s []
    simp only [List.append_nil, List.map_nil, List.nil_append] at h
    exact ⟨h.2, h.1⟩
  · have h := startSyncLoop_logs batch (Signal.closed :: tail) (Or.inr (Or.inl ⟨tail, rfl⟩)) s []
    simp only [List.map_nil, List.nil_append] at h
    exact ⟨h.2, h.1⟩
  · have h := startSyncLoop_logs batch (Signal.done :: tail) (Or.inr (Or.inr ⟨tail, rfl⟩)) s []
    simp only [List.map_nil, List.nil_append] at h
    exact ⟨h.2, h.1⟩
  · intro pre data post h
    exact startSyncLoop_results batch s [] pre data post _ h

/-- C15 on a delivery whose first payload is rejected: the event after it is
still handed to `syncLogToPostgres` and stored. -/
theorem startSyncLoop_keeps_going_witness :
    (recordWithoutHash, (syncLogToPostgres (syncEach scenarioStore []) recordWithoutHash).err)
        ∈ (startSyncLoop scenarioStore []
            ([recordWithoutHash, event100].map Signal.log ++ Signal.closed :: [])).attempted
    ∧ (event100, (syncLogToPostgres (syncEach scenarioStore [recordWithoutHash]) event100).err)
        ∈ (startSyncLoop scenarioStore []
            ([recordWithoutHash, event100].map Signal.log ++ Signal.closed :: [])).attempted
    ∧ (startSyncLoop scenarioStore []
          ([recordWithoutHash, event100].map Signal.log ++ Signal.closed :: [])).attempted
        = [(recordWithoutHash, some SyncError.personHash), (event100, none)] :=
  ⟨(startSyncLoop_keeps_going scenarioStore [recordWithoutHash, event100] []).2.2.2
      [] recordWithoutHash [event100] rfl,
   (startSyncLoop_keeps_going scenarioStore [recordWithoutHash, event100] []).2.2.2
      [recordWithoutHash] event100 [] rfl,
   by decide⟩

/-! ## C14: the backfill loop -/

/-- C14, as stated, fails: the feed answers with a record that lacks its
person hash, followed by the record of the `ts=100` event; `BackfillLogs`
returns the error of the first one, and the event after it is neither handed
to `syncLogToPostgres` nor stored. -/
theorem BackfillLogs_counterexample :
    BackfillLogs scenarioStore (some [("k1", recordWithoutHash), ("k2", record100)])
      = { store := scenarioStore,
          attempted := [recordWithoutHash.set "id" (Value.string "k1")],
          err := some (BackfillError.sync SyncError.personHash) }
    ∧ (syncLogToPostgres scenarioStore (record100.set "id" (Value.string "k2"))).err = none
    ∧ (syncLogToPostgres scenarioStore
        (record100.set "id" (Value.string "k2"))).store.personLogs.length = 1 := by
  decide

/-- The backfill loop on payloads that are all reconciled. -/
theorem backfillLoop_ok (logs : List RawData) :
    ∀ (s : Store) (attempted : List RawData), allReconciled s logs = true →
      backfillLoop s attempted logs
        = { store := syncEach s logs, attempted := attempted ++ logs, err := none } := by
  induction logs with
  | nil => intro s attempted _; simp [backfillLoop, syncEach]
  | cons log rest ih =>
    intro s attempted hok
    simp only [allReconciled, Bool.and_eq_true, Option.isNone_iff_eq_none] at hok
    simp only [backfillLoop, hok.1, syncEach]
    rw [ih _ _ hok.2]
    simp

/-- The backfill loop up to the first payload whose reconciliation fails. -/
theorem backfillLoop_error (pre : List RawData) (bad : RawData) (post : List RawData)
    (e : SyncError) :
    ∀ (s : Store) (attempted : List RawData), allReconciled s pre = true →
      (syncLogToPostgres (syncEach s pre) bad).err = some e →
      backfillLoop s attempted (pre ++ bad :: post)
        = { store := syncEach s pre, attempted := attempted ++ pre ++ [bad],
            err := some (BackfillError.sync e) } := by
  induction pre with
  | nil =>
    intro s attempted _ hbad
    simp only [syncEach] at hbad
    simp only [List.nil_append, backfillLoop, hbad, syncEach, List.append_nil]
    rw [syncLogToPostgres_error_store hbad]
  | cons log rest ih =>
    intro s attempted hok hbad
    simp only [allReconciled, Bool.and_eq_true, Option.isNone_iff_eq_none] at hok
    simp only [syncEach] at hbad
    simp only [List.cons_append, backfillLoop, hok.1, syncEach, List.append_eq]
    rw [ih _ _ hok.2 hbad]
    simp

/-- C14, amended.  `BackfillLogs` hands the events of the fetched batch to
`syncLogToPostgres` in order: when every one is reconciled, all of them are
attempted and it returns `nil`; at the first event whose reconciliation fails
it returns that event's error, and the events after it are not attempted. -/
theorem BackfillLogs_stops_at_first_error (s : Store) (records : List (String × RawData))
    (logs : List RawData) (hlogs : GetRecentLogs (some records) = some logs) :
    (allReconciled s logs = true →
      BackfillLogs s (some records)
        = { store := syncEach s logs, attempted := logs, err := none })
    ∧ ∀ pre bad post e, logs = pre ++ bad :: post → allReconciled s pre = true →
        (syncLogToPostgres (syncEach s pre) bad).err = some e →
        BackfillLogs s (some records)
          = { store := syncEach s pre, attempted := pre ++ [bad],
              err := some (BackfillError.sync e) } := by
  constructor
  · intro hok
    unfold BackfillLogs
    rw [hlogs]
    simp only
    rw [backfillLoop_ok logs s [] hok]
    simp
  · intro pre bad post e hsplit hok hbad
    unfold BackfillLogs
    rw [hlogs, hsplit]
    simp only
    rw [backfillLoop_error pre bad post e s [] hok hbad]
    simp

/-- The amended C14 on two batches: the scenario's two events are both
reconciled; with the record that lacks its hash in between, the loop stops at
it. -/
theorem BackfillLogs_stops_at_first_error_witness :
    BackfillLogs scenarioStore (some [("e100", record100), ("k1", recordWithoutHash)])
      = { store := syncEach scenarioStore [record100.set "id" (Value.string "e100")],
          attempted := [record100.set "id" (Value.string "e100")]
            ++ [recordWithoutHash.set "id" (Value.string "k1")],
          err := some (BackfillError.sync SyncError.personHash) }
    ∧ BackfillLogs scenarioStore (some [("e100", record100)])
      = { store := syncEach scenarioStore [record100.set "id" (Value.string "e100")],
          attempted := [record100.set "id" (Value.string "e100")], err := none } :=
  ⟨(BackfillLogs_stops_at_first_error scenarioStore
      [("e100", record100), ("k1", recordWithoutHash)]
      [record100.set "id" (Value.string "e100"),
       recordWithoutHash.set "id" (Value.string "k1")] (by decide)).2
      [record100.set "id" (Value.string "e100")]
      (recordWithoutHash.set "id" (Value.string "k1")) [] SyncError.personHash
      (by decide) (by decide) (by decide),
   (BackfillLogs_stops_at_first_error scenarioStore [("e100", record100)]
      [record100.set "id" (Value.string "e100")] (by decide)).1 (by decide)⟩

/-! ## C12: the organization of a row -/

/-- C12 (organization resolution).  For every valid event that is not stored
yet and whose id is free: when a live Camera row has the event's `camera_id`,
the call inserts a PersonLog row whose `organization_id` is that camera's
organization; when the camera lookup misses and the store has a live
organization, the row's `organization_id` is the id of the default
organization, the first one in primary-key order; when the lookup misses and
there is no organization, the call fails and leaves the store as it was. -/
theorem syncLogToPostgres_organization (s : Store) (data : RawData) (ev : Event)
    (hev : decodeEvent data = Except.ok ev) (hnew : keyCount s ev = 0) :
    (∀ camera,
        s.cameras.find? (fun c => c.live && decide (c.ID = ev.cameraID)) = some camera →
        pkTaken (s.personLogs.map (fun l => l.ID)) ev.id = false →
        (syncLogToPostgres s data).err = none
        ∧ ∃ row, (syncLogToPostgres s data).store.personLogs = s.personLogs ++ [row]
            ∧ row.PersonHash = ev.personHash ∧ row.CameraID = ev.cameraID
            ∧ row.Timestamp = ev.timestampTime
            ∧ row.OrganizationID = camera.OrganizationID)
    ∧ (∀ defaultOrg,
        s.cameras.find? (fun c => c.live && decide (c.ID = ev.cameraID)) = none →
        s.organizations.find? (fun o => o.live) = some defaultOrg →
        pkTaken (s.personLogs.map (fun l => l.ID)) ev.id = false →
        (syncLogToPostgres s data).err = none
        ∧ ∃ row, (syncLogToPostgres s data).store.personLogs = s.personLogs ++ [row]
            ∧ row.PersonHash = ev.personHash ∧ row.CameraID = ev.cameraID
            ∧ row.Timestamp = ev.timestampTime
            ∧ row.OrganizationID = defaultOrg.ID)
    ∧ (s.cameras.find? (fun c => c.live && decide (c.ID = ev.cameraID)) = none →
        s.organizations.find? (fun o => o.live) = none →
        (syncLogToPostgres s data).err = some SyncError.defaultOrganization
        ∧ (syncLogToPostgres s data).store = s) := by
  have hk : s.personLogs.any (PersonLog.hasKey ev.personHash ev.cameraID ev.timestampTime)
      = false := by
    unfold keyCount at hnew
    rw [List.countP_eq_zero] at hnew
    rw [List.any_eq_false]
    intro x hx
    simpa using hnew x hx
  have hins : ∀ o, resolveOrganization s ev.cameraID = some o →
      pkTaken (s.personLogs.map (fun l => l.ID)) ev.id = false →
      (syncLogToPostgres s data).err = none
      ∧ ∃ row, (syncLogToPostgres s data).store.personLogs = s.personLogs ++ [row]
          ∧ row.PersonHash = ev.personHash ∧ row.CameraID = ev.cameraID
          ∧ row.Timestamp = ev.timestampTime ∧ row.OrganizationID = o := by
    intro o ho hpk
    have hs : syncLogToPostgres s data = reconcile s ev o := by
      simp [syncLogToPostgres, hev, ho]
    rw [hs, reconcile_insert o hk hpk]
    exact ⟨rfl, newLogOf s ev o, (CreateOrUpdatePerson_frame _ _).1, rfl, rfl, rfl, rfl⟩
  refine ⟨?_, ?_, ?_⟩
  · intro camera hcam hpk
    exact hins camera.OrganizationID (by simp [resolveOrganization, hcam]) hpk
  · intro defaultOrg hcam horg hpk
    exact hins defaultOrg.ID (by simp [resolveOrganization, hcam, horg]) hpk
  · intro hcam horg
    simp [syncLogToPostgres, hev, resolveOrganization, hcam, horg]

/-- C12 on three stores: the camera `c1` of `org1`; a camera nobody
registered, with `org1` the first organization; and no organization at all. -/
theorem syncLogToPostgres_organization_witness :
    ((syncLogToPostgres twoTenants event200c2).err = none
      ∧ ∃ row, (syncLogToPostgres twoTenants event200c2).store.personLogs
            = twoTenants.personLogs ++ [row]
          ∧ row.PersonHash = "h1" ∧ row.CameraID = "c2" ∧ row.Timestamp = 200
          ∧ row.OrganizationID = "org2")
    ∧ ((syncLogToPostgres twoTenants (rawEvent "e9" 100 "h1" "c9")).err = none
      ∧ ∃ row, (syncLogToPostgres twoTenants (rawEvent "e9" 100 "h1" "c9")).store.personLogs
            = twoTenants.personLogs ++ [row]
          ∧ row.PersonHash = "h1" ∧ row.CameraID = "c9" ∧ row.Timestamp = 100
          ∧ row.OrganizationID = "org1")
    ∧ ((syncLogToPostgres {} event100).err = some SyncError.defaultOrganization
      ∧ (syncLogToPostgres {} event100).store = {}) :=
  ⟨(syncLogToPostgres_organization twoTenants event200c2
      { id := RowID.given "e200", timestampTime := 200, personHash := "h1", cameraID := "c2" }
      (by decide) (by decide)).1 { ID := "c2", OrganizationID := "org2" }
      (by decide) (by decide),
   (syncLogToPostgres_organization twoTenants (rawEvent "e9" 100 "h1" "c9")
      { id := RowID.given "e9", timestampTime := 100, personHash := "h1", cameraID := "c9" }
      (by decide) (by decide)).2.1 { ID := "org1" } (by decide) (by decide) (by decide),
   (syncLogToPostgres_organization {} event100
      { id := RowID.given "e100", timestampTime := 100, personHash := "h1", cameraID := "c1" }
      (by decide) (by decide)).2.2 (by decide) (by decide)⟩

/-! ## C11: dedup keys -/

/-- C11, as stated, fails: the store starts without PersonLog rows; the live
feed delivers the `ts=100` event, `DeletePerson` tombstones the person and the
row, and the feed delivers the event again.  The dedup check only sees live
rows, so a second row with the same dedup key is inserted next to the
tombstoned one. -/
theorem runLogOps_keys_counterexample :
    keysDistinct scenarioStore
    ∧ (runLogOps scenarioStore
        [LogOp.sync liveEvent100, LogOp.deletePerson 300 "h1" "org1",
         LogOp.sync liveEvent100]).personLogs.map
          (fun l => (l.PersonHash, l.CameraID, l.Timestamp, l.DeletedAt))
      = [("h1", "c1", 100, some 300), ("h1", "c1", 100, none)]
    ∧ ¬ keysDistinct (runLogOps scenarioStore
        [LogOp.sync liveEvent100, LogOp.deletePerson 300 "h1" "org1",
         LogOp.sync liveEvent100]) := by
  decide

/-- What a call of `syncLogToPostgres` does to the PersonLog table: nothing,
or one row appended whose dedup key no live row carried. -/
theorem syncLogToPostgres_personLogs (s : Store) (data : RawData) :
    (syncLogToPostgres s data).store.personLogs = s.personLogs
    ∨ ∃ ev o, decodeEvent data = Except.ok ev
        ∧ s.personLogs.any (PersonLog.hasKey ev.personHash ev.cameraID ev.timestampTime)
            = false
        ∧ (syncLogToPostgres s data).store.personLogs = s.personLogs ++ [newLogOf s ev o] := by
  unfold syncLogToPostgres
  cases hd : decodeEvent data with
  | error e => exact Or.inl rfl
  | ok ev =>
    simp only
    cases ho : resolveOrganization s ev.cameraID with
    | none => exact Or.inl rfl
    | some o =>
      simp only
      cases hk : s.personLogs.any (PersonLog.hasKey ev.personHash ev.cameraID ev.timestampTime)
      · cases hpk : pkTaken (s.personLogs.map (fun l => l.ID)) ev.id
        · rw [reconcile_insert o hk hpk]
          exact Or.inr ⟨ev, o, rfl, hk, (CreateOrUpdatePerson_frame _ _).1⟩
        · rw [reconcile_pkTaken o hk hpk]
          exact Or.inl rfl
      · rw [reconcile_duplicate o hk]
        exact Or.inl rfl

/-- The transaction of `DeletePerson`, resolved: without a live Person row of
the hash and the organization everything is rolled back; with one, the three
tables are stamped. -/
theorem DeletePerson_eq (s : Store) (now : Time) (personHash organizationID : String) :
    DeletePerson s now personHash organizationID =
      if s.persons.countP (Person.keyedBy personHash organizationID) = 0 then
        { store := s, err := some DeleteError.notFound }
      else
        { store :=
            { s with
              faceImages := softDelete (fun f => f.live)
                (fun f => { f with DeletedAt := some now })
                (fun f => decide (f.PersonHash = personHash)
                  && decide (f.OrganizationID = organizationID)) s.faceImages
              personLogs := softDelete (fun l => l.live)
                (fun l => { l with DeletedAt := some now })
                (fun l => decide (l.PersonHash = personHash)
                  && decide (l.OrganizationID = organizationID)) s.personLogs
              persons := softDelete (fun p => p.live)
                (fun p => { p with DeletedAt := some now })
                (fun p => decide (p.PersonHash = personHash)
                  && decide (p.OrganizationID = organizationID)) s.persons },
          err := none } := by
  unfold DeletePerson transaction
  by_cases hc : s.persons.countP (Person.keyedBy personHash organizationID) = 0
  · simp only [hc, if_true]
  · simp only [hc, if_false]

/-- What a call of `DeletePerson` does to the PersonLog table: nothing, or
the live rows of the person are tombstoned. -/
theorem DeletePerson_personLogs (s : Store) (now : Time) (personHash organizationID : String) :
    (DeletePerson s now personHash organizationID).store.personLogs = s.personLogs
    ∨ (DeletePerson s now personHash organizationID).store.personLogs
        = softDelete (fun l => l.live) (fun l => { l with DeletedAt := some now })
            (fun l => decide (l.PersonHash = personHash)
              && decide (l.OrganizationID = organizationID)) s.personLogs := by
  rw [DeletePerson_eq]
  split
  · exact Or.inl rfl
  · exact Or.inr rfl

/-- Uniqueness of the dedup key among live rows survives any one write. -/
theorem LogOp.run_liveKeysDistinct (s : Store) (op : LogOp) (h : liveKeysDistinct s) :
    liveKeysDistinct (op.run s) := by
  unfold liveKeysDistinct at h ⊢
  cases op with
  | sync data =>
    simp only [LogOp.run]
    rcases syncLogToPostgres_personLogs s data with hsame | ⟨ev, o, _, hk, happ⟩
    · rw [hsame]; exact h
    · rw [happ, List.pairwise_append]
      refine ⟨h, List.pairwise_singleton _ _, ?_⟩
      intro a ha b hb hlive _
      simp only [List.mem_singleton] at hb
      subst hb
      have hnot := List.any_eq_false.mp hk a ha
      simp only [PersonLog.hasKey, hlive, Bool.true_and, Bool.not_eq_true] at hnot
      simpa [PersonLog.sameKey, newLogOf] using hnot
  | deletePerson now personHash organizationID =>
    simp only [LogOp.run]
    rcases DeletePerson_personLogs s now personHash organizationID with hsame | hdel
    · rw [hsame]; exact h
    · rw [hdel]
      unfold softDelete
      rw [List.pairwise_map]
      refine h.imp ?_
      intro a b hab hla hlb
      have keep : ∀ x : PersonLog,
          (if x.live && (decide (x.PersonHash = personHash)
              && decide (x.OrganizationID = organizationID))
            then ({ x with DeletedAt := some now } : PersonLog) else x).live = true →
          x.live = true
          ∧ (if x.live && (decide (x.PersonHash = personHash)
              && decide (x.OrganizationID = organizationID))
            then ({ x with DeletedAt := some now } : PersonLog) else x) = x := by
        intro x hx
        split at hx
        · simp [Base.live] at hx
        · next hc => exact ⟨hx, if_neg hc⟩
      obtain ⟨ha1, ha2⟩ := keep a hla
      obtain ⟨hb1, hb2⟩ := keep b hlb
      rw [ha2, hb2]
      exact hab ha1 hb1

/-- C11, amended.  In every store reachable from a store in which no two
non-deleted PersonLog rows share a dedup key, by any sequence of
`syncLogToPostgres` and `DeletePerson` calls of a single sequential caller, no
two non-deleted PersonLog rows share the same
`(person_hash, camera_id, timestamp)`. -/
theorem runLogOps_liveKeysDistinct (s : Store) (ops : List LogOp)
    (h : liveKeysDistinct s) : liveKeysDistinct (runLogOps s ops) := by
  induction ops generalizing s with
  | nil => exact h
  | cons op rest ih => exact ih (op.run s) (LogOp.run_liveKeysDistinct s op h)

/-- The amended C11 on the sequence that breaks C11: the event, the deletion
of the person, the event again. -/
theorem runLogOps_liveKeysDistinct_witness :
    liveKeysDistinct (runLogOps scenarioStore
      [LogOp.sync liveEvent100, LogOp.deletePerson 300 "h1" "org1",
       LogOp.sync liveEvent100]) :=
  runLogOps_liveKeysDistinct scenarioStore
    [LogOp.sync liveEvent100, LogOp.deletePerson 300 "h1" "org1", LogOp.sync liveEvent100]
    (by decide)

/-! ## C16: the daily summary -/

/-- Rows counted with a condition and rows counted with its negation add up. -/
theorem countP_split {α : Type} (p q : α → Bool) (l : List α) :
    l.countP (fun x => p x && q x) + l.countP (fun x => p x && !q x) = l.countP p := by
  induction l with
  | nil => rfl
  | cons x xs ih =>
    simp only [List.countP_cons]
    cases p x <;> cases q x <;> simp <;> omega

/-- The count of `GetDailySummary`, as a count of the rows of the day. -/
theorem countLogs_eq (s : Store) (startOfDay : Time) (organizationID : String)
    (cond : PersonLog → Bool) :
    countLogs s startOfDay (startOfDay + 86400) organizationID cond
      = ((s.personLogs.filter fun l =>
          PersonLog.inDay organizationID startOfDay l && cond l).length : Int) := by
  unfold countLogs
  rw [← List.countP_eq_length_filter]
  congr 1
  apply List.countP_congr
  intro l _
  simp only [PersonLog.inDay, Base.live, Bool.and_eq_true, decide_eq_true_eq,
    Option.isNone_iff_eq_none]
  tauto

/-- A row stamped at the end of the day is not counted. -/
theorem countLogs_endOfDay (s : Store) (startOfDay : Time) (organizationID : String)
    (cond : PersonLog → Bool) (row : PersonLog) (h : row.Timestamp = startOfDay + 86400) :
    countLogs { s with personLogs := s.personLogs ++ [row] } startOfDay (startOfDay + 86400)
        organizationID cond
      = countLogs s startOfDay (startOfDay + 86400) organizationID cond := by
  unfold countLogs
  simp only [List.countP_append, List.countP_cons, List.countP_nil, h, lt_self_iff_false,
    decide_False, Bool.and_false, Bool.false_and, Bool.false_eq_true, if_false]
  simp

/-- What `GetDailySummary` returns on a cache miss. -/
theorem GetDailySummary_miss (s : Store) (r : RedisClient) (date organizationID : String)
    (startOfDay : Time)
    (hmiss : r.Get ("daily_summary:" ++ organizationID ++ ":" ++ date) Cached.toDailySummary
      = Except.ok none)
    (hdate : parseDate date = some startOfDay) (hset : r.setFails = false) :
    StatsService.GetDailySummary s r date organizationID =
      { redis :=
          { r with entries :=
              { key := "daily_summary:" ++ organizationID ++ ":" ++ date,
                value := Cached.dailySummary
                  { Date := date,
                    Total := countLogs s startOfDay (startOfDay + 86400) organizationID
                      (fun _ => true),
                    New := countLogs s startOfDay (startOfDay + 86400) organizationID
                      (fun l => l.IsNewPerson),
                    Repeat := countLogs s startOfDay (startOfDay + 86400) organizationID
                      (fun l => !l.IsNewPerson) },
                expiration := 3600 }
                :: r.entries.filter
                    (fun e => !decide (e.key = "daily_summary:" ++ organizationID ++ ":" ++ date)) },
        result := Except.ok
          { Date := date,
            Total := countLogs s startOfDay (startOfDay + 86400) organizationID (fun _ => true),
            New := countLogs s startOfDay (startOfDay + 86400) organizationID
              (fun l => l.IsNewPerson),
            Repeat := countLogs s startOfDay (startOfDay + 86400) organizationID
              (fun l => !l.IsNewPerson) } } := by
  unfold StatsService.GetDailySummary
  simp only [hmiss, hdate, RedisClient.Set, hset, Bool.false_eq_true, if_false, oneHour]

/-- The summary on a cache miss, in terms of the time the date parses to: the
three counts range over the rows of the organization that are not deleted and
are stamped in the 24 hours from that time. -/
theorem GetDailySummary_counts_of_parse (s : Store) (r : RedisClient) (date organizationID : String)
    (startOfDay : Time)
    (hmiss : r.Get ("daily_summary:" ++ organizationID ++ ":" ++ date) Cached.toDailySummary
      = Except.ok none)
    (hdate : parseDate date = some startOfDay) (hset : r.setFails = false) :
    ∃ summary, (StatsService.GetDailySummary s r date organizationID).result
        = Except.ok summary
      ∧ summary.Date = date
      ∧ summary.Total
          = ((s.personLogs.filter (PersonLog.inDay organizationID startOfDay)).length : Int)
      ∧ summary.New
          = ((s.personLogs.filter fun l =>
              PersonLog.inDay organizationID startOfDay l && l.IsNewPerson).length : Int)
      ∧ summary.Repeat
          = ((s.personLogs.filter fun l =>
              PersonLog.inDay organizationID startOfDay l && !l.IsNewPerson).length : Int)
      ∧ summary.Total = summary.New + summary.Repeat
      ∧ ∀ row : PersonLog, row.Timestamp = startOfDay + 86400 →
          (StatsService.GetDailySummary { s with personLogs := s.personLogs ++ [row] } r date
            organizationID).result = Except.ok summary := by
  rw [GetDailySummary_miss s r date organizationID startOfDay hmiss hdate hset]
  refine ⟨_, rfl, rfl, ?_, ?_, ?_, ?_, ?_⟩
  · simp only
    rw [countLogs_eq]
    simp
  · simp only
    rw [countLogs_eq]
  · simp only
    rw [countLogs_eq]
  · simp only
    rw [countLogs_eq, countLogs_eq, countLogs_eq]
    rw [← List.countP_eq_length_filter, ← List.countP_eq_length_filter,
      ← List.countP_eq_length_filter]
    have := countP_split (PersonLog.inDay organizationID startOfDay)
      (fun l => l.IsNewPerson) s.personLogs
    simp only [Bool.and_true] at this ⊢
    exact_mod_cast this.symm
  · intro row hrow
    rw [GetDailySummary_miss _ r date organizationID startOfDay hmiss hdate hset]
    simp only [countLogs_endOfDay s startOfDay organizationID _ row hrow]

/-- The leap-year test of the parser is the rule of the calendar. -/
theorem isLeap_eq (y : Nat) : isLeap y = gregorianLeap y := by
  unfold isLeap gregorianLeap
  by_cases h4 : y % 4 = 0 <;> by_cases h100 : y % 100 = 0 <;> by_cases h400 : y % 400 = 0 <;>
    simp [h4, h100, h400] <;> omega

/-- The month lengths of the parser are those of the calendar. -/
theorem daysIn_eq (y m : Nat) (h1 : 1 ≤ m) (h12 : m ≤ 12) : daysIn m y = monthLength y m := by
  interval_cases m <;> simp [daysIn, monthLength, isLeap_eq]

/-- From one new year to the next, `daysFromCivil` advances by the length of
the year. -/
theorem daysFromCivil_newYear (y : Nat) :
    daysFromCivil (y + 1) 1 1 = daysFromCivil y 1 1 + yearLength y := by
  unfold daysFromCivil yearLength gregorianLeap
  simp only [Nat.one_le_ofNat, if_true]
  by_cases h4 : y % 4 = 0 <;> by_cases h100 : y % 100 = 0 <;> by_cases h400 : y % 400 = 0 <;>
    simp [h4, h100, h400] <;> omega

/-- The first of January 1970 is day 0. -/
theorem daysFromCivil_epoch : daysFromCivil 1970 1 1 = 0 := by decide

/-- The years from 1970 on, added up. -/
theorem sum_yearLength_up (n : Nat) :
    ((((List.range' 1970 n).map yearLength).sum : Nat) : Int) = daysFromCivil (1970 + n) 1 1 := by
  induction n with
  | zero => simp [daysFromCivil_epoch]
  | succ n ih =>
    rw [List.range'_concat, List.map_append, List.sum_append]
    simp only [List.map_cons, List.map_nil, List.sum_cons, List.sum_nil, Nat.add_zero,
      Nat.one_mul]
    rw [show 1970 + (n + 1) = (1970 + n) + 1 from rfl, daysFromCivil_newYear, Nat.cast_add, ih]

/-- The years before 1970, added up. -/
theorem sum_yearLength_down (n : Nat) (hn : n ≤ 1970) :
    -((((List.range' (1970 - n) n).map yearLength).sum : Nat) : Int)
      = daysFromCivil (1970 - n) 1 1 := by
  induction n with
  | zero => simp [daysFromCivil_epoch]
  | succ n ih =>
    have h1 : 1970 - n = (1970 - (n + 1)) + 1 := by omega
    rw [List.range'_succ, List.map_cons, List.sum_cons]
    have ih' := ih (by omega)
    rw [h1] at ih'
    rw [daysFromCivil_newYear] at ih'
    rw [Nat.cast_add]
    omega

/-- On the new years, `daysFromCivil` counts the days year by year. -/
theorem daysToYear_eq (y : Nat) : daysToYear y = daysFromCivil y 1 1 := by
  unfold daysToYear
  split
  · rename_i h
    have := sum_yearLength_up (y - 1970)
    rw [show 1970 + (y - 1970) = y by omega] at this
    exact this
  · rename_i h
    have := sum_yearLength_down (1970 - y) (by omega)
    rw [show 1970 - (1970 - y) = y by omega] at this
    exact this

/-- Inside a year, `daysFromCivil` counts the days month by month. -/
theorem daysFromCivil_month (y m d : Nat) (h1 : 1 ≤ m) (h12 : m ≤ 12) :
    daysFromCivil y m d = daysFromCivil y 1 1 + daysToMonth y m + d - 1 := by
  interval_cases m <;>
    simp [daysFromCivil, daysToMonth, monthLength, gregorianLeap, List.range'] <;>
    (try split) <;> omega

/-- The closed formula `daysFromCivil` gives the number of the day. -/
theorem daysFromCivil_eq_dayNumber (y m d : Nat) (h1 : 1 ≤ m) (h12 : m ≤ 12) :
    daysFromCivil y m d = dayNumber y m d := by
  rw [daysFromCivil_month y m d h1 h12, dayNumber, daysToYear_eq]

/-- A digit character is read back as its digit. -/
theorem digit_digitChar (n : Nat) : digit (digitChar n) = some (n % 10) := by
  unfold digitChar
  have h : n % 10 < 10 := Nat.mod_lt _ (by decide)
  generalize n % 10 = k at h
  interval_cases k <;> decide

/-- A character read as a digit is that digit character. -/
theorem digitChar_of_digit (c : Char) (k : Nat) (h : digit c = some k) :
    k < 10 ∧ c = digitChar k := by
  unfold digit at h
  split at h
  · rename_i hc
    simp only [Option.some.injEq] at h
    have hk : k < 10 := by omega
    refine ⟨hk, ?_⟩
    unfold digitChar
    have e : 48 + k % 10 = c.toNat := by omega
    rw [e, Char.ofNat_toNat]
  · cases h

/-- The text of a day of the calendar parses to the midnight that starts the
day: 86400 seconds for each day since 1 January 1970. -/
theorem parseDate_isoDate (y m d : Nat) (hv : validDate y m d) :
    parseDate (isoDate y m d) = some (dayNumber y m d * 86400) := by
  obtain ⟨hy, hm1, hm12, hd1, hdm⟩ := hv
  have hd31 : d ≤ 31 := by
    have : monthLength y m ≤ 31 := by
      interval_cases m <;> simp only [monthLength] <;> (try split) <;> omega
    omega
  have ey : 1000 * (y / 1000 % 10) + 100 * (y / 100 % 10) + 10 * (y / 10 % 10) + y % 10 = y := by
    omega
  have em : 10 * (m / 10 % 10) + m % 10 = m := by omega
  have ed : 10 * (d / 10 % 10) + d % 10 = d := by omega
  have hvalid : 1 ≤ m ∧ m ≤ 12 ∧ 1 ≤ d ∧ d ≤ daysIn m y := by
    rw [daysIn_eq y m hm1 hm12]
    exact ⟨hm1, hm12, hd1, hdm⟩
  simp only [parseDate, isoDate, String.toList, digit_digitChar, ey, em, ed, hvalid,
    and_self, if_true, daysFromCivil_eq_dayNumber y m d hm1 hm12]

/-- A text that parses is the text of a day of the calendar. -/
theorem parseDate_some (date : String) (t : Time) (h : parseDate date = some t) :
    ∃ y m d, validDate y m d ∧ date = isoDate y m d := by
  unfold parseDate at h
  split at h
  · rename_i y1 y2 y3 y4 m1 m2 d1 d2 hlist
    split at h
    · rename_i a b c e f g i j ha hb hc he hf hg hi hj
      simp only at h
      split at h
      · rename_i hvalid
        obtain ⟨ha1, ha2⟩ := digitChar_of_digit _ _ ha
        obtain ⟨hb1, hb2⟩ := digitChar_of_digit _ _ hb
        obtain ⟨hc1, hc2⟩ := digitChar_of_digit _ _ hc
        obtain ⟨he1, he2⟩ := digitChar_of_digit _ _ he
        obtain ⟨hf1, hf2⟩ := digitChar_of_digit _ _ hf
        obtain ⟨hg1, hg2⟩ := digitChar_of_digit _ _ hg
        obtain ⟨hi1, hi2⟩ := digitChar_of_digit _ _ hi
        obtain ⟨hj1, hj2⟩ := digitChar_of_digit _ _ hj
        refine ⟨1000 * a + 100 * b + 10 * c + e, 10 * f + g, 10 * i + j, ?_, ?_⟩
        · refine ⟨by omega, hvalid.1, hvalid.2.1, hvalid.2.2.1, ?_⟩
          rw [← daysIn_eq _ _ hvalid.1 hvalid.2.1]
          exact hvalid.2.2.2
        · apply String.ext
          have hl : date.data = [y1, y2, y3, y4, '-', m1, m2, '-', d1, d2] := hlist
          rw [hl, ha2, hb2, hc2, he2, hf2, hg2, hi2, hj2]
          simp only [isoDate, digitChar]
          have e1 : (1000 * a + 100 * b + 10 * c + e) / 1000 % 10 = a % 10 := by omega
          have e2 : (1000 * a + 100 * b + 10 * c + e) / 100 % 10 = b % 10 := by omega
          have e3 : (1000 * a + 100 * b + 10 * c + e) / 10 % 10 = c % 10 := by omega
          have e4 : (1000 * a + 100 * b + 10 * c + e) % 10 = e % 10 := by omega
          have e5 : (10 * f + g) / 10 % 10 = f % 10 := by omega
          have e6 : (10 * f + g) % 10 = g % 10 := by omega
          have e7 : (10 * i + j) / 10 % 10 = i % 10 := by omega
          have e8 : (10 * i + j) % 10 = j % 10 := by omega
          rw [e1, e2, e3, e4, e5, e6, e7, e8]
      · cases h
    · cases h
  · cases h

/-- C16 (daily summary).  For every day `y-m-d` of the calendar, on a cache
miss (and a cache that takes the write), `GetDailySummary("YYYY-MM-DD", org)`
returns the date, `total` = the number of non-deleted PersonLog rows of `org`
with `startOfDay ≤ timestamp < startOfDay + 24h`, where `startOfDay` is 86400
seconds times the number of days from 1 January 1970 to the day, `new` = the
number of those with `is_new_person = true` and `repeat` = the number of those
with `is_new_person = false`, so `total = new + repeat`; a row stamped exactly
`startOfDay + 24h` does not change the summary.  Every date the method
accepts is the text of such a day. -/
theorem GetDailySummary_counts (s : Store) (r : RedisClient) (organizationID : String)
    (y m d : Nat) (hvalid : validDate y m d)
    (hmiss : r.Get ("daily_summary:" ++ organizationID ++ ":" ++ isoDate y m d)
      Cached.toDailySummary = Except.ok none)
    (hset : r.setFails = false) :
    (∃ summary, (StatsService.GetDailySummary s r (isoDate y m d) organizationID).result
        = Except.ok summary
      ∧ summary.Date = isoDate y m d
      ∧ summary.Total
          = ((s.personLogs.filter
              (PersonLog.inDay organizationID (dayNumber y m d * 86400))).length : Int)
      ∧ summary.New
          = ((s.personLogs.filter fun l =>
              PersonLog.inDay organizationID (dayNumber y m d * 86400) l
                && l.IsNewPerson).length : Int)
      ∧ summary.Repeat
          = ((s.personLogs.filter fun l =>
              PersonLog.inDay organizationID (dayNumber y m d * 86400) l
                && !l.IsNewPerson).length : Int)
      ∧ summary.Total = summary.New + summary.Repeat
      ∧ ∀ row : PersonLog, row.Timestamp = dayNumber y m d * 86400 + 86400 →
          (StatsService.GetDailySummary { s with personLogs := s.personLogs ++ [row] } r
            (isoDate y m d) organizationID).result = Except.ok summary)
    ∧ ∀ (date : String) (t : Time), parseDate date = some t →
        ∃ y' m' d', validDate y' m' d' ∧ date = isoDate y' m' d'
          ∧ t = dayNumber y' m' d' * 86400 := by
  refine ⟨GetDailySummary_counts_of_parse s r (isoDate y m d) organizationID
    (dayNumber y m d * 86400) hmiss (parseDate_isoDate y m d hvalid) hset, ?_⟩
  intro date t ht
  obtain ⟨y', m', d', hv, hdate⟩ := parseDate_some date t ht
  refine ⟨y', m', d', hv, hdate, ?_⟩
  rw [hdate, parseDate_isoDate y' m' d' hv] at ht
  exact (Option.some.inj ht).symm

/-- C16 on the scenario and on a leap day.  The two `h1` events, summarized
for `org1` on `1970-01-01` (day 0), give total 2, new 1, repeat 1.  For
`2024-02-29`, day 19782, the day starts at 1709164800: of four detections,
in the last second of the day before, in the first and the last second of the
day and in the first second of the next day, the two of the day are counted. -/
theorem GetDailySummary_counts_witness :
    validDate 1970 1 1 ∧ isoDate 1970 1 1 = "1970-01-01" ∧ dayNumber 1970 1 1 * 86400 = 0
    ∧ (∃ summary, (StatsService.GetDailySummary scenarioDay {} (isoDate 1970 1 1) "org1").result
        = Except.ok summary
      ∧ summary.Date = isoDate 1970 1 1
      ∧ summary.Total
          = ((scenarioDay.personLogs.filter
              (PersonLog.inDay "org1" (dayNumber 1970 1 1 * 86400))).length : Int)
      ∧ summary.New
          = ((scenarioDay.personLogs.filter fun l =>
              PersonLog.inDay "org1" (dayNumber 1970 1 1 * 86400) l
                && l.IsNewPerson).length : Int)
      ∧ summary.Repeat
          = ((scenarioDay.personLogs.filter fun l =>
              PersonLog.inDay "org1" (dayNumber 1970 1 1 * 86400) l
                && !l.IsNewPerson).length : Int)
      ∧ summary.Total = summary.New + summary.Repeat
      ∧ ∀ row : PersonLog, row.Timestamp = dayNumber 1970 1 1 * 86400 + 86400 →
          (StatsService.GetDailySummary
            { scenarioDay with personLogs := scenarioDay.personLogs ++ [row] } {}
            (isoDate 1970 1 1) "org1").result = Except.ok summary)
    ∧ (StatsService.GetDailySummary scenarioDay {} "1970-01-01" "org1").result
        = Except.ok { Date := "1970-01-01", Total := 2, New := 1, Repeat := 1 }
    ∧ validDate 2024 2 29 ∧ isoDate 2024 2 29 = "2024-02-29"
    ∧ dayNumber 2024 2 29 = 19782 ∧ dayNumber 2024 2 29 * 86400 = 1709164800
    ∧ (∃ summary, (StatsService.GetDailySummary leapDay {} (isoDate 2024 2 29) "org1").result
        = Except.ok summary
      ∧ summary.Date = isoDate 2024 2 29
      ∧ summary.Total
          = ((leapDay.personLogs.filter
              (PersonLog.inDay "org1" (dayNumber 2024 2 29 * 86400))).length : Int)
      ∧ summary.New
          = ((leapDay.personLogs.filter fun l =>
              PersonLog.inDay "org1" (dayNumber 2024 2 29 * 86400) l
                && l.IsNewPerson).length : Int)
      ∧ summary.Repeat
          = ((leapDay.personLogs.filter fun l =>
              PersonLog.inDay "org1" (dayNumber 2024 2 29 * 86400) l
                && !l.IsNewPerson).length : Int)
      ∧ summary.Total = summary.New + summary.Repeat
      ∧ ∀ row : PersonLog, row.Timestamp = dayNumber 2024 2 29 * 86400 + 86400 →
          (StatsService.GetDailySummary
            { leapDay with personLogs := leapDay.personLogs ++ [row] } {}
            (isoDate 2024 2 29) "org1").result = Except.ok summary)
    ∧ (StatsService.GetDailySummary leapDay {} "2024-02-29" "org1").result
        = Except.ok { Date := "2024-02-29", Total := 2, New := 1, Repeat := 1 }
    ∧ ¬ validDate 2023 2 29 ∧ parseDate "2023-02-29" = none :=
  ⟨by decide, by decide, by decide,
   (GetDailySummary_counts scenarioDay {} "org1" 1970 1 1 (by decide) (by decide)
    (by decide)).1,
   by decide, by decide, by decide, by decide, by decide,
   (GetDailySummary_counts leapDay {} "org1" 2024 2 29 (by decide) (by decide)
    (by decide)).1,
   by decide, by decide, by decide⟩

/-! ## C17: cache-aside -/

/-- A failing read of the cache fails the query, whatever the store holds. -/
theorem StatsService_get_fails (s : Store) (r : RedisClient) (date organizationID : String)
    (h : r.getFails = true) :
    (StatsService.GetDailySummary s r date organizationID).result
        = Except.error StatsError.redisGet
    ∧ (StatsService.GetHeatmapData s r date organizationID).result
        = Except.error StatsError.redisGet
    ∧ (StatsService.GetPersonStats s r date organizationID).result
        = Except.error StatsError.redisGet := by
  simp [StatsService.GetDailySummary, StatsService.GetHeatmapData,
    StatsService.GetPersonStats, RedisClient.Get, h]

/-- C18 on a failing input: with a cache whose every read and write fails,
the three queries on the scenario of `1970-01-01` return the error of the
cache read, while the results computed from the store are there to be had. -/
theorem StatsService_redisDown :
    (StatsService.GetDailySummary scenarioDay redisDown "1970-01-01" "org1").result
        = Except.error StatsError.redisGet
    ∧ (StatsService.GetHeatmapData scenarioDay redisDown "1970-01-01" "org1").result
        = Except.error StatsError.redisGet
    ∧ (StatsService.GetPersonStats scenarioDay redisDown "1970-01-01" "org1").result
        = Except.error StatsError.redisGet
    ∧ (StatsService.GetDailySummary scenarioDay {} "1970-01-01" "org1").result
        = Except.ok { Date := "1970-01-01", Total := 2, New := 1, Repeat := 1 }
    ∧ (StatsService.GetHeatmapData scenarioDay {} "1970-01-01" "org1").result
        = Except.ok [{ Hour := "00:00", Count := 2 }]
    ∧ (StatsService.GetPersonStats scenarioDay {} "1970-01-01" "org1").result
        = Except.ok { New := 1, Repeat := 1 } := by
  decide

/-! ## C19: soft deletion in the reports -/

/-- C19 on a failing input: after `DeletePerson` has tombstoned the two logs
of `h1`, the daily summary and the new/repeat stats of `1970-01-01` count no
row, and the heatmap still counts the two tombstoned rows in its `00:00`
bucket. -/
theorem StatsService_heatmap_counts_deleted :
    scenarioDeleted.personLogs.map (fun l => (l.Timestamp, l.DeletedAt))
        = [(100, some 300), (200, some 300)]
    ∧ (StatsService.GetDailySummary scenarioDeleted {} "1970-01-01" "org1").result
        = Except.ok { Date := "1970-01-01", Total := 0, New := 0, Repeat := 0 }
    ∧ (StatsService.GetPersonStats scenarioDeleted {} "1970-01-01" "org1").result
        = Except.ok { New := 0, Repeat := 0 }
    ∧ (StatsService.GetHeatmapData scenarioDeleted {} "1970-01-01" "org1").result
        = Except.ok [{ Hour := "00:00", Count := 2 }] := by
  decide

/-! ## C13: tenants -/

/-- C13 on a failing input: two stores hold the same rows of `org1` and
differ in the rows of `org2`, whose camera has seen `h1` at `ts=50` in one of
them.  Reconciling the `ts=100` event of `h1` at the camera of `org1` gives
`is_new_person = true` and a Person row of `org1` in the one store, and
`is_new_person = false` and no Person row of `org1` in the other. -/
theorem syncLogToPostgres_tenant_leak :
    rowsOf twoTenants "org1" = rowsOf twoTenantsSeen "org1"
    ∧ (syncLogToPostgres twoTenants event100).err = none
    ∧ (syncLogToPostgres twoTenantsSeen event100).err = none
    ∧ (rowsOf (syncLogToPostgres twoTenants event100).store "org1").personLogs.map
        (fun l => (l.PersonHash, l.CameraID, l.Timestamp, l.IsNewPerson))
      = [("h1", "c1", 100, true)]
    ∧ (rowsOf (syncLogToPostgres twoTenantsSeen event100).store "org1").personLogs.map
        (fun l => (l.PersonHash, l.CameraID, l.Timestamp, l.IsNewPerson))
      = [("h1", "c1", 100, false)]
    ∧ (rowsOf (syncLogToPostgres twoTenants event100).store "org1").persons.map
        (fun p => (p.PersonHash, p.VisitCount))
      = [("h1", 1)]
    ∧ (rowsOf (syncLogToPostgres twoTenantsSeen event100).store "org1").persons = [] := by
  decide

/-! ## C23: deleting a person that is not there -/

/-- C23 (DeletePerson atomicity).  In every store in which no Person row that
is not deleted has the person hash and the organization, `DeletePerson`
returns the not-found error and the store it leaves is the store it was given:
the tombstones its transaction had put on FaceImage and PersonLog rows are
rolled back. -/
theorem DeletePerson_notFound_rollback (s : Store) (now : Time)
    (personHash organizationID : String)
    (h : ∀ p ∈ s.persons,
      ¬(p.DeletedAt = none ∧ p.PersonHash = personHash ∧ p.OrganizationID = organizationID)) :
    DeletePerson s now personHash organizationID
      = { store := s, err := some DeleteError.notFound } := by
  rw [DeletePerson_eq]
  have hc : s.persons.countP (Person.keyedBy personHash organizationID) = 0 := by
    rw [List.countP_eq_zero]
    intro p hp hk
    apply h p hp
    simp only [Person.keyedBy, Base.live, Bool.and_eq_true, decide_eq_true_eq,
      Option.isNone_iff_eq_none] at hk
    exact ⟨hk.1.1, hk.1.2, hk.2⟩
  simp only [hc, if_true]

/-- C23 on rows left without a ledger row: the detection of `ts=400` and the
face image of `h1` match the deletion, the transaction stamps them, finds no
Person row to delete, and rolls back; both rows are as they were. -/
theorem DeletePerson_notFound_rollback_witness :
    (∀ p ∈ strandedRows.persons,
      ¬(p.DeletedAt = none ∧ p.PersonHash = "h1" ∧ p.OrganizationID = "org1"))
    ∧ DeletePerson strandedRows 500 "h1" "org1"
        = { store := strandedRows, err := some DeleteError.notFound }
    ∧ (softDelete (fun l => l.live) (fun l => { l with DeletedAt := some 500 })
        (fun l => decide (l.PersonHash = "h1") && decide (l.OrganizationID = "org1"))
        strandedRows.personLogs).all (fun l => !l.live) = true
    ∧ (DeletePerson strandedRows 500 "h1" "org1").store.personLogs.all (fun l => l.live) = true
    ∧ (DeletePerson strandedRows 500 "h1" "org1").store.faceImages.all (fun f => f.live)
        = true :=
  ⟨by decide,
   DeletePerson_notFound_rollback strandedRows 500 "h1" "org1" (by decide),
   by decide, by decide, by decide⟩

/-! ## C25: the statistics of one person -/

/-- C25 (per-person stats).  When a Person row that is not deleted has the
person hash and the organization, `PersonService.GetPersonStats` returns
`New = 1`, `Repeat` = the number of PersonLog rows of that hash and
organization that are not deleted, minus one, and the organization it was
asked for; when no Person row that is not deleted matches (in particular when
no row matches at all) it returns the not-found error. -/
theorem PersonService_GetPersonStats_spec (s : Store) (personHash organizationID : String) :
    ((∃ p ∈ s.persons,
        p.DeletedAt = none ∧ p.PersonHash = personHash ∧ p.OrganizationID = organizationID) →
      PersonService.GetPersonStats s personHash organizationID
        = Except.ok
            { New := 1,
              Repeat := ((s.personLogs.filter fun l =>
                  decide (l.DeletedAt = none) && decide (l.PersonHash = personHash)
                    && decide (l.OrganizationID = organizationID)).length : Int) - 1,
              OrganizationID := organizationID })
    ∧ ((∀ p ∈ s.persons,
        ¬(p.DeletedAt = none ∧ p.PersonHash = personHash
            ∧ p.OrganizationID = organizationID)) →
      PersonService.GetPersonStats s personHash organizationID
        = Except.error LookupError.notFound) := by
  constructor
  · rintro ⟨p, hp, hd, hh, ho⟩
    have hk : Person.keyedBy personHash organizationID p = true := by
      simp [Person.keyedBy, Base.live, hd, hh, ho]
    cases hf : s.persons.find? (Person.keyedBy personHash organizationID) with
    | none =>
      rw [List.find?_eq_none] at hf
      exact absurd hk (hf p hp)
    | some q =>
      simp only [PersonService.GetPersonStats, hf]
      have hcount : ∀ logs : List PersonLog,
          logs.countP (fun l => l.live && decide (l.PersonHash = personHash)
              && decide (l.OrganizationID = organizationID))
            = (logs.filter fun l => decide (l.DeletedAt = none)
                && decide (l.PersonHash = personHash)
                && decide (l.OrganizationID = organizationID)).length := by
        intro logs
        rw [List.countP_eq_length_filter]
        congr 2
        funext l
        cases hl : l.DeletedAt <;> simp [Base.live, hl]
      rw [hcount]
  · intro h
    have hf : s.persons.find? (Person.keyedBy personHash organizationID) = none := by
      rw [List.find?_eq_none]
      intro p hp hk
      apply h p hp
      simp only [Person.keyedBy, Base.live, Bool.and_eq_true, decide_eq_true_eq,
        Option.isNone_iff_eq_none] at hk
      exact ⟨hk.1.1, hk.1.2, hk.2⟩
    simp only [PersonService.GetPersonStats, hf]

/-- C25 on a person with ten detections: `Repeat` is 9 and `New` is 1; for a
person hash the ledger does not hold, the error is the not-found error. -/
theorem PersonService_GetPersonStats_spec_witness :
    (∃ p ∈ tenVisits.persons,
        p.DeletedAt = none ∧ p.PersonHash = "h1" ∧ p.OrganizationID = "org1")
    ∧ PersonService.GetPersonStats tenVisits "h1" "org1"
        = Except.ok
            { New := 1,
              Repeat := ((tenVisits.personLogs.filter fun l =>
                  decide (l.DeletedAt = none) && decide (l.PersonHash = "h1")
                    && decide (l.OrganizationID = "org1")).length : Int) - 1,
              OrganizationID := "org1" }
    ∧ PersonService.GetPersonStats tenVisits "h1" "org1"
        = Except.ok { New := 1, Repeat := 9, OrganizationID := "org1" }
    ∧ PersonService.GetPersonStats tenVisits "h2" "org1" = Except.error LookupError.notFound
    ∧ LookupError.notFound.Error = "ไม่พบข้อมูลบุคคล" :=
  ⟨by decide,
   (PersonService_GetPersonStats_spec tenVisits "h1" "org1").1 (by decide),
   by decide,
   (PersonService_GetPersonStats_spec tenVisits "h2" "org1").2 (by decide),
   rfl⟩

/-! ## C30: the sign of the repeat count -/

/-- C30, as stated for every store, fails on a person without detections.
The ledger holds `h1` of `org1` (recorded by `CreateOrUpdatePerson` at
`ts=200`, without the PersonLog row `syncLogToPostgres` writes first) and the
PersonLog table holds no row: `PersonService.GetPersonStats` returns
`Repeat = -1`. -/
theorem PersonService_GetPersonStats_negative :
    seenAt200 = (CreateOrUpdatePerson scenarioStore (ledgerLog 200)).store
    ∧ (∃ p ∈ seenAt200.persons,
        p.DeletedAt = none ∧ p.PersonHash = "h1" ∧ p.OrganizationID = "org1")
    ∧ seenAt200.personLogs = []
    ∧ PersonService.GetPersonStats seenAt200 "h1" "org1"
        = Except.ok { New := 1, Repeat := -1, OrganizationID := "org1" } := by
  decide

/-! ## C21: the rows of a deleted organization -/

/-- After a soft deletion no row that is not deleted passes the filter, when
the stamp tombstones a row. -/
theorem softDelete_clears {α : Type} (live : α → Bool) (stamp : α → α) (filter : α → Bool)
    (rows : List α) (hstamp : ∀ r, live (stamp r) = false) :
    ∀ r ∈ softDelete live stamp filter rows, ¬(live r = true ∧ filter r = true) := by
  intro r hr
  simp only [softDelete, List.mem_map] at hr
  obtain ⟨r0, _, rfl⟩ := hr
  by_cases hc : (live r0 && filter r0) = true
  · simp only [hc, if_true, hstamp, Bool.false_eq_true, false_and, not_false_eq_true]
  · simp only [hc, if_false]
    simpa only [Bool.and_eq_true] using hc

/-- The refusals of `DeleteOrganization`, resolved: it goes on to delete only
when no PersonLog, FaceImage or Camera row that is not deleted belongs to the
organization. -/
theorem DeleteOrganization_eq (s : Store) (now : Time) (id : String)
    (h : (DeleteOrganization s now id).err = none) :
    s.personLogs.countP (fun l => l.live && decide (l.OrganizationID = id)) = 0
    ∧ s.faceImages.countP (fun f => f.live && decide (f.OrganizationID = id)) = 0
    ∧ s.cameras.countP (fun c => c.live && decide (c.OrganizationID = id)) = 0
    ∧ (DeleteOrganization s now id).store =
        { s with
          apiKeys := softDelete (fun k => k.live) (fun k => { k with DeletedAt := some now })
            (fun k => decide (k.OrganizationID = id)) s.apiKeys
          users := softDelete (fun u => u.live) (fun u => { u with DeletedAt := some now })
            (fun u => decide (u.OrganizationID = id)) s.users
          organizations :=
            softDelete (fun o => o.live) (fun o => { o with DeletedAt := some now })
              (fun o => decide (o.ID = id)) s.organizations } := by
  unfold DeleteOrganization at h ⊢
  by_cases h1 : s.personLogs.countP (fun l => l.live && decide (l.OrganizationID = id)) > 0
  · simp [h1] at h
  · by_cases h2 : s.faceImages.countP (fun f => f.live && decide (f.OrganizationID = id)) > 0
    · simp [h1, h2] at h
    · by_cases h3 : s.cameras.countP (fun c => c.live && decide (c.OrganizationID = id)) > 0
      · simp [h1, h2, h3] at h
      · refine ⟨by omega, by omega, by omega, ?_⟩
        simp only [h1, h2, h3, if_false]
        split <;> rfl

/-- What a successful `DeleteOrganization` does establish: no Camera,
PersonLog, FaceImage, APIKey or User row that is not deleted belongs to the
organization afterwards, and the organization is tombstoned.  The Person
table is not in the list: the method neither looks at it nor writes to it. -/
theorem DeleteOrganization_success (s : Store) (now : Time) (id : String)
    (h : (DeleteOrganization s now id).err = none) :
    (∀ c ∈ (DeleteOrganization s now id).store.cameras,
        ¬(c.DeletedAt = none ∧ c.OrganizationID = id))
    ∧ (∀ l ∈ (DeleteOrganization s now id).store.personLogs,
        ¬(l.DeletedAt = none ∧ l.OrganizationID = id))
    ∧ (∀ f ∈ (DeleteOrganization s now id).store.faceImages,
        ¬(f.DeletedAt = none ∧ f.OrganizationID = id))
    ∧ (∀ k ∈ (DeleteOrganization s now id).store.apiKeys,
        ¬(k.DeletedAt = none ∧ k.OrganizationID = id))
    ∧ (∀ u ∈ (DeleteOrganization s now id).store.users,
        ¬(u.DeletedAt = none ∧ u.OrganizationID = id))
    ∧ (∀ o ∈ (DeleteOrganization s now id).store.organizations,
        ¬(o.DeletedAt = none ∧ o.ID = id))
    ∧ (DeleteOrganization s now id).store.persons = s.persons := by
  obtain ⟨hl, hf, hc, hs⟩ := DeleteOrganization_eq s now id h
  rw [hs]
  rw [List.countP_eq_zero] at hl hf hc
  refine ⟨?_, ?_, ?_, ?_, ?_, ?_, rfl⟩
  · intro c hmem ⟨hd, ho⟩
    exact hc c hmem (by simp [Base.live, hd, ho])
  · intro l hmem ⟨hd, ho⟩
    exact hl l hmem (by simp [Base.live, hd, ho])
  · intro f hmem ⟨hd, ho⟩
    exact hf f hmem (by simp [Base.live, hd, ho])
  · intro k hmem ⟨hd, ho⟩
    exact softDelete_clears (fun k : APIKey => k.live)
      (fun k => { k with DeletedAt := some now }) (fun k => decide (k.OrganizationID = id))
      s.apiKeys (fun _ => rfl) k hmem (by simp [Base.live, hd, ho])
  · intro u hmem ⟨hd, ho⟩
    exact softDelete_clears (fun u : User => u.live)
      (fun u => { u with DeletedAt := some now }) (fun u => decide (u.OrganizationID = id))
      s.users (fun _ => rfl) u hmem (by simp [Base.live, hd, ho])
  · intro o hmem ⟨hd, ho⟩
    exact softDelete_clears (fun o : Organization => o.live)
      (fun o => { o with DeletedAt := some now }) (fun o => decide (o.ID = id))
      s.organizations (fun _ => rfl) o hmem (by simp [Base.live, hd, ho])

/-- The deletion of an organization that has a user and an API key and
nothing else: it succeeds and no row of the organization is left undeleted. -/
theorem DeleteOrganization_success_emptyLedger :
    (DeleteOrganization emptyLedger 500 "org1").err = none
    ∧ (∀ k ∈ (DeleteOrganization emptyLedger 500 "org1").store.apiKeys,
        ¬(k.DeletedAt = none ∧ k.OrganizationID = "org1"))
    ∧ (∀ u ∈ (DeleteOrganization emptyLedger 500 "org1").store.users,
        ¬(u.DeletedAt = none ∧ u.OrganizationID = "org1"))
    ∧ (DeleteOrganization emptyLedger 500 "org1").store.persons = [] :=
  ⟨by decide,
   (DeleteOrganization_success emptyLedger 500 "org1" (by decide)).2.2.2.1,
   (DeleteOrganization_success emptyLedger 500 "org1" (by decide)).2.2.2.2.1,
   by decide⟩

/-- C21, as stated for every store, fails for the Person table.  The
organization `org1` has a user, an API key and, in the ledger, the person
`h1` (recorded by `CreateOrUpdatePerson` at `ts=200`, without the PersonLog
row `syncLogToPostgres` writes first); it has no camera, detection or face
image.
`DeleteOrganization("org1")` succeeds: the organization, the user and the key
are tombstoned, and the Person row of `h1` stays, not deleted, with
`organization_id = "org1"`. -/
theorem DeleteOrganization_leaves_persons :
    (DeleteOrganization ledgerOnly 500 "org1").err = none
    ∧ (DeleteOrganization ledgerOnly 500 "org1").store.organizations
        = [{ ID := "org1", DeletedAt := some 500 }]
    ∧ (DeleteOrganization ledgerOnly 500 "org1").store.users
        = [{ ID := "u1", DeletedAt := some 500, OrganizationID := "org1" }]
    ∧ (DeleteOrganization ledgerOnly 500 "org1").store.apiKeys
        = [{ ID := "k1", DeletedAt := some 500, OrganizationID := "org1" }]
    ∧ (DeleteOrganization ledgerOnly 500 "org1").store.persons
        = [{ ID := RowID.generated, PersonHash := "h1", FirstSeen := 200, LastSeen := 200,
             VisitCount := 1, OrganizationID := "org1" }]
    ∧ ∃ p ∈ (DeleteOrganization ledgerOnly 500 "org1").store.persons,
        p.DeletedAt = none ∧ p.OrganizationID = "org1" := by
  decide

/-! ## C24: pagination -/

/-- Inside its range an `int` is what arithmetic says. -/
theorem wrapInt_of_range (x : Int) (h0 : 0 ≤ x) (h1 : x < 2 ^ 63) : wrapInt x = x := by
  unfold wrapInt
  omega

/-- The page count of `ListPersons` is the ceiling of the quotient. -/
theorem totalPage_eq_ceil (total pageSize : Int) (h0 : 0 ≤ total) (h1 : 0 < pageSize) :
    (if Int.tmod total pageSize > 0 then Int.tdiv total pageSize + 1
      else Int.tdiv total pageSize)
      = ⌈(total : ℚ) / (pageSize : ℚ)⌉ := by
  rw [Int.tdiv_eq_ediv h0 (le_of_lt h1), Int.tmod_eq_emod h0 (le_of_lt h1)]
  have hdiv := Int.ediv_add_emod total pageSize
  have hlo := Int.emod_nonneg total (ne_of_gt h1)
  have hhi := Int.emod_lt_of_pos total h1
  have hq : (0 : ℚ) < (pageSize : ℚ) := by exact_mod_cast h1
  symm
  rw [Int.ceil_eq_iff, lt_div_iff₀ hq, div_le_iff₀ hq]
  split
  · rename_i hpos
    constructor
    · have : (total / pageSize + 1 - 1) * pageSize < total := by
        have e : (total / pageSize + 1 - 1) * pageSize = pageSize * (total / pageSize) := by
          ring
        rw [e]
        omega
      exact_mod_cast this
    · have : total ≤ (total / pageSize + 1) * pageSize := by
        have e : (total / pageSize + 1) * pageSize
            = pageSize * (total / pageSize) + pageSize := by ring
        rw [e]
        omega
      exact_mod_cast this
  · rename_i hpos
    have hr : total % pageSize = 0 := by omega
    constructor
    · have : (total / pageSize - 1) * pageSize < total := by
        have e : (total / pageSize - 1) * pageSize
            = pageSize * (total / pageSize) - pageSize := by ring
        rw [e]
        omega
      exact_mod_cast this
    · have : total ≤ total / pageSize * pageSize := by
        have e : total / pageSize * pageSize = pageSize * (total / pageSize) := by ring
        rw [e]
        omega
      exact_mod_cast this

/-- C24 (pagination arithmetic), with the range of `int` taken into account.
`ListPersons` replaces `page <= 0` by 1 and `pageSize <= 0` by 10 and reports
`Total` = the number of Person rows of the organization that are not deleted,
the page, the page size and `TotalPage = ceil(Total / pageSize)`; and when
`(page - 1) * pageSize` is below `2^63` it returns the rows at that offset,
at most `pageSize` of them, of the rows ordered by `last_seen` descending. -/
theorem ListPersons_pagination (s : Store) (organizationID : String) (page pageSize : Int) :
    (PersonService.ListPersons s organizationID page pageSize).pagination
      = { Total := ((s.persons.filter fun p =>
              decide (p.DeletedAt = none) && decide (p.OrganizationID = organizationID)).length
              : Int),
          Page := if page ≤ 0 then 1 else page,
          PageSize := if pageSize ≤ 0 then 10 else pageSize,
          TotalPage :=
            ⌈(((s.persons.filter fun p =>
                decide (p.DeletedAt = none) && decide (p.OrganizationID = organizationID)).length
                : Int) : ℚ)
              / (((if pageSize ≤ 0 then 10 else pageSize) : Int) : ℚ)⌉ }
    ∧ (((if page ≤ 0 then 1 else page) - 1) * (if pageSize ≤ 0 then 10 else pageSize) < 2 ^ 63 →
      (PersonService.ListPersons s organizationID page pageSize).rows
        = ((orderByLastSeenDesc (s.persons.filter fun p =>
              decide (p.DeletedAt = none) && decide (p.OrganizationID = organizationID))).drop
            (((if page ≤ 0 then 1 else page) - 1)
              * (if pageSize ≤ 0 then 10 else pageSize)).toNat).take
          (if pageSize ≤ 0 then 10 else pageSize).toNat) := by
  have hfilter : (fun p : Person => p.live && decide (p.OrganizationID = organizationID))
      = fun p => decide (p.DeletedAt = none) && decide (p.OrganizationID = organizationID) := by
    funext p
    cases hp : p.DeletedAt <;> simp [Base.live, hp]
  have hps : (0 : Int) < if pageSize ≤ 0 then 10 else pageSize := by
    split <;> omega
  have hp : (0 : Int) ≤ (if page ≤ 0 then 1 else page) - 1 := by
    split <;> omega
  constructor
  · simp only [PersonService.ListPersons, hfilter, List.countP_eq_length_filter]
    rw [totalPage_eq_ceil _ _ (Int.ofNat_nonneg _) hps]
  · intro hrange
    have h0 : (0 : Int) ≤ ((if page ≤ 0 then 1 else page) - 1)
        * (if pageSize ≤ 0 then 10 else pageSize) := Int.mul_nonneg hp (le_of_lt hps)
    simp only [PersonService.ListPersons, hfilter, limitOffset,
      wrapInt_of_range _ h0 hrange]
    generalize ((if page ≤ 0 then 1 else page) - 1)
      * (if pageSize ≤ 0 then 10 else pageSize) = offset at h0 ⊢
    by_cases hpos : offset > 0
    · simp only [hpos, if_true]
    · have hz0 : offset = 0 := by omega
      subst hz0
      simp only [gt_iff_lt, lt_self_iff_false, if_false, Int.toNat_zero, List.drop_zero]

/-- C24 on fifteen persons: page 2 of size 10 holds the rows 11 to 15 in the
order of `last_seen` descending, `Total` is 15 and `TotalPage` is 2. -/
theorem ListPersons_pagination_witness :
    ((if (2 : Int) ≤ 0 then (1 : Int) else 2) - 1) * (if (10 : Int) ≤ 0 then (10 : Int) else 10)
      < 2 ^ 63
    ∧ (PersonService.ListPersons fifteenPersons "org1" 2 10).rows
        = ((orderByLastSeenDesc (fifteenPersons.persons.filter fun p =>
              decide (p.DeletedAt = none) && decide (p.OrganizationID = "org1"))).drop
            (((if (2 : Int) ≤ 0 then (1 : Int) else 2) - 1)
              * (if (10 : Int) ≤ 0 then (10 : Int) else 10)).toNat).take
          (if (10 : Int) ≤ 0 then (10 : Int) else 10).toNat
    ∧ (PersonService.ListPersons fifteenPersons "org1" 2 10).rows.map (fun p => p.PersonHash)
        = ["p05", "p04", "p03", "p02", "p01"]
    ∧ (PersonService.ListPersons fifteenPersons "org1" 2 10).pagination
        = { Total := 15, Page := 2, PageSize := 10, TotalPage := 2 }
    ∧ (PersonService.ListPersons fifteenPersons "org1" 0 0).pagination
        = { Total := 15, Page := 1, PageSize := 10, TotalPage := 2 } :=
  ⟨by decide,
   (ListPersons_pagination fifteenPersons "org1" 2 10).2 (by decide),
   by decide, by decide, by decide⟩

/-- C24 as it is worded fails where the product leaves the range of `int`.
For page `2^58 + 1` of size 64 the offset `(page - 1) * pageSize` is `2^64`,
which wraps around to 0: `ListPersons` returns the first page of the table
(here its only row) although the table holds no row at offset `2^64`. -/
theorem ListPersons_counterexample :
    ((2 : Int) ^ 58 + 1 - 1) * 64 = 2 ^ 64
    ∧ wrapInt (((2 : Int) ^ 58 + 1 - 1) * 64) = 0
    ∧ (PersonService.ListPersons seenAt200 "org1" (2 ^ 58 + 1) 64).rows = seenAt200.persons
    ∧ (PersonService.ListPersons seenAt200 "org1" (2 ^ 58 + 1) 64).pagination
        = { Total := 1, Page := 2 ^ 58 + 1, PageSize := 64, TotalPage := 1 }
    ∧ ((orderByLastSeenDesc (seenAt200.persons.filter fun p =>
            decide (p.DeletedAt = none) && decide (p.OrganizationID = "org1"))).drop
          ((((2 : Int) ^ 58 + 1 - 1) * 64).toNat)).take 64 = [] := by
  refine ⟨by decide, by decide, by decide, by decide, ?_⟩
  decide

/-! ## C26: the page and the page size -/

/-- A query value read with a default that is not empty is not empty. -/
theorem Query_ne_empty (args : List (String × String)) (key defaultValue : String)
    (h : defaultValue ≠ "") : Query args key defaultValue ≠ "" := by
  unfold Query
  split
  · split
    · exact h
    · assumption
  · exact h

/-- The bounds of the clamped page and page size. -/
theorem clamp_bounds (page pageSize : Int) :
    1 ≤ clampPage page ∧ 1 ≤ clampPageSize pageSize ∧ clampPageSize pageSize ≤ 100 := by
  unfold clampPage clampPageSize
  refine ⟨?_, ?_, ?_⟩ <;> split <;> try split
  all_goals omega

/-- The two clamps of the handlers, in the order the code applies them. -/
theorem clampPageSize_eq (pageSize : Int) :
    (if (if pageSize ≤ 0 then 10 else pageSize) > 100 then 100
      else if pageSize ≤ 0 then 10 else pageSize) = clampPageSize pageSize := by
  unfold clampPageSize
  split <;> split <;> try split
  all_goals omega

/-- C26 (page-size limit).  For every query string, with `page` read with the
default `"1"` and `page_size` with the default `"10"`: when both values are
integers for `strconv.Atoi`, the filter `parseLogsFilter` returns and the call
`PersonHandler.ListPersons` makes carry the page with `<= 0` replaced by 1 and
the page size with `<= 0` replaced by 10 and `> 100` by 100, so that
`page >= 1` and `1 <= page_size <= 100`, and `GetLogs` hands that filter to
the service; when one of them is not, `parseLogsFilter` returns an error, and
`GetLogs` and `PersonHandler.ListPersons` answer with status 400 whatever the
service would have returned. -/
theorem paging_bounds (parseTime : String → Option Time) (args : List (String × String))
    (organizationID : String) (horg : organizationID ≠ "") :
    (∀ filter, parseLogsFilter parseTime args = Except.ok filter →
      ∃ page pageSize, Atoi (Query args "page" "1") = some page
        ∧ Atoi (Query args "page_size" "10") = some pageSize
        ∧ filter.Page = clampPage page ∧ filter.PageSize = clampPageSize pageSize
        ∧ 1 ≤ filter.Page ∧ 1 ≤ filter.PageSize ∧ filter.PageSize ≤ 100)
    ∧ ((Atoi (Query args "page" "1") = none ∨ Atoi (Query args "page_size" "10") = none) →
      ∃ msg, parseLogsFilter parseTime args = Except.error msg
        ∧ ∀ service, LogsHandler.GetLogs service parseTime organizationID args
            = { status := 400, body := Body.map [("error", msg)] })
    ∧ (∀ filter, parseLogsFilter parseTime args = Except.ok filter →
      ∀ service, LogsHandler.GetLogs service parseTime organizationID args
        = Response.ofLogs (service { filter with OrganizationID := organizationID }))
    ∧ (∀ page pageSize, Atoi (Query args "page" "1") = some page →
        Atoi (Query args "page_size" "10") = some pageSize →
        1 ≤ clampPage page ∧ 1 ≤ clampPageSize pageSize ∧ clampPageSize pageSize ≤ 100
        ∧ ∀ service, PersonHandler.ListPersons service organizationID args
            = Response.ofList (service organizationID (clampPage page) (clampPageSize pageSize)))
    ∧ ((Atoi (Query args "page" "1") = none ∨ Atoi (Query args "page_size" "10") = none) →
      ∃ msg, ∀ service, PersonHandler.ListPersons service organizationID args
        = { status := 400, body := Body.map [("error", msg)] }) := by
  have hpage := Query_ne_empty args "page" "1" (by decide)
  have hsize := Query_ne_empty args "page_size" "10" (by decide)
  refine ⟨?_, ?_, ?_, ?_, ?_⟩
  · intro filter hok
    unfold parseLogsFilter at hok
    simp only [hpage, hsize, ne_eq, not_false_eq_true, if_true] at hok
    split at hok
    · exact absurd hok (by simp)
    · split at hok
      · exact absurd hok (by simp)
      · cases hp : Atoi (Query args "page" "1") with
        | none => simp [hp] at hok
        | some page =>
          cases hs : Atoi (Query args "page_size" "10") with
          | none => simp [hp, hs] at hok
          | some pageSize =>
            simp only [hp, hs, Except.ok.injEq] at hok
            subst hok
            refine ⟨page, pageSize, rfl, rfl, rfl, ?_, ?_⟩
            · exact clampPageSize_eq pageSize
            · have hb := clamp_bounds page pageSize
              simp only [clampPageSize_eq]
              exact ⟨hb.1, hb.2.1, hb.2.2⟩
  · intro hnone
    have herr : ∃ msg, parseLogsFilter parseTime args = Except.error msg := by
      unfold parseLogsFilter
      simp only [hpage, hsize, ne_eq, not_false_eq_true, if_true]
      split
      · exact ⟨_, rfl⟩
      · split
        · exact ⟨_, rfl⟩
        · cases hp : Atoi (Query args "page" "1") with
          | none => exact ⟨_, rfl⟩
          | some page =>
            cases hs : Atoi (Query args "page_size" "10") with
            | none => exact ⟨_, rfl⟩
            | some pageSize => simp [hp, hs] at hnone
    obtain ⟨msg, hmsg⟩ := herr
    refine ⟨msg, hmsg, fun service => ?_⟩
    simp only [LogsHandler.GetLogs, hmsg]
  · intro filter hok service
    simp only [LogsHandler.GetLogs, hok, horg, if_false]
    unfold Response.ofLogs
    split <;> simp_all
  · intro page pageSize hp hs
    have hb := clamp_bounds page pageSize
    refine ⟨hb.1, hb.2.1, hb.2.2, ?_⟩
    intro service
    unfold PersonHandler.ListPersons
    simp only [horg, hpage, hsize, hp, hs, ne_eq, not_false_eq_true, if_true, if_false,
      clampPageSize_eq]
    unfold Response.ofList clampPage
    split <;> simp_all
  · intro hnone
    cases hp : Atoi (Query args "page" "1") with
    | none =>
      refine ⟨"รูปแบบของพารามิเตอร์ page ไม่ถูกต้อง", fun service => ?_⟩
      unfold PersonHandler.ListPersons
      simp only [horg, hpage, hp, ne_eq, not_false_eq_true, if_true, if_false]
    | some page =>
      cases hs : Atoi (Query args "page_size" "10") with
      | none =>
        refine ⟨"รูปแบบของพารามิเตอร์ page_size ไม่ถูกต้อง", fun service => ?_⟩
        unfold PersonHandler.ListPersons
        simp only [horg, hpage, hsize, hp, hs, ne_eq, not_false_eq_true, if_true, if_false]
      | some pageSize => simp [hp, hs] at hnone

/-- C26 on the query `page=0&page_size=1000`: the filter and the call of the
service carry page 1 and page size 100; on `page=abc` the request is answered
with status 400 and the service is not asked. -/
theorem paging_bounds_witness :
    "org1" ≠ ""
    ∧ (∃ page pageSize, Atoi (Query [("page", "0"), ("page_size", "1000")] "page" "1") = some page
        ∧ Atoi (Query [("page", "0"), ("page_size", "1000")] "page_size" "10") = some pageSize
        ∧ ({ Page := 1, PageSize := 100 } : LogFilter).Page = clampPage page
        ∧ ({ Page := 1, PageSize := 100 } : LogFilter).PageSize = clampPageSize pageSize
        ∧ 1 ≤ ({ Page := 1, PageSize := 100 } : LogFilter).Page
        ∧ 1 ≤ ({ Page := 1, PageSize := 100 } : LogFilter).PageSize
        ∧ ({ Page := 1, PageSize := 100 } : LogFilter).PageSize ≤ 100)
    ∧ parseLogsFilter (fun _ => none) [("page", "0"), ("page_size", "1000")]
        = Except.ok { Page := 1, PageSize := 100 }
    ∧ (∀ service, PersonHandler.ListPersons service "org1" [("page", "0"), ("page_size", "1000")]
        = Response.ofList (service "org1" (clampPage 0) (clampPageSize 1000)))
    ∧ clampPage 0 = 1 ∧ clampPageSize 1000 = 100 ∧ clampPageSize 0 = 10
    ∧ (∃ msg, parseLogsFilter (fun _ => none) [("page", "abc")] = Except.error msg
        ∧ ∀ service, LogsHandler.GetLogs service (fun _ => none) "org1" [("page", "abc")]
            = { status := 400, body := Body.map [("error", msg)] })
    ∧ (∃ msg, ∀ service, PersonHandler.ListPersons service "org1" [("page_size", "1.5")]
        = { status := 400, body := Body.map [("error", msg)] }) :=
  ⟨by decide,
   (paging_bounds (fun _ => none) [("page", "0"), ("page_size", "1000")] "org1" (by decide)).1
     { Page := 1, PageSize := 100 } (by decide),
   by decide,
   ((paging_bounds (fun _ => none) [("page", "0"), ("page_size", "1000")] "org1"
     (by decide)).2.2.2.1 0 1000 (by decide) (by decide)).2.2.2,
   by decide, by decide, by decide,
   (paging_bounds (fun _ => none) [("page", "abc")] "org1" (by decide)).2.1
     (Or.inl (by decide)),
   (paging_bounds (fun _ => none) [("page_size", "1.5")] "org1" (by decide)).2.2.2.2
     (Or.inr (by decide))⟩

/-! ## C27: the errors of the service in the responses -/

/-- C27 (handler error mapping).  For a request that carries a person hash
and an organization, whenever the service method returns an error the handler
answers with status 500 and the body `{"error": <the text of the error>}`:
`PersonHandler.GetPerson` for `PersonService.GetPerson` and
`PersonHandler.DeletePerson` for `PersonService.DeletePerson`, for any error
and in particular for the two not-found errors of the service. -/
theorem PersonHandler_error_mapping (personHash organizationID : String)
    (hhash : personHash ≠ "") (horg : organizationID ≠ "") :
    (∀ (service : String → String → Except String Person) (err : String),
      service personHash organizationID = Except.error err →
      PersonHandler.GetPerson service personHash organizationID
        = { status := 500, body := Body.map [("error", err)] })
    ∧ (∀ (service : String → String → Option String) (err : String),
      service personHash organizationID = some err →
      PersonHandler.DeletePerson service personHash organizationID
        = { status := 500, body := Body.map [("error", err)] })
    ∧ (∀ (s : Store) (e : LookupError),
      PersonService.GetPerson s personHash organizationID = Except.error e →
      PersonHandler.GetPerson
          (fun h o => (PersonService.GetPerson s h o).mapError LookupError.Error)
          personHash organizationID
        = { status := 500, body := Body.map [("error", "ไม่พบข้อมูลบุคคล")] })
    ∧ (∀ (s : Store) (now : Time) (e : DeleteError),
      (DeletePerson s now personHash organizationID).err = some e →
      PersonHandler.DeletePerson
          (fun h o => (DeletePerson s now h o).err.map DeleteError.Error)
          personHash organizationID
        = { status := 500, body := Body.map [("error", "ไม่พบข้อมูลบุคคลที่ต้องการลบ")] }) := by
  refine ⟨?_, ?_, ?_, ?_⟩
  · intro service err h
    simp only [PersonHandler.GetPerson, hhash, horg, if_false, h]
  · intro service err h
    simp only [PersonHandler.DeletePerson, hhash, horg, if_false, h]
  · intro s e h
    cases e
    simp only [PersonHandler.GetPerson, hhash, horg, if_false, h, Except.mapError,
      LookupError.Error]
  · intro s now e h
    cases e
    simp only [PersonHandler.DeletePerson, hhash, horg, if_false, h, Option.map,
      DeleteError.Error]

/-- C27 on the scenario, for a person hash the ledger does not hold: both
handlers answer 500 with the not-found text of their service method. -/
theorem PersonHandler_error_mapping_witness :
    "h2" ≠ "" ∧ "org1" ≠ ""
    ∧ PersonService.GetPerson scenarioDay "h2" "org1" = Except.error LookupError.notFound
    ∧ PersonHandler.GetPerson
          (fun h o => (PersonService.GetPerson scenarioDay h o).mapError LookupError.Error)
          "h2" "org1"
        = { status := 500, body := Body.map [("error", "ไม่พบข้อมูลบุคคล")] }
    ∧ (DeletePerson scenarioDay 300 "h2" "org1").err = some DeleteError.notFound
    ∧ PersonHandler.DeletePerson
          (fun h o => (DeletePerson scenarioDay 300 h o).err.map DeleteError.Error)
          "h2" "org1"
        = { status := 500, body := Body.map [("error", "ไม่พบข้อมูลบุคคลที่ต้องการลบ")] }
    ∧ PersonHandler.GetPerson (fun _ _ => Except.error "connection refused") "h1" "org1"
        = { status := 500, body := Body.map [("error", "connection refused")] } :=
  ⟨by decide, by decide, by decide,
   (PersonHandler_error_mapping "h2" "org1" (by decide) (by decide)).2.2.1 scenarioDay
     LookupError.notFound (by decide),
   by decide,
   (PersonHandler_error_mapping "h2" "org1" (by decide) (by decide)).2.2.2 scenarioDay 300
     DeleteError.notFound (by decide),
   (PersonHandler_error_mapping "h1" "org1" (by decide) (by decide)).1
     (fun _ _ => Except.error "connection refused") "connection refused" rfl⟩

/-! ## C28: the rate limiter -/

/-- A binding that was written is the one read, and the limits stay. -/
theorem RateLimiter.lookup_store (rl : RateLimiter) (ip : String) (limit : IPRateLimit) :
    (rl.store ip limit).lookup ip = some limit
    ∧ (rl.store ip limit).max = rl.max ∧ (rl.store ip limit).duration = rl.duration := by
  simp [RateLimiter.store, RateLimiter.lookup]

/-- A call inside the window of its address: refused when the count has
reached `max`, counted otherwise. -/
theorem RateLimiter.allow_inWindow (rl : RateLimiter) (ip : String) (now : Time)
    (limit : IPRateLimit) (hl : rl.lookup ip = some limit) (hnow : now ≤ limit.resetAt) :
    rl.allow now ip =
      if limit.count ≥ rl.max then
        { limiter := rl, remaining := 0, resetAt := limit.resetAt, allowed := false }
      else
        { limiter := rl.store ip { limit with count := limit.count + 1 },
          remaining := rl.max - (limit.count + 1), resetAt := limit.resetAt, allowed := true } := by
  have hn : ¬ now > limit.resetAt := not_lt.mpr hnow
  simp only [RateLimiter.allow, hl, hn, if_false]

/-- A call of an address without a window, or after its window has ended,
opens a window and is allowed. -/
theorem RateLimiter.allow_fresh (rl : RateLimiter) (ip : String) (now : Time)
    (h : rl.lookup ip = none ∨ ∃ limit, rl.lookup ip = some limit ∧ now > limit.resetAt) :
    rl.allow now ip =
      { limiter := rl.store ip { count := 1, resetAt := now + rl.duration },
        remaining := rl.max - 1, resetAt := now + rl.duration, allowed := true } := by
  rcases h with h | ⟨limit, h, hlate⟩
  · simp only [RateLimiter.allow, h]
  · simp only [RateLimiter.allow, h, hlate, if_true]

/-- Calls inside a window that has counted `count` requests: the call of
index `k` is allowed exactly when `count + k + 1 <= max`, and reports `max`
minus the requests counted so far. -/
theorem allowEach_inWindow (ip : String) (resetAt : Time) (times : List Time) :
    ∀ (rl : RateLimiter) (count : Int),
      rl.lookup ip = some { count := count, resetAt := resetAt } →
      (∀ t ∈ times, t ≤ resetAt) →
      ∀ (k : Nat) (r : AllowResult), (allowEach rl ip times)[k]? = some r →
        r.allowed = decide (count + (k : Int) + 1 ≤ rl.max)
        ∧ r.remaining = rl.max - min (count + (k : Int) + 1) rl.max
        ∧ r.resetAt = resetAt := by
  induction times with
  | nil => intro rl count _ _ k r hr; simp [allowEach] at hr
  | cons t rest ih =>
    intro rl count hl hwin k r hr
    have ht : t ≤ resetAt := hwin t (List.mem_cons_self _ _)
    have hstep := RateLimiter.allow_inWindow rl ip t _ hl ht
    simp only at hstep
    cases k with
    | zero =>
      simp only [allowEach, List.getElem?_cons_zero, Option.some.injEq] at hr
      subst hr
      rw [hstep]
      by_cases hc : count ≥ rl.max
      · simp only [hc, if_true]
        refine ⟨?_, ?_, by first | rfl | trivial⟩
        · simp only [Nat.cast_zero, add_zero, Bool.false_eq, decide_eq_false_iff_not]
          omega
        · simp only [Nat.cast_zero, add_zero]
          omega
      · simp only [hc, if_false]
        refine ⟨?_, ?_, by first | rfl | trivial⟩
        · simp only [Nat.cast_zero, add_zero, Bool.true_eq, decide_eq_true_eq]
          omega
        · simp only [Nat.cast_zero, add_zero]
          omega
    | succ k =>
      simp only [allowEach, List.getElem?_cons_succ] at hr
      by_cases hc : count ≥ rl.max
      · rw [hstep] at hr
        simp only [hc, if_true] at hr
        obtain ⟨h1, h2, h3⟩ := ih rl count hl (fun t ht => hwin t (List.mem_cons_of_mem _ ht)) k r hr
        refine ⟨?_, ?_, h3⟩
        · rw [h1]
          have e1 : ¬ (count + (k : Int) + 1 ≤ rl.max) := by omega
          have e2 : ¬ (count + ((k + 1 : Nat) : Int) + 1 ≤ rl.max) := by omega
          simp only [e1, e2]
        · rw [h2]
          push_cast
          omega
      · rw [hstep] at hr
        simp only [hc, if_false] at hr
        have hl' := (RateLimiter.lookup_store rl ip { count := count + 1, resetAt := resetAt })
        obtain ⟨h1, h2, h3⟩ := ih _ (count + 1) hl'.1
          (fun t ht => hwin t (List.mem_cons_of_mem _ ht)) k r hr
        rw [hl'.2.1] at h1 h2
        refine ⟨?_, ?_, h3⟩
        · rw [h1]
          congr 1
          push_cast
          apply propext
          constructor <;> intro h <;> omega
        · rw [h2]
          push_cast
          omega

/-- For a limit of at least one, the calls of one window, the first of which
opens it: the call of index `k` is allowed exactly when `k + 1 <= max`, so at
most `max` calls are allowed, and it reports `max` minus the number of calls
allowed so far, which is never negative. -/
theorem allowEach_window (rl : RateLimiter) (ip : String) (start : Time) (times : List Time)
    (hmax : 1 ≤ rl.max)
    (hfresh : rl.lookup ip = none ∨ ∃ limit, rl.lookup ip = some limit ∧ start > limit.resetAt)
    (hwin : ∀ t ∈ times, t ≤ start + rl.duration) :
    ∀ (k : Nat) (r : AllowResult), (allowEach rl ip (start :: times))[k]? = some r →
      r.allowed = decide ((k : Int) + 1 ≤ rl.max)
      ∧ r.remaining = rl.max - min ((k : Int) + 1) rl.max
      ∧ 0 ≤ r.remaining
      ∧ r.resetAt = start + rl.duration := by
  intro k r hr
  have hstep := RateLimiter.allow_fresh rl ip start hfresh
  cases k with
  | zero =>
    simp only [allowEach, List.getElem?_cons_zero, Option.some.injEq] at hr
    subst hr
    rw [hstep]
    refine ⟨?_, ?_, ?_, rfl⟩
    · simp only [Nat.cast_zero, zero_add, Bool.true_eq, decide_eq_true_eq]
      exact hmax
    · simp only [Nat.cast_zero, zero_add]
      omega
    · simp only
      omega
  | succ k =>
    simp only [allowEach, List.getElem?_cons_succ] at hr
    rw [hstep] at hr
    simp only at hr
    have hl' := RateLimiter.lookup_store rl ip { count := 1, resetAt := start + rl.duration }
    obtain ⟨h1, h2, h3⟩ := allowEach_inWindow ip (start + rl.duration) times _ 1 hl'.1 hwin k r hr
    rw [hl'.2.1] at h1 h2
    refine ⟨?_, ?_, ?_, h3⟩
    · rw [h1]
      congr 1
      push_cast
      apply propext
      constructor <;> intro h <;> omega
    · rw [h2]
      push_cast
      omega
    · rw [h2]
      omega

/-- The first row a search finds is still the first it finds after a filter
that keeps the row. -/
theorem find?_filter_keep {α : Type} (p keep : α → Bool) (l : List α) (a : α)
    (h : l.find? p = some a) (hk : keep a = true) :
    (l.filter keep).find? p = some a := by
  induction l with
  | nil => simp at h
  | cons x rest ih =>
    by_cases hp : p x = true
    · simp only [List.find?_cons, hp, Option.some.injEq] at h
      subst h
      simp [List.filter_cons, hk, hp]
    · simp only [List.find?_cons, hp] at h
      by_cases hkx : keep x = true
      · simp only [List.filter_cons, hkx, if_true, List.find?_cons, hp]
        exact ih h
      · simp only [List.filter_cons, hkx]
        exact ih h

/-- The periodic `cleanup` leaves a window that has not ended as it is. -/
theorem RateLimiter.lookup_cleanup (rl : RateLimiter) (ip : String) (now : Time)
    (limit : IPRateLimit) (h : rl.lookup ip = some limit) (hnow : now ≤ limit.resetAt) :
    (rl.cleanup now).lookup ip = some limit
    ∧ (rl.cleanup now).max = rl.max ∧ (rl.cleanup now).duration = rl.duration := by
  refine ⟨?_, rfl, rfl⟩
  unfold RateLimiter.lookup at h ⊢
  cases hf : rl.ips.find? (fun b => decide (b.1 = ip)) with
  | none => simp [hf] at h
  | some b =>
    simp only [hf, Option.map_some', Option.some.injEq] at h
    have hk : (fun b : String × IPRateLimit => !decide (now > b.2.resetAt)) b = true := by
      simp only [h, gt_iff_lt, Bool.not_eq_true', decide_eq_false_iff_not, not_lt]
      exact hnow
    have := find?_filter_keep (fun b : String × IPRateLimit => decide (b.1 = ip))
      (fun b => !decide (now > b.2.resetAt)) rl.ips b hf hk
    simp only [RateLimiter.cleanup, this, Option.map_some', h]

/-- The bound on a limiter of two requests a minute: of three calls in one
window the first two are allowed and the third is refused, and the counts
reported are 1, 0 and 0. -/
theorem allowEach_window_two :
    (∀ (k : Nat) (r : AllowResult),
      (allowEach (NewRateLimiter 2 60) "10.0.0.1" [0, 1, 60])[k]? = some r →
        r.allowed = decide ((k : Int) + 1 ≤ 2)
        ∧ r.remaining = 2 - min ((k : Int) + 1) 2
        ∧ 0 ≤ r.remaining
        ∧ r.resetAt = 60)
    ∧ (allowEach (NewRateLimiter 2 60) "10.0.0.1" [0, 1, 60]).map (fun r => r.allowed)
        = [true, true, false]
    ∧ (allowEach (NewRateLimiter 2 60) "10.0.0.1" [0, 1, 60]).map (fun r => r.remaining)
        = [1, 0, 0] :=
  ⟨allowEach_window (NewRateLimiter 2 60) "10.0.0.1" 0 [1, 60] (by decide)
    (Or.inl (by decide)) (by decide),
   by decide, by decide⟩

/-- C28 (rate-limit bound) fails for `max = 0`.  A limiter made by
`NewRateLimiter(0, 60s)` is asked twice by one address, at `t=0` and `t=1`,
both inside the window that ends at `t=60`: the first call is allowed, one
more than `max`, and reports `remaining = -1`; the second is refused. -/
theorem RateLimiter_allow_zero_max :
    (NewRateLimiter 0 60).max = 0
    ∧ (allowEach (NewRateLimiter 0 60) "10.0.0.1" [0, 1]).map (fun r => r.allowed)
        = [true, false]
    ∧ (allowEach (NewRateLimiter 0 60) "10.0.0.1" [0, 1]).map (fun r => r.remaining)
        = [-1, 0]
    ∧ (allowEach (NewRateLimiter 0 60) "10.0.0.1" [0, 1]).map (fun r => r.resetAt)
        = [60, 60]
    ∧ ((NewRateLimiter 0 60).allow 0 "10.0.0.1").limiter.ips
        = [("10.0.0.1", { count := 1, resetAt := 60 })] := by
  decide

/-! ## C29: the cache keys -/

/-- A date of the layout `2006-01-02` has ten characters. -/
theorem parseDate_length (date : String) (t : Time) (h : parseDate date = some t) :
    date.data.length = 10 := by
  unfold parseDate at h
  split at h
  · rename_i heq
    have : date.data = _ := heq
    rw [this]
    rfl
  · exact absurd h (by simp)

/-- After a common prefix, an organization id and a ten-character date can be
read back from `<organization>:<date>`. -/
theorem key_suffix_inj (pre o o' d d' : String) (hd : d.data.length = 10)
    (hd' : d'.data.length = 10) (h : pre ++ o ++ ":" ++ d = pre ++ o' ++ ":" ++ d') :
    o = o' ∧ d = d' := by
  have h2 := congrArg String.data h
  simp only [String.data_append, List.append_assoc] at h2
  have h3 := List.append_cancel_left h2
  have h4 := @List.append_inj' Char o.data ((":" : String).data ++ d.data) o'.data
    ((":" : String).data ++ d'.data) h3 (by simp [hd, hd'])
  obtain ⟨ho, hdd⟩ := h4
  have h5 := List.append_cancel_left hdd
  exact ⟨String.ext ho, String.ext h5⟩

/-- The first character of a cache key tells the query. -/
theorem cacheKey_head (q : StatsQuery) (o d : String) :
    (q.cacheKey o d).data.head? = some (match q with
      | StatsQuery.dailySummary => 'd'
      | StatsQuery.heatmap => 'h'
      | StatsQuery.personStats => 'p') := by
  cases q <;> simp only [StatsQuery.cacheKey, String.data_append, List.append_assoc] <;> rfl

/-- The cache key determines the query, the organization and the date, for
dates of the layout `2006-01-02`. -/
theorem cacheKey_injective (q q' : StatsQuery) (o o' d d' : String) (t t' : Time)
    (hd : parseDate d = some t) (hd' : parseDate d' = some t')
    (h : q.cacheKey o d = q'.cacheKey o' d') : q = q' ∧ o = o' ∧ d = d' := by
  have hq : q = q' := by
    have h1 := cacheKey_head q o d
    have h2 := cacheKey_head q' o' d'
    rw [h] at h1
    rw [h1] at h2
    cases q <;> cases q' <;> first | rfl | (exact absurd h2 (by decide))
  subst hq
  refine ⟨rfl, ?_⟩
  cases q <;>
    exact key_suffix_inj _ o o' d d' (parseDate_length d t hd) (parseDate_length d' t' hd') h

/-- A read of a key the cache has no entry for. -/
theorem Get_of_no_entry {α : Type} (r : RedisClient) (key : String) (decode : Cached → Option α)
    (h : ∀ e ∈ r.entries, e.key ≠ key) :
    r.Get key decode = if r.getFails then Except.error StatsError.redisGet else Except.ok none := by
  have hf : r.entries.find? (fun e => decide (e.key = key)) = none := by
    rw [List.find?_eq_none]
    intro e he
    simpa using h e he
  unfold RedisClient.Get
  simp only [hf]

/-- A read of a cache without entries. -/
theorem Get_of_no_entries {α : Type} (r : RedisClient) (key : String)
    (decode : Cached → Option α) :
    ({ r with entries := [] } : RedisClient).Get key decode
      = if r.getFails then Except.error StatsError.redisGet else Except.ok none :=
  Get_of_no_entry { r with entries := [] } key decode (fun _ he => absurd he (List.not_mem_nil _))

/-- A query whose key the cache has no entry for answers as it does on a
cache without entries. -/
theorem ask_of_no_entry (q : StatsQuery) (s : Store) (r : RedisClient)
    (date organizationID : String)
    (h : ∀ e ∈ r.entries, e.key ≠ q.cacheKey organizationID date) :
    q.ask s r date organizationID = q.ask s { r with entries := [] } date organizationID := by
  cases q
  · simp only [StatsQuery.cacheKey] at h
    simp only [StatsQuery.ask, StatsService.GetDailySummary, Get_of_no_entry r _ _ h,
      Get_of_no_entries, RedisClient.Set]
    cases r.getFails <;> cases r.setFails <;> cases parseDate date <;> simp
  · simp only [StatsQuery.cacheKey] at h
    simp only [StatsQuery.ask, StatsService.GetHeatmapData, Get_of_no_entry r _ _ h,
      Get_of_no_entries, RedisClient.Set]
    cases r.getFails <;> cases r.setFails <;> cases parseDate date <;> simp
  · simp only [StatsQuery.cacheKey] at h
    simp only [StatsQuery.ask, StatsService.GetPersonStats, Get_of_no_entry r _ _ h,
      Get_of_no_entries, RedisClient.Set]
    cases r.getFails <;> cases r.setFails <;> cases parseDate date <;> simp

/-- C29 (cache keys do not collide).  Take a query, an organization id and a
date of the layout `2006-01-02`, the dates the three methods accept.  Its
cache key is the key of no other triple of a query, an organization id and
an accepted date; on a miss the value is written under that key; and a cache
whose entries were all written for other triples does not answer the query:
the answer is the one a cache without entries gives. -/
theorem StatsService_cacheKeys (q : StatsQuery) (organizationID date : String) (day : Time)
    (hdate : parseDate date = some day) :
    (∀ (q' : StatsQuery) (organizationID' date' : String) (day' : Time),
      parseDate date' = some day' →
      q.cacheKey organizationID date = q'.cacheKey organizationID' date' →
      q' = q ∧ organizationID' = organizationID ∧ date' = date)
    ∧ (∀ s : Store, (q.cache s {} date organizationID).entries.map (fun e => e.key)
        = [q.cacheKey organizationID date])
    ∧ (∀ (s : Store) (r : RedisClient),
      (∀ e ∈ r.entries, ∃ (q' : StatsQuery) (organizationID' date' : String) (day' : Time),
        parseDate date' = some day'
        ∧ ¬(q' = q ∧ organizationID' = organizationID ∧ date' = date)
        ∧ e.key = q'.cacheKey organizationID' date') →
      q.ask s r date organizationID = q.ask s { r with entries := [] } date organizationID) := by
  refine ⟨?_, ?_, ?_⟩
  · intro q' organizationID' date' day' hdate' hkey
    obtain ⟨h1, h2, h3⟩ :=
      cacheKey_injective q q' organizationID organizationID' date date' day day' hdate hdate' hkey
    exact ⟨h1.symm, h2.symm, h3.symm⟩
  · intro s
    cases q <;>
      simp [StatsQuery.cache, StatsQuery.cacheKey, StatsService.GetDailySummary,
        StatsService.GetHeatmapData, StatsService.GetPersonStats, RedisClient.Get,
        RedisClient.Set, hdate]
  · intro s r hr
    apply ask_of_no_entry
    intro e he hkey
    obtain ⟨q', organizationID', date', day', hdate', hne, hkey'⟩ := hr e he
    rw [hkey'] at hkey
    obtain ⟨h1, h2, h3⟩ :=
      cacheKey_injective q' q organizationID' organizationID date' date day' day hdate' hdate
        hkey
    exact hne ⟨h1, h2, h3⟩

/-- C29 on the scenario: the key of the daily summary of `org1` for
`1970-01-01` differs from the keys of `org2` for that day, of `org1` for the
next day and of the heatmap of `org1` for that day; and a cache that holds
the summaries of `org2` and of the next day answers the query of `org1` for
`1970-01-01` from the store. -/
theorem StatsService_cacheKeys_witness :
    parseDate "1970-01-01" = some 0
    ∧ StatsQuery.dailySummary.cacheKey "org1" "1970-01-01" = "daily_summary:org1:1970-01-01"
    ∧ (∀ (q' : StatsQuery) (organizationID' date' : String) (day' : Time),
      parseDate date' = some day' →
      StatsQuery.dailySummary.cacheKey "org1" "1970-01-01" = q'.cacheKey organizationID' date' →
      q' = StatsQuery.dailySummary ∧ organizationID' = "org1" ∧ date' = "1970-01-01")
    ∧ StatsQuery.dailySummary.ask scenarioDay otherEntries "1970-01-01" "org1"
        = StatsQuery.dailySummary.ask scenarioDay { otherEntries with entries := [] }
            "1970-01-01" "org1"
    ∧ StatsQuery.dailySummary.ask scenarioDay otherEntries "1970-01-01" "org1"
        = Except.ok (Cached.dailySummary
            { Date := "1970-01-01", Total := 2, New := 1, Repeat := 1 }) :=
  ⟨by decide, by decide,
   (StatsService_cacheKeys StatsQuery.dailySummary "org1" "1970-01-01" 0 (by decide)).1,
   (StatsService_cacheKeys StatsQuery.dailySummary "org1" "1970-01-01" 0 (by decide)).2.2
     scenarioDay otherEntries (by
       intro e he
       simp only [otherEntries, List.mem_cons, List.mem_singleton, List.not_mem_nil,
         or_false] at he
       rcases he with rfl | rfl
       · exact ⟨StatsQuery.dailySummary, "org2", "1970-01-01", 0, by decide, by decide,
           by decide⟩
       · exact ⟨StatsQuery.dailySummary, "org1", "1970-01-02", 86400, by decide, by decide,
           by decide⟩),
   by decide⟩

/-- The date is parsed after the cache has been read.  A text that is not a
date of the layout, here `b:1970-01-01` asked for the organization `a`, is
answered from the entry written for the organization `a:b` and the date
`1970-01-01` when the cache holds it, and refused when it does not; the
handlers parse the date before they call the service. -/
theorem GetDailySummary_unparsed_date (s : Store) :
    parseDate "b:1970-01-01" = none
    ∧ (StatsService.GetDailySummary s {} "b:1970-01-01" "a").result
        = Except.error StatsError.date
    ∧ (StatsService.GetDailySummary s
          (StatsService.GetDailySummary scenarioDay {} "1970-01-01" "a:b").redis
          "b:1970-01-01" "a").result
        = (StatsService.GetDailySummary scenarioDay {} "1970-01-01" "a:b").result := by
  have hp : parseDate "b:1970-01-01" = none := by decide
  refine ⟨hp, ?_, ?_⟩
  · simp only [StatsService.GetDailySummary, RedisClient.Get, Bool.false_eq_true, if_false,
      List.find?, hp]
  · have h : (StatsService.GetDailySummary scenarioDay {} "1970-01-01" "a:b")
        = { redis := { entries := [{ key := "daily_summary:a:b:1970-01-01",
                                     value := Cached.dailySummary
                                       { Date := "1970-01-01", Total := 0, New := 0,
                                         Repeat := 0 },
                                     expiration := 3600 }] },
            result := Except.ok { Date := "1970-01-01", Total := 0, New := 0, Repeat := 0 } } := by
      decide
    rw [h]
    have hk : "daily_summary:" ++ "a" ++ ":" ++ "b:1970-01-01"
        = "daily_summary:a:b:1970-01-01" := by
      decide
    simp only [StatsService.GetDailySummary, hk, RedisClient.Get, Bool.false_eq_true, if_false,
      List.find?, decide_True, Cached.toDailySummary]

/-! ## The stores the services produce -/

/-- The rows of `persons` after the ledger has run are old rows or rows of the
hash and the organization of the log. -/
theorem CreateOrUpdatePerson_persons (s : Store) (personLog : PersonLog) (p' : Person)
    (h : p' ∈ (CreateOrUpdatePerson s personLog).store.persons) :
    p' ∈ s.persons
    ∨ (p'.PersonHash = personLog.PersonHash ∧ p'.OrganizationID = personLog.OrganizationID) := by
  unfold CreateOrUpdatePerson at h
  split at h
  · split at h
    · exact Or.inl h
    · simp only [List.mem_append, List.mem_singleton] at h
      rcases h with h | rfl
      · exact Or.inl h
      · exact Or.inr ⟨rfl, rfl⟩
  · simp only at h
    rcases mem_updateFirst_of _ _ _ _ h with h | ⟨y, _, hq, rfl⟩
    · exact Or.inl h
    · simp only [Person.keyedBy, Bool.and_eq_true, decide_eq_true_eq] at hq
      exact Or.inr ⟨hq.1.2, hq.2⟩

/-- `syncLogToPostgres` writes the Person row after the PersonLog row. -/
theorem syncLogToPostgres_personsHaveLogs (s : Store) (data : RawData)
    (h : personsHaveLogs s) : personsHaveLogs (syncLogToPostgres s data).store := by
  unfold syncLogToPostgres
  cases hd : decodeEvent data with
  | error e => exact h
  | ok ev =>
    simp only
    cases ho : resolveOrganization s ev.cameraID with
    | none => exact h
    | some o =>
      simp only
      cases hk : s.personLogs.any (PersonLog.hasKey ev.personHash ev.cameraID ev.timestampTime)
      · cases hpk : pkTaken (s.personLogs.map (fun l => l.ID)) ev.id
        · rw [reconcile_insert o hk hpk]
          intro p' hp' hlive
          simp only at hp' ⊢
          rw [(CreateOrUpdatePerson_frame _ _).1]
          rcases CreateOrUpdatePerson_persons _ _ p' hp' with hold | ⟨hh, horg⟩
          · obtain ⟨l, hl, h1, h2, h3⟩ := h p' hold hlive
            exact ⟨l, List.mem_append_left _ hl, h1, h2, h3⟩
          · exact ⟨newLogOf s ev o, List.mem_append_right _ (List.mem_singleton_self _), rfl,
              hh.symm, horg.symm⟩
        · rw [reconcile_pkTaken o hk hpk]
          exact h
      · rw [reconcile_duplicate o hk]
        exact h

/-- `DeletePerson` tombstones the Person row together with its PersonLog
rows. -/
theorem DeletePerson_personsHaveLogs (s : Store) (now : Time)
    (personHash organizationID : String) (h : personsHaveLogs s) :
    personsHaveLogs (DeletePerson s now personHash organizationID).store := by
  rw [DeletePerson_eq]
  split
  · exact h
  · intro p' hp' hlive
    simp only [softDelete, List.mem_map] at hp' ⊢
    obtain ⟨p, hp, rfl⟩ := hp'
    by_cases hc : (p.live && (decide (p.PersonHash = personHash)
        && decide (p.OrganizationID = organizationID))) = true
    · simp only [hc, if_true] at hlive
      cases hlive
    · have hc' : (p.live && (decide (p.PersonHash = personHash)
          && decide (p.OrganizationID = organizationID))) = false := by
        simpa using hc
      simp only [hc', Bool.false_eq_true, if_false] at hlive ⊢
      obtain ⟨l, hl, h1, h2, h3⟩ := h p hp hlive
      refine ⟨l, ⟨l, hl, ?_⟩, h1, h2, h3⟩
      have hnot : (l.live && (decide (l.PersonHash = personHash)
          && decide (l.OrganizationID = organizationID))) = false := by
        have hplive : p.live = true := by simp [Base.live, hlive]
        simp only [hplive, Bool.true_and, Bool.and_eq_true, decide_eq_true_eq, not_and] at hc
        simp only [Bool.and_eq_false_imp, Bool.and_eq_true, decide_eq_true_eq,
          decide_eq_false_iff_not]
        intro _ hh
        rw [h3]
        exact hc (by rw [← h2]; exact hh)
      simp only [hnot, Bool.false_eq_true, if_false]

/-- `DeleteOrganization` leaves `persons` and `person_logs` as they are. -/
theorem DeleteOrganization_frame (s : Store) (now : Time) (id : String) :
    (DeleteOrganization s now id).store.persons = s.persons
    ∧ (DeleteOrganization s now id).store.personLogs = s.personLogs := by
  unfold DeleteOrganization
  simp only
  split_ifs <;> exact ⟨rfl, rfl⟩

/-- In a store the services produce, every Person row that is not deleted has
a PersonLog row of its hash and organization that is not deleted. -/
theorem Produced.personsHaveLogs {s : Store} (h : Produced s) : personsHaveLogs s := by
  induction h with
  | start s h0 =>
    intro p hp
    rw [h0] at hp
    cases hp
  | sync s data _ ih => exact syncLogToPostgres_personsHaveLogs s data ih
  | deletePerson s now personHash organizationID _ ih =>
    exact DeletePerson_personsHaveLogs s now personHash organizationID ih
  | deleteOrganization s now id _ ih =>
    intro p hp hlive
    rw [(DeleteOrganization_frame s now id).1] at hp
    rw [(DeleteOrganization_frame s now id).2]
    exact ih p hp hlive
  | other s s' _ hp hl ih =>
    intro p hmem hlive
    rw [hp] at hmem
    rw [hl]
    exact ih p hmem hlive

/-! ## C21 and C30 on the stores the services produce -/

/-- The store of the scenario is produced by two calls of
`syncLogToPostgres`. -/
theorem scenarioDay_produced : Produced scenarioDay :=
  Produced.sync _ event200 (Produced.sync scenarioStore event100 (Produced.start _ rfl))

/-- The store of the retired organization is produced by the services. -/
theorem scenarioRetired_produced : Produced scenarioRetired :=
  Produced.other scenarioDeleted scenarioRetired
    (Produced.deletePerson scenarioDay 300 "h1" "org1" scenarioDay_produced) rfl rfl

/-- C21, amended.  For every store the services produce and every id: after
`DeleteOrganization(id)` returns success, no Camera, Person, PersonLog,
FaceImage, APIKey or User row that is not deleted has `organization_id = id`. -/
theorem DeleteOrganization_referential (s : Store) (now : Time) (id : String)
    (hs : Produced s) (hok : (DeleteOrganization s now id).err = none) :
    (∀ c ∈ (DeleteOrganization s now id).store.cameras,
        ¬(c.DeletedAt = none ∧ c.OrganizationID = id))
    ∧ (∀ p ∈ (DeleteOrganization s now id).store.persons,
        ¬(p.DeletedAt = none ∧ p.OrganizationID = id))
    ∧ (∀ l ∈ (DeleteOrganization s now id).store.personLogs,
        ¬(l.DeletedAt = none ∧ l.OrganizationID = id))
    ∧ (∀ f ∈ (DeleteOrganization s now id).store.faceImages,
        ¬(f.DeletedAt = none ∧ f.OrganizationID = id))
    ∧ (∀ k ∈ (DeleteOrganization s now id).store.apiKeys,
        ¬(k.DeletedAt = none ∧ k.OrganizationID = id))
    ∧ (∀ u ∈ (DeleteOrganization s now id).store.users,
        ¬(u.DeletedAt = none ∧ u.OrganizationID = id)) := by
  obtain ⟨hc, hl, hf, hk, hu, _, hp⟩ := DeleteOrganization_success s now id hok
  refine ⟨hc, ?_, hl, hf, hk, hu⟩
  intro p hmem ⟨hlive, horg⟩
  rw [hp] at hmem
  obtain ⟨l, hmeml, h1, _, h3⟩ := hs.personsHaveLogs p hmem hlive
  have hcount := (DeleteOrganization_eq s now id hok).1
  rw [List.countP_eq_zero] at hcount
  exact hcount l hmeml (by simp [Base.live, h1, h3, horg])

/-- The amended C21 on the scenario: once the person and the camera of `org1`
are deleted the organization can be deleted, and its Person row is a
tombstone; while the detections are there the deletion is refused. -/
theorem DeleteOrganization_referential_witness :
    Produced scenarioRetired
    ∧ (DeleteOrganization scenarioRetired 500 "org1").err = none
    ∧ (∀ p ∈ (DeleteOrganization scenarioRetired 500 "org1").store.persons,
        ¬(p.DeletedAt = none ∧ p.OrganizationID = "org1"))
    ∧ (DeleteOrganization scenarioRetired 500 "org1").store.persons.map
        (fun p => (p.PersonHash, p.OrganizationID, p.DeletedAt)) = [("h1", "org1", some 300)]
    ∧ (DeleteOrganization scenarioRetired 500 "org1").store.users.map (fun u => u.DeletedAt)
        = [some 500]
    ∧ (DeleteOrganization scenarioDay 500 "org1").err = some OrganizationError.hasLogs :=
  ⟨scenarioRetired_produced, by decide,
   (DeleteOrganization_referential scenarioRetired 500 "org1" scenarioRetired_produced
    (by decide)).2.1,
   by decide, by decide, by decide⟩

/-- What `PersonService.GetPersonStats` returns for a person that exists. -/
theorem GetPersonStats_found (s : Store) (personHash organizationID : String)
    (hp : ∃ p ∈ s.persons,
      p.DeletedAt = none ∧ p.PersonHash = personHash ∧ p.OrganizationID = organizationID) :
    PersonService.GetPersonStats s personHash organizationID
      = Except.ok
          { New := 1,
            Repeat := (s.personLogs.countP fun l =>
              l.live && decide (l.PersonHash = personHash)
                && decide (l.OrganizationID = organizationID) : Nat) - 1,
            OrganizationID := organizationID } := by
  obtain ⟨p, hmem, hd, hh, ho⟩ := hp
  have hk : Person.keyedBy personHash organizationID p = true := by
    simp [Person.keyedBy, Base.live, hd, hh, ho]
  cases hf : s.persons.find? (Person.keyedBy personHash organizationID) with
  | none =>
    rw [List.find?_eq_none] at hf
    exact absurd hk (hf p hmem)
  | some q => simp only [PersonService.GetPersonStats, hf]

/-- C30, amended.  For every store in which the Person row exists,
`PersonService.GetPersonStats` returns a `Repeat` that is `>= 0` exactly when
the person has a PersonLog row in that organization that is not deleted; and
it is `>= 0` in every store the services produce. -/
theorem PersonService_GetPersonStats_nonneg (s : Store) (personHash organizationID : String)
    (hp : ∃ p ∈ s.persons,
      p.DeletedAt = none ∧ p.PersonHash = personHash ∧ p.OrganizationID = organizationID) :
    ∃ stats, PersonService.GetPersonStats s personHash organizationID = Except.ok stats
      ∧ (0 ≤ stats.Repeat ↔
          ∃ l ∈ s.personLogs, l.DeletedAt = none ∧ l.PersonHash = personHash
            ∧ l.OrganizationID = organizationID)
      ∧ (Produced s → 0 ≤ stats.Repeat) := by
  have hiff : (0 : Int) ≤ ((s.personLogs.countP fun l =>
        l.live && decide (l.PersonHash = personHash)
          && decide (l.OrganizationID = organizationID) : Nat) : Int) - 1 ↔
      ∃ l ∈ s.personLogs, l.DeletedAt = none ∧ l.PersonHash = personHash
        ∧ l.OrganizationID = organizationID := by
    constructor
    · intro h
      have hpos : 0 < s.personLogs.countP fun l =>
          l.live && decide (l.PersonHash = personHash)
            && decide (l.OrganizationID = organizationID) := by omega
      rw [List.countP_pos_iff] at hpos
      obtain ⟨l, hl, hq⟩ := hpos
      simp only [Base.live, Bool.and_eq_true, decide_eq_true_eq,
        Option.isNone_iff_eq_none] at hq
      exact ⟨l, hl, hq.1.1, hq.1.2, hq.2⟩
    · rintro ⟨l, hl, h1, h2, h3⟩
      have hpos : 0 < s.personLogs.countP fun l =>
          l.live && decide (l.PersonHash = personHash)
            && decide (l.OrganizationID = organizationID) := by
        rw [List.countP_pos_iff]
        exact ⟨l, hl, by simp [Base.live, h1, h2, h3]⟩
      omega
  refine ⟨_, GetPersonStats_found s personHash organizationID hp, hiff, ?_⟩
  intro hs
  rw [hiff]
  obtain ⟨p, hmem, hd, hh, ho⟩ := hp
  obtain ⟨l, hl, h1, h2, h3⟩ := hs.personsHaveLogs p hmem hd
  exact ⟨l, hl, h1, by rw [h2, hh], by rw [h3, ho]⟩

/-- The amended C30 on the scenario: `h1` has two detections and `Repeat` is
1. -/
theorem PersonService_GetPersonStats_nonneg_witness :
    (∃ p ∈ scenarioDay.persons,
      p.DeletedAt = none ∧ p.PersonHash = "h1" ∧ p.OrganizationID = "org1")
    ∧ (∃ stats, PersonService.GetPersonStats scenarioDay "h1" "org1" = Except.ok stats
      ∧ (0 ≤ stats.Repeat ↔
          ∃ l ∈ scenarioDay.personLogs, l.DeletedAt = none ∧ l.PersonHash = "h1"
            ∧ l.OrganizationID = "org1")
      ∧ (Produced scenarioDay → 0 ≤ stats.Repeat))
    ∧ PersonService.GetPersonStats scenarioDay "h1" "org1"
        = Except.ok { New := 1, Repeat := 1, OrganizationID := "org1" } :=
  ⟨by decide, PersonService_GetPersonStats_nonneg scenarioDay "h1" "org1" (by decide),
   by decide⟩

/-! ## C22: concurrent calls of the ledger -/

/-- `CreateOrUpdatePerson` is its two statements, run one after the other. -/
theorem CreateOrUpdatePerson_steps (s : Store) (personLog : PersonLog) :
    CreateOrUpdatePerson s personLog =
      match firstPerson s personLog with
      | none => createPerson s personLog
      | some person => updatePerson s person personLog := by
  unfold CreateOrUpdatePerson firstPerson createPerson updatePerson
  split <;> rfl

/-- A single call, scheduled twice, is `CreateOrUpdatePerson`. -/
theorem runSchedule_sequential (s : Store) (personLog : PersonLog) :
    runSchedule s [Caller.called personLog] [0, 0]
      = ((CreateOrUpdatePerson s personLog).store,
          [Caller.returned (CreateOrUpdatePerson s personLog).personLog
            (CreateOrUpdatePerson s personLog).result]) := by
  rw [CreateOrUpdatePerson_steps]
  cases h : firstPerson s personLog <;>
    simp [runSchedule, Caller.step, h]

/-- Replacing one element of a list moves a count by that element only. -/
theorem countP_set {α : Type} (p : α → Bool) (l : List α) (i : Nat) (x y : α)
    (h : l[i]? = some x) :
    (l.set i y).countP p + (if p x then 1 else 0) = l.countP p + (if p y then 1 else 0) := by
  induction l generalizing i with
  | nil => simp at h
  | cons a as ih =>
    cases i with
    | zero =>
      simp only [List.getElem?_cons_zero, Option.some.injEq] at h
      subst h
      simp only [List.set_cons_zero, List.countP_cons]
      omega
    | succ i =>
      simp only [List.getElem?_cons_succ] at h
      simp only [List.set_cons_succ, List.countP_cons]
      have := ih i h
      omega

/-- A rewrite that keeps a property of the rows keeps their count. -/
theorem countP_updateFirst {α : Type} (p q : α → Bool) (f : α → α) (l : List α)
    (hf : ∀ x, p (f x) = p x) : (updateFirst q f l).countP p = l.countP p := by
  induction l with
  | nil => rfl
  | cons a as ih =>
    unfold updateFirst
    split
    · simp only [List.countP_cons, hf]
    · simp only [List.countP_cons, ih]

/-- An element read at a position is an element of the list. -/
theorem mem_of_getElem? {α : Type} (l : List α) (i : Nat) (x : α) (h : l[i]? = some x) :
    x ∈ l := by
  rw [List.getElem?_eq_some_iff] at h
  obtain ⟨hi, rfl⟩ := h
  exact List.getElem_mem hi

/-- A property of all elements survives a replacement that has it. -/
theorem all_set {α : Type} (p : α → Bool) (l : List α) (i : Nat) (y : α)
    (hl : l.all p = true) (hy : p y = true) : (l.set i y).all p = true := by
  rw [List.all_eq_true] at hl ⊢
  intro x hx
  rcases List.mem_or_eq_of_mem_set hx with h | rfl
  · exact hl x h
  · exact hy

/-- Among calls that have not written, none has created the row. -/
theorem countP_waiting (callers : List Caller) (h : callers.all Caller.waiting = true) :
    callers.countP Caller.created = 0 := by
  rw [List.countP_eq_zero]
  rw [List.all_eq_true] at h
  intro c hc
  have := h c hc
  cases c <;> simp [Caller.waiting, Caller.created] at this ⊢

/-- One statement of one call keeps the state of the race. -/
theorem raceInvariant_step (h o : String) (s : Store) (callers : List Caller) (i : Nat)
    (c : Caller) (hc : callers[i]? = some c) (hinv : raceInvariant h o s callers) :
    raceInvariant h o (c.step s).1 (callers.set i (c.step s).2) := by
  obtain ⟨hkeys, hcases⟩ := hinv
  have hmem := mem_of_getElem? callers i c hc
  have hkey := hkeys c hmem
  have hkeys' : ∀ c' : Caller, (c'.personLog.PersonHash = h ∧ c'.personLog.OrganizationID = o) →
      ∀ x ∈ callers.set i c', x.personLog.PersonHash = h ∧ x.personLog.OrganizationID = o := by
    intro c' hc' x hx
    rcases List.mem_or_eq_of_mem_set hx with hx | rfl
    · exact hkeys x hx
    · exact hc'
  rcases hcases with ⟨hnone, hwait⟩ | ⟨hone, hkeyed, hcreated⟩
  · -- no row of the hash yet
    have hcw : c.waiting = true := (List.all_eq_true.mp hwait) c hmem
    have hfree : ∀ p ∈ s.persons, ¬ p.PersonHash = h := by
      rw [List.countP_eq_zero] at hnone
      intro p hp
      simpa using hnone p hp
    cases c with
    | called personLog =>
      simp only [Caller.personLog] at hkey
      have hfirst : firstPerson s personLog = none := by
        unfold firstPerson
        rw [List.find?_eq_none]
        intro p hp hk
        simp only [Person.keyedBy, Bool.and_eq_true, decide_eq_true_eq] at hk
        exact hfree p hp (by rw [hk.1.2, hkey.1])
      simp only [Caller.step, hfirst]
      exact ⟨hkeys' _ hkey, Or.inl ⟨hnone, all_set _ _ _ _ hwait rfl⟩⟩
    | missing personLog =>
      simp only [Caller.personLog] at hkey
      have hany : s.persons.any (fun p => decide (p.PersonHash = personLog.PersonHash))
          = false := by
        rw [List.any_eq_false]
        intro p hp
        simpa [hkey.1] using hfree p hp
      simp only [Caller.step, createPerson, hany, Bool.false_eq_true, if_false]
      refine ⟨hkeys' _ hkey, Or.inr ⟨?_, ?_, ?_⟩⟩
      · simp only [List.countP_append, hnone, List.countP_cons, List.countP_nil, hkey.1,
          decide_True, if_true]
      · intro p hp hph
        simp only [List.mem_append, List.mem_singleton] at hp
        rcases hp with hp | rfl
        · exact absurd hph (hfree p hp)
        · simp [Person.keyedBy, Base.live, hkey.1, hkey.2]
      · have hset := countP_set Caller.created callers i (Caller.missing personLog)
          (Caller.returned { personLog with IsNewPerson := true }
            (Except.ok
              { ID := RowID.generated, PersonHash := personLog.PersonHash,
                FirstSeen := personLog.Timestamp, LastSeen := personLog.Timestamp,
                VisitCount := 1, OrganizationID := personLog.OrganizationID })) hc
        simp only [Caller.created, Bool.false_eq_true, if_false, if_true,
          countP_waiting callers hwait] at hset
        omega
    | found personLog person => simp [Caller.waiting] at hcw
    | returned personLog result => simp [Caller.waiting] at hcw
  · -- the row is there
    have hex : ∃ p ∈ s.persons, p.PersonHash = h := by
      have hpos : 0 < s.persons.countP (fun p => decide (p.PersonHash = h)) := by omega
      rw [List.countP_pos_iff] at hpos
      obtain ⟨p, hp, hq⟩ := hpos
      exact ⟨p, hp, by simpa using hq⟩
    cases c with
    | called personLog =>
      simp only [Caller.personLog] at hkey
      have hset := fun y => countP_set Caller.created callers i (Caller.called personLog) y hc
      cases hfirst : firstPerson s personLog with
      | none =>
        simp only [Caller.step, hfirst]
        refine ⟨hkeys' _ hkey, Or.inr ⟨hone, hkeyed, ?_⟩⟩
        have := hset (Caller.missing personLog)
        simp only [Caller.created, Bool.false_eq_true, if_false] at this
        omega
      | some person =>
        simp only [Caller.step, hfirst]
        refine ⟨hkeys' _ hkey, Or.inr ⟨hone, hkeyed, ?_⟩⟩
        have := hset (Caller.found personLog person)
        simp only [Caller.created, Bool.false_eq_true, if_false] at this
        omega
    | missing personLog =>
      simp only [Caller.personLog] at hkey
      have hany : s.persons.any (fun p => decide (p.PersonHash = personLog.PersonHash))
          = true := by
        rw [List.any_eq_true]
        obtain ⟨p, hp, hph⟩ := hex
        exact ⟨p, hp, by simp [hph, hkey.1]⟩
      simp only [Caller.step, createPerson, hany, if_true]
      refine ⟨hkeys' _ hkey, Or.inr ⟨hone, hkeyed, ?_⟩⟩
      have := countP_set Caller.created callers i (Caller.missing personLog)
        (Caller.returned personLog (Except.error PersonError.create)) hc
      simp only [Caller.created, Bool.false_eq_true, if_false] at this
      omega
    | found personLog person =>
      simp only [Caller.personLog] at hkey
      simp only [Caller.step, updatePerson]
      refine ⟨hkeys' _ hkey, Or.inr ⟨?_, ?_, ?_⟩⟩
      · show (updateFirst _ _ s.persons).countP _ = 1
        refine Eq.trans (countP_updateFirst _ _ _ _ ?_) hone
        intro x
        rfl
      · intro p hp hph
        rcases mem_updateFirst_of _ _ _ _ hp with hp | ⟨y, hy, _, rfl⟩
        · exact hkeyed p hp hph
        · have := hkeyed y hy hph
          simpa [Person.keyedBy, Base.live] using this
      · have := countP_set Caller.created callers i (Caller.found personLog person)
          (Caller.returned { personLog with IsNewPerson := false }
            (Except.ok { person with LastSeen := personLog.Timestamp })) hc
        simp only [Caller.created, Bool.false_eq_true, if_false] at this
        omega
    | returned personLog result =>
      simp only [Caller.step]
      refine ⟨hkeys' _ hkey, Or.inr ⟨hone, hkeyed, ?_⟩⟩
      have := countP_set Caller.created callers i (Caller.returned personLog result)
        (Caller.returned personLog result) hc
      omega

/-- Every schedule keeps the state of the race. -/
theorem raceInvariant_run (h o : String) : ∀ (schedule : List Nat) (s : Store)
    (callers : List Caller), raceInvariant h o s callers →
    raceInvariant h o (runSchedule s callers schedule).1 (runSchedule s callers schedule).2 := by
  intro schedule
  induction schedule with
  | nil => intro s callers hinv; exact hinv
  | cons i rest ih =>
    intro s callers hinv
    unfold runSchedule
    cases hc : callers[i]? with
    | none => exact ih s callers hinv
    | some c => exact ih _ _ (raceInvariant_step h o s callers i c hc hinv)

/-- A schedule neither adds nor drops a call. -/
theorem runSchedule_length : ∀ (schedule : List Nat) (s : Store) (callers : List Caller),
    (runSchedule s callers schedule).2.length = callers.length := by
  intro schedule
  induction schedule with
  | nil => intro s callers; rfl
  | cons i rest ih =>
    intro s callers
    unfold runSchedule
    cases hc : callers[i]? with
    | none => exact ih s callers
    | some c =>
      simp only
      rw [ih, List.length_set]

/-- The race on a free hash.  In a store in which no Person row holds the
person hash, for any number of calls for one hash and organization and any
schedule of their statements that lets every call return: the store then
holds exactly one Person row of the hash, not deleted and of the
organization, and exactly one call observes that it created it. -/
theorem concurrent_create_settled (s : Store) (logs : List PersonLog) (schedule : List Nat)
    (h o : String) (hlogs : logs ≠ [])
    (hkeys : ∀ l ∈ logs, l.PersonHash = h ∧ l.OrganizationID = o)
    (hfree : ∀ p ∈ s.persons, p.PersonHash ≠ h)
    (hdone : (runSchedule s (logs.map Caller.called) schedule).2.all Caller.isReturned = true) :
    ((runSchedule s (logs.map Caller.called) schedule).1.persons.filter
        fun p => decide (p.PersonHash = h)).length = 1
    ∧ (∀ p ∈ (runSchedule s (logs.map Caller.called) schedule).1.persons,
        p.PersonHash = h → p.DeletedAt = none ∧ p.OrganizationID = o)
    ∧ (runSchedule s (logs.map Caller.called) schedule).2.countP Caller.created = 1 := by
  have hinit : raceInvariant h o s (logs.map Caller.called) := by
    refine ⟨?_, Or.inl ⟨?_, ?_⟩⟩
    · intro c hc
      simp only [List.mem_map] at hc
      obtain ⟨l, hl, rfl⟩ := hc
      exact hkeys l hl
    · rw [List.countP_eq_zero]
      intro p hp
      simpa using hfree p hp
    · rw [List.all_eq_true]
      intro c hc
      simp only [List.mem_map] at hc
      obtain ⟨l, _, rfl⟩ := hc
      rfl
  obtain ⟨_, hcases⟩ := raceInvariant_run h o schedule s _ hinit
  rcases hcases with ⟨_, hwait⟩ | ⟨hone, hkeyed, hcreated⟩
  · exfalso
    have hlen := runSchedule_length schedule s (logs.map Caller.called)
    cases hr : (runSchedule s (logs.map Caller.called) schedule).2 with
    | nil =>
      rw [hr] at hlen
      simp only [List.length_nil, List.length_map] at hlen
      exact hlogs (List.length_eq_zero.mp hlen.symm)
    | cons c rest =>
      rw [hr] at hwait hdone
      simp only [List.all_cons, Bool.and_eq_true] at hwait hdone
      cases c <;> simp [Caller.waiting, Caller.isReturned] at hwait hdone
  · refine ⟨?_, ?_, hcreated⟩
    · rw [← List.countP_eq_length_filter]
      exact hone
    · intro p hp hph
      have := hkeyed p hp hph
      simp only [Person.keyedBy, Base.live, Bool.and_eq_true, decide_eq_true_eq,
        Option.isNone_iff_eq_none] at this
      exact ⟨this.1.1, this.2⟩

/-- The race on a hash that is taken.  In a store in which a row holds the
person hash and no live row is of the hash and the organization, every
schedule leaves the store as it was, and no call finds or creates a row. -/
theorem concurrent_create_blocked (s : Store) (h o : String)
    (hnone : ∀ p ∈ s.persons, Person.keyedBy h o p = false)
    (htaken : ∃ p ∈ s.persons, p.PersonHash = h) :
    ∀ (schedule : List Nat) (callers : List Caller),
      (∀ c ∈ callers, (c.personLog.PersonHash = h ∧ c.personLog.OrganizationID = o)
        ∧ c.blocked = true) →
      (runSchedule s callers schedule).1 = s
      ∧ ∀ c ∈ (runSchedule s callers schedule).2,
          (c.personLog.PersonHash = h ∧ c.personLog.OrganizationID = o) ∧ c.blocked = true := by
  intro schedule
  induction schedule with
  | nil => intro callers hinv; exact ⟨rfl, hinv⟩
  | cons i rest ih =>
    intro callers hinv
    unfold runSchedule
    cases hc : callers[i]? with
    | none => exact ih callers hinv
    | some c =>
      simp only
      have hmem := mem_of_getElem? callers i c hc
      obtain ⟨hkey, hblocked⟩ := hinv c hmem
      have hstep : (c.step s).1 = s
          ∧ ((c.step s).2.personLog.PersonHash = h ∧ (c.step s).2.personLog.OrganizationID = o)
          ∧ (c.step s).2.blocked = true := by
        cases c with
        | called personLog =>
          simp only [Caller.personLog] at hkey
          have hfirst : firstPerson s personLog = none := by
            unfold firstPerson
            rw [List.find?_eq_none, hkey.1, hkey.2]
            intro p hp
            simp [hnone p hp]
          simp only [Caller.step, hfirst]
          exact ⟨trivial, hkey, rfl⟩
        | missing personLog =>
          simp only [Caller.personLog] at hkey
          have hany : s.persons.any (fun p => decide (p.PersonHash = personLog.PersonHash))
              = true := by
            rw [List.any_eq_true]
            obtain ⟨p, hp, hph⟩ := htaken
            exact ⟨p, hp, by simp [hph, hkey.1]⟩
          simp only [Caller.step, createPerson, hany, if_true]
          exact ⟨trivial, hkey, rfl⟩
        | found personLog person => simp [Caller.blocked] at hblocked
        | returned personLog result =>
          simp only [Caller.step]
          exact ⟨trivial, hkey, hblocked⟩
      rw [hstep.1]
      apply ih
      intro x hx
      rcases List.mem_or_eq_of_mem_set hx with hx | rfl
      · exact hinv x hx
      · exact hstep.2

/-- C22 (concurrent creation race) fails on a store that holds no Person of
the hash and the organization while the hash is held by a row of another
organization.  `org2` has seen `h1`; two calls for `(h1, org1)` run
concurrently.  Under every schedule of their statements the store is left as
it was, with no Person row of `(h1, org1)`, and no call observes that it
created a row: both `First` miss, and both `Create` are refused by the unique
index on `person_hash`. -/
theorem CreateOrUpdatePerson_race_blocked :
    twoTenantsSeen.persons.map (fun p => (p.PersonHash, p.OrganizationID, p.DeletedAt))
      = [("h1", "org2", none)]
    ∧ (∀ schedule : List Nat,
        (runSchedule twoTenantsSeen
          [Caller.called (ledgerLog 100), Caller.called (ledgerLog 200)] schedule).1
          = twoTenantsSeen
        ∧ (runSchedule twoTenantsSeen
            [Caller.called (ledgerLog 100), Caller.called (ledgerLog 200)] schedule).2.countP
            Caller.created = 0)
    ∧ runSchedule twoTenantsSeen
        [Caller.called (ledgerLog 100), Caller.called (ledgerLog 200)] [0, 1, 0, 1]
      = (twoTenantsSeen,
          [Caller.returned (ledgerLog 100) (Except.error PersonError.create),
           Caller.returned (ledgerLog 200) (Except.error PersonError.create)])
    ∧ runSchedule twoTenantsSeen
        [Caller.called (ledgerLog 100), Caller.called (ledgerLog 200)] [0, 0, 1, 1]
      = (twoTenantsSeen,
          [Caller.returned (ledgerLog 100) (Except.error PersonError.create),
           Caller.returned (ledgerLog 200) (Except.error PersonError.create)]) := by
  refine ⟨by decide, ?_, by decide, by decide⟩
  intro schedule
  have hb := concurrent_create_blocked twoTenantsSeen "h1" "org1" (by decide)
    ⟨_, List.mem_singleton_self _, rfl⟩ schedule
    [Caller.called (ledgerLog 100), Caller.called (ledgerLog 200)] (by decide)
  refine ⟨hb.1, ?_⟩
  rw [List.countP_eq_zero]
  intro c hc
  have := (hb.2 c hc).2
  cases c with
  | returned personLog result =>
    cases result <;> simp [Caller.blocked, Caller.created] at this ⊢
  | _ => simp [Caller.created]

/-- The race on the store of the scenario, where `h1` is free: both calls
read before either writes, the second call to write is refused, and one row
and one creator are left. -/
theorem concurrent_create_settled_scenario :
    (((runSchedule scenarioStore
        [Caller.called (ledgerLog 100), Caller.called (ledgerLog 200)] [0, 1, 1, 0]).1.persons.filter
        fun p => decide (p.PersonHash = "h1")).length = 1
      ∧ (∀ p ∈ (runSchedule scenarioStore
          [Caller.called (ledgerLog 100), Caller.called (ledgerLog 200)] [0, 1, 1, 0]).1.persons,
          p.PersonHash = "h1" → p.DeletedAt = none ∧ p.OrganizationID = "org1")
      ∧ (runSchedule scenarioStore
          [Caller.called (ledgerLog 100), Caller.called (ledgerLog 200)]
          [0, 1, 1, 0]).2.countP Caller.created = 1)
    ∧ runSchedule scenarioStore
        [Caller.called (ledgerLog 100), Caller.called (ledgerLog 200)] [0, 1, 1, 0]
      = ({ scenarioStore with
            persons := [{ ID := RowID.generated, PersonHash := "h1", FirstSeen := 200,
                          LastSeen := 200, VisitCount := 1, OrganizationID := "org1" }] },
          [Caller.returned (ledgerLog 100) (Except.error PersonError.create),
           Caller.returned { ledgerLog 200 with IsNewPerson := true }
             (Except.ok { ID := RowID.generated, PersonHash := "h1", FirstSeen := 200,
                          LastSeen := 200, VisitCount := 1, OrganizationID := "org1" })]) :=
  ⟨concurrent_create_settled scenarioStore [ledgerLog 100, ledgerLog 200] [0, 1, 1, 0]
    "h1" "org1" (by decide) (by decide) (by decide) (by decide), by decide⟩

end Manta
